import Mathlib

/-!
# qpx-gamma: the 2D coincidence spectrum and the Pixie-4 list-mode parser

A shallow embedding of

* `Qpx::Spectrum::Spectrum2D` (src/engine/spectrum/spectrum2D.cpp): the sparse
  storage, `addEvent`, `_get_count`, the run-length channel-data codec
  (`_channels_to_xml`, `_channels_from_xml`) and `initialize`;
* `Qpx::Pixie4::worker_parse` (src/src/producers/pixie4/pixie4.cpp) together with
  `Qpx::Hit` (src/engine/hit.h).

Machine integers are natural numbers with explicit reductions modulo `2^16`
and `2^64` wherever the C++ code can wrap.
-/

namespace Qpx

/-! ## Sparse storage: `std::map<std::pair<uint16_t,uint16_t>, PreciseFloat>` -/

/-- A storage key, the pair of `uint16_t` bin coordinates. -/
abbrev Point := Nat × Nat

/-- The ordering of `std::pair`: lexicographic, first component first. -/
def pointLt (p q : Point) : Bool :=
  decide (p.1 < q.1) || (decide (p.1 = q.1) && decide (p.2 < q.2))

/-- Modelled from the spec: `PreciseFloat` (precise_float.h is not among the sources) is
"an arbitrary-precision (or at minimum 64-bit-safe) count"; counts are natural numbers. -/
abbrev PreciseFloat := Nat

/-- The map `spectrum_`, as the list of its entries in iteration (ascending key) order. -/
abbrev SpectrumMap := List (Point × PreciseFloat)

/-- The member `std::map::count`: 1 when the key is present, else 0 (as a Boolean). -/
def mapCount (m : SpectrumMap) (p : Point) : Bool :=
  m.any (fun e => decide (e.1 = p))

/-- The member `std::map::at`: the mapped count, `none` for the `std::out_of_range` throw. -/
def mapAt : SpectrumMap → Point → Option PreciseFloat
  | [], _ => none
  | (q, c) :: rest, p => if q = p then some c else mapAt rest p

/-- The statement `m[p] = f (m[p])`: `operator[]` value-initialises a missing entry to 0 at
its sorted position, then the entry is overwritten with `f` of its content. -/
def mapModify (f : PreciseFloat → PreciseFloat) (p : Point) : SpectrumMap → SpectrumMap
  | [] => [(p, f 0)]
  | (q, c) :: rest =>
    if p = q then (q, f c) :: rest
    else if pointLt p q then (p, f 0) :: (q, c) :: rest
    else (q, c) :: mapModify f p rest

/-- Keys strictly ascending in the `std::pair` order: the shape of every `std::map`. -/
def KeysAscending (m : SpectrumMap) : Prop :=
  m.Pairwise (fun a b => pointLt a.1 b.1 = true)

/-! ## Events as seen by the spectrum -/

/-- Modelled from the spec: `DigitizedVal` (digitized_value.h is not among the sources), a
digitized value together with the number of bits it was digitized with. -/
structure DigitizedVal where
  val_ : Nat
  bits_ : Nat
deriving DecidableEq, Repr

/-- Modelled from the spec: `DigitizedVal::val(bits)`, "the event's field value
truncated/shifted to the configured bit resolution", returned as a `uint16_t`. -/
def DigitizedVal.val (d : DigitizedVal) (bits : Nat) : Nat :=
  if d.bits_ = 0 then 0
  else if bits ≤ d.bits_ then (d.val_ / 2 ^ (d.bits_ - bits)) % 65536
  else (d.val_ * 2 ^ (bits - d.bits_)) % 65536

/-- Modelled from the spec: `DigitizedVal::set_val`, which stores the 16-bit value. -/
def DigitizedVal.set_val (d : DigitizedVal) (v : Nat) : DigitizedVal :=
  { d with val_ := v % 65536 }

/-- An `Event` as `addEvent` reads it: the map `hits` from channel to hit, each hit
reduced to its `energy` member (the only member `addEvent` uses). -/
structure Event where
  hits : List (Int × DigitizedVal)
deriving DecidableEq, Repr

/-- The call `newEvent.hits.count(ch)`. -/
def Event.count (e : Event) (ch : Int) : Bool :=
  e.hits.any (fun h => decide (h.1 = ch))

/-- The call `newEvent.hits.at(ch).energy`, guarded by `count` in the source. -/
def Event.energyAt (e : Event) (ch : Int) : DigitizedVal :=
  match e.hits.find? (fun h => decide (h.1 = ch)) with
  | some h => h.2
  | none => ⟨0, 0⟩

/-! ## The 2D spectrum -/

/-- The state of a `Spectrum2D`: the members the embedded methods read or write. -/
structure Spectrum2D where
  /-- The gates of `pattern_add_`. -/
  pattern_add_gates : List Bool
  /-- The value `get_attr("buffered").value_int`. -/
  attr_buffered : Int
  /-- The string `my_type()` returns. -/
  my_type : String
  pattern_ : List Int
  buffered_ : Bool
  spectrum_ : SpectrumMap
  temp_spectrum_ : SpectrumMap
  dimensions : Nat
  type : String
  bits : Nat
  max_chan : Nat
  total_count : PreciseFloat
  /-- The member `metadata_.name`. -/
  name : String := ""
  /-- The names (`name_`) of `metadata_.detectors`; calibrations are not represented. -/
  detectors : List String := []
  /-- The gates of `pattern_coinc_`. -/
  pattern_coinc_gates : List Bool := []
  /-- The gates of `pattern_anti_`. -/
  pattern_anti_gates : List Bool := []
  /-- Modelled from the spec: the value `value_int` of the attribute `symmetrized` in
  `metadata_.attributes` (the container is not among the sources), "a boolean metadata
  attribute" that `replace` overwrites. -/
  attr_symmetrized : Int := 0
deriving DecidableEq, Repr

/-- The coordinates `(chan1_en, chan2_en)` that `addEvent` computes for an event: the
energy of the hit on each axis channel at the spectrum resolution, 0 for an absent hit.
`pattern_` has two entries once `initialize` succeeded. -/
def eventCoords (s : Spectrum2D) (e : Event) : Point :=
  let chan1_en :=
    if e.count (s.pattern_.getD 0 0) then (e.energyAt (s.pattern_.getD 0 0)).val s.bits else 0
  let chan2_en :=
    if e.count (s.pattern_.getD 1 0) then (e.energyAt (s.pattern_.getD 1 0)).val s.bits else 0
  (chan1_en, chan2_en)

/-- The method `Spectrum2D::addEvent`. -/
def addEvent (s : Spectrum2D) (newEvent : Event) : Spectrum2D :=
  let p := eventCoords s newEvent
  let spectrum1 := mapModify (fun c => c + 1) p s.spectrum_
  let temp1 :=
    if s.buffered_ then mapModify (fun _ => (mapAt spectrum1 p).getD 0) p s.temp_spectrum_
    else s.temp_spectrum_
  let max1 := if p.1 > s.max_chan then p.1 else s.max_chan
  let max2 := if p.2 > max1 then p.2 else max1
  { s with spectrum_ := spectrum1, temp_spectrum_ := temp1, max_chan := max2 }

/-- The method `Spectrum2D::_get_count`; `none` would be the throw of `std::map::at`. -/
def _get_count (s : Spectrum2D) (list : List Nat) : Option PreciseFloat :=
  if list.length ≠ 2 then some 0
  else
    let point : Point := (list.getD 0 0, list.getD 1 0)
    if mapCount s.spectrum_ point then mapAt s.spectrum_ point else some 0

/-! ## The run-length channel-data codec

The text is modelled by its blank-separated words. `_channels_to_xml` writes every word
followed by one blank, so a non-empty text ends in a blank; the reading loop of
`_channels_from_xml` runs `while (channeldata.rdbuf()->in_avail())`, which is still true
when only that final blank is left. -/

/-- A word of the channel data: the word `+`; the decimal numeral of a natural number as
`operator<<` prints it (`num 0` is the word `0`; counts are printed with `max_digits10`
significant digits, which prints a natural count as its decimal numeral, and
`lexical_cast` reads the numeral back); or any other word, such as `00`, `0.0` or `x`,
kept as what `lexical_cast<uint16_t>` and `lexical_cast<PreciseFloat>` make of it, `none`
for the `bad_lexical_cast` throw. The source compares the word as a string with `+` and
with `0`, so a word `text` is neither. -/
inductive Token where
  | plus : Token
  | num (n : Nat) : Token
  | text (asIndex : Option Nat) (asCount : Option PreciseFloat) : Token
deriving DecidableEq, Repr

/-- The content of the `std::stringstream channeldata`: the words not yet read, and
whether a blank follows the last word. -/
structure TokenStream where
  words : List Token
  blank : Bool
deriving DecidableEq, Repr

/-- The test `channeldata.rdbuf()->in_avail()`: some character is left to read. -/
def TokenStream.in_avail (s : TokenStream) : Bool :=
  !s.words.isEmpty || s.blank

/-- The number of items (words, final blank) left in the stream. -/
def TokenStream.size (s : TokenStream) : Nat :=
  s.words.length + (if s.blank then 1 else 0)

/-- The extraction `channeldata >> target`: the next word when there is one. With no word
left the extraction skips the final blank, hits the end of the text and fails, and a failed
extraction leaves `target` as it was (`old`). -/
def TokenStream.read (s : TokenStream) (old : Option Token) : Option Token × TokenStream :=
  match s.words with
  | w :: rest => (some w, { s with words := rest })
  | [] => (old, { words := [], blank := false })

/-- The loop of `_channels_to_xml` from the entry list on, with the locals `i` and `j`;
the result is the list of words written. -/
def encodeFrom (i j : Nat) : SpectrumMap → List Token
  | [] => []
  | ((this_i, this_j), count) :: rest =>
    let row : List Token :=
      if this_i > i then
        [Token.plus, Token.num (this_i - i)] ++
          (if this_j > 0 then [Token.num 0, Token.num this_j] else [])
      else []
    let i1 := if this_i > i then this_i else i
    let j1 := if this_i > i then this_j + 1 else j
    let col : List Token :=
      if this_j > j1 then [Token.num 0, Token.num (this_j - j1)] else []
    row ++ col ++ [Token.num count] ++ encodeFrom i1 (this_j + 1) rest

/-- The method `Spectrum2D::_channels_to_xml`: every word is followed by a blank. -/
def _channels_to_xml (s : Spectrum2D) : TokenStream :=
  let words := encodeFrom 0 0 s.spectrum_
  { words := words, blank := !words.isEmpty }

/-- The locals of `_channels_from_xml` and the two members it writes. An empty
`std::string` is `none`. -/
structure XmlDecoder where
  i : Nat
  j : Nat
  max_i : Nat
  max_chan : Nat
  spectrum_ : SpectrumMap
  numero : Option Token
  numero_z : Option Token
deriving DecidableEq, Repr

/-- The cast `boost::lexical_cast<uint16_t>`: `none` is the `bad_lexical_cast` throw. -/
def lexical_cast_uint16 : Option Token → Option Nat
  | some (Token.num n) => if n < 65536 then some n else none
  | some (Token.text (some n) _) => if n < 65536 then some n else none
  | _ => none

/-- The cast `boost::lexical_cast<PreciseFloat>`: `none` is the throw. -/
def lexical_cast_PreciseFloat : Option Token → Option PreciseFloat
  | some (Token.num n) => some n
  | some (Token.text _ c) => c
  | _ => none

/-- One pass of the body of the reading loop of `_channels_from_xml`. -/
def decodeBody (st : XmlDecoder) (s : TokenStream) : Option (XmlDecoder × TokenStream) :=
  let r := s.read st.numero
  let numero := r.1
  match numero with
  | some Token.plus =>
    let rz := r.2.read st.numero_z
    let max_chan := if st.j > st.max_chan then st.j else st.max_chan
    match lexical_cast_uint16 rz.1 with
    | none => none
    | some n =>
      let i := (st.i + n) % 65536
      let j := 0
      let max_i := if j ≠ 0 then i else st.max_i
      some ({ st with numero := numero, numero_z := rz.1, max_chan := max_chan,
                      i := i, j := j, max_i := max_i }, rz.2)
  | some (Token.num 0) =>
    let rz := r.2.read st.numero_z
    match lexical_cast_uint16 rz.1 with
    | none => none
    | some n =>
      some ({ st with numero := numero, numero_z := rz.1, j := (st.j + n) % 65536 }, rz.2)
  | _ =>
    match lexical_cast_PreciseFloat numero with
    | none => none
    | some c =>
      some ({ st with numero := numero,
                      spectrum_ := mapModify (fun _ => c) (st.i, st.j) st.spectrum_,
                      j := (st.j + 1) % 65536 }, r.2)

/-- The reading loop of `_channels_from_xml`. Every pass consumes at least one item of the
stream, so with `fuel` at least the stream size the loop has left by its own test when the
fuel is used up. -/
def decodeLoop : Nat → XmlDecoder → TokenStream → Option XmlDecoder
  | 0, st, _ => some st
  | fuel + 1, st, s =>
    if s.in_avail then
      match decodeBody st s with
      | none => none
      | some r => decodeLoop fuel r.1 r.2
    else some st

/-- The method `Spectrum2D::_channels_from_xml`: the returned `max_chan` and the new
state; `none` when a `lexical_cast` throws. -/
def _channels_from_xml (s : Spectrum2D) (thisData : TokenStream) : Option (Nat × Spectrum2D) :=
  let st0 : XmlDecoder :=
    { i := 0, j := 0, max_i := 0, max_chan := 0, spectrum_ := [],
      numero := none, numero_z := none }
  match decodeLoop thisData.size st0 thisData with
  | none => none
  | some st =>
    let max_chan := if st.max_i > st.max_chan then st.max_i else st.max_chan
    some (max_chan, { s with spectrum_ := st.spectrum_, max_chan := max_chan })

/-! ## `Spectrum2D::initialize` -/

/-- The first loop of `initialize`: the number of set gates. -/
def countAdds (gts : List Bool) : Nat :=
  (List.range gts.length).foldl (fun adds i => if gts.getD i false then adds + 1 else adds) 0

/-- The second loop of `initialize`: `pattern_[adds] = i` for every set gate `i`; the
state is `(pattern_, adds)`. -/
def fillPattern (gts : List Bool) (pattern_ : List Int) : List Int × Nat :=
  (List.range gts.length).foldl
    (fun st i => if gts.getD i false then (st.1.set st.2 (i : Int), st.2 + 1) else st)
    (pattern_, 0)

/-- The call `pattern_.resize(2, 0)`. -/
def resize2 (pattern_ : List Int) : List Int :=
  (pattern_ ++ [0, 0]).take 2

/-- The method `Spectrum2D::initialize`. The base-class `Spectrum::initialize` it calls
first is not among the sources and is the parameter `base`. -/
def initialize2D (base : Spectrum2D → Spectrum2D) (s0 : Spectrum2D) : Bool × Spectrum2D :=
  let s := base s0
  let gts := s.pattern_add_gates
  if countAdds gts ≠ 2 then (false, s)
  else
    (true, { s with dimensions := 2,
                    pattern_ := (fillPattern gts (resize2 s.pattern_)).1,
                    buffered_ := decide (s.attr_buffered ≠ 0),
                    type := s.my_type })

/-! ## Hits (src/engine/hit.h) -/

/-- Modelled from the spec: `TimeStamp` (time_stamp.h is not among the sources), "a native
tick count expressed against the schema's timebase". -/
structure TimeStamp where
  time_native_ : Nat
  timebase_multiplier_ : Nat
  timebase_divider_ : Nat
deriving DecidableEq, Repr

/-- Modelled from the spec: `TimeStamp::make`, a timestamp of the same timebase with the
given native tick count. -/
def TimeStamp.make (t : TimeStamp) (native : Nat) : TimeStamp :=
  { t with time_native_ := native }

/-- Modelled from the spec: `TimeStamp::operator<`, the order of the native tick counts
(the timestamps of one decoding share the timebase of the hit model). -/
def TimeStamp.lt (a b : TimeStamp) : Bool :=
  decide (a.time_native_ < b.time_native_)

/-- The struct `HitModel`: the members the `Hit` constructor reads. -/
structure HitModel where
  timebase : TimeStamp
  values : List DigitizedVal
  tracelength : Nat
deriving DecidableEq, Repr

/-- The class `Hit`. -/
structure Hit where
  source_channel_ : Int
  timestamp_ : TimeStamp
  values_ : List DigitizedVal
  trace_ : List Nat
deriving DecidableEq, Repr

/-- The constructor `Hit(int16_t sourcechan, const HitModel &model)`. -/
def Hit.new (sourcechan : Int) (model : HitModel) : Hit :=
  { source_channel_ := sourcechan
    timestamp_ := model.timebase
    values_ := model.values
    trace_ := List.replicate model.tracelength 0 }

/-- The setter `Hit::set_timestamp_native`. -/
def Hit.set_timestamp_native (h : Hit) (native : Nat) : Hit :=
  { h with timestamp_ := h.timestamp_.make native }

/-- The setter `Hit::set_value`. -/
def Hit.set_value (h : Hit) (idx val : Nat) : Hit :=
  if idx < h.values_.length then
    { h with values_ := h.values_.set idx ((h.values_.getD idx ⟨0, 0⟩).set_val val) }
  else h

/-- The setter `Hit::set_trace`: the first `min(trc.size(), trace_.size())` samples. -/
def Hit.set_trace (h : Hit) (trc : List Nat) : Hit :=
  let len := min trc.length h.trace_.length
  { h with trace_ := trc.take len ++ h.trace_.drop len }

/-- The comparator `Hit::operator<`. -/
def Hit.lt (a b : Hit) : Bool :=
  a.timestamp_.lt b.timestamp_

/-- The call `ordered.insert(one_hit)` on a `std::multiset<Hit>`, kept as the list of its
elements in iteration order: the new element goes before the first element it is less
than, after every element equivalent to it. -/
def multiset_insert (h : Hit) : List Hit → List Hit
  | [] => [h]
  | e :: rest => if h.lt e then h :: e :: rest else e :: multiset_insert h rest

/-! ## The list-mode parser `Pixie4::worker_parse`

The buffer `buff16` is the `uint16_t` view of `spill->data`, a list of 16-bit words; a read
outside the list (undefined in C++) yields 0. The read index `idx` is a `uint32_t`: every
event starts below `list_mem_len16` and advances `idx` by at most
`3 + NUMBER_OF_CHANNELS * 65543` words (`decodeBuffer_idx_ub` below), so with the
constants of the vendor header it never reaches `2^32` and is a natural number here. -/

/-- The constants of the vendor header and the members of the `Pixie4` object that
`worker_parse` copies before its loop. -/
structure ParseContext where
  NUMBER_OF_CHANNELS : Nat
  max_buf_len : Nat
  list_mem_len16 : Nat
  channel_indices : List (List Int)
  model : HitModel
deriving DecidableEq, Repr

/-- The read position, with the log of the buffer indices read so far (latest first). -/
structure Cursor where
  idx : Nat
  reads : List Nat
deriving DecidableEq, Repr

/-- The word `buff16[i]`. -/
def word (buff16 : List Nat) (i : Nat) : Nat :=
  buff16.getD i 0 % 65536

/-- The expression `buff16[idx++]`. -/
def rd (buff16 : List Nat) (cur : Cursor) : Nat × Cursor :=
  (word buff16 cur.idx, { idx := cur.idx + 1, reads := cur.idx :: cur.reads })

/-- The statement `idx += n`. -/
def Cursor.skip (cur : Cursor) (n : Nat) : Cursor :=
  { cur with idx := cur.idx + n }

/-- The conversion of an `int32_t` to `int16_t`. -/
def toInt16 (x : Int) : Int :=
  (x + 32768) % 65536 - 32768

/-- The local `sourcechan` of the channel loop (lines 1474-1478). -/
def sourceChannel (ctx : ParseContext) (buf_module i : Nat) : Int :=
  match ctx.channel_indices[buf_module]? with
  | none => -1
  | some row =>
    match row[i]? with
    | none => -1
    | some v => if 0 ≤ v then toInt16 v else -1

/-- The header of a record (a buffer of the list-mode memory), as the loop keeps it. -/
structure RecordHeader where
  start : Nat
  buf_end : Nat
  buf_module : Nat
  buf_format : Nat
  buf_timehi : Nat
  buf_timemi : Nat
deriving DecidableEq, Repr

/-- The local `task_a = buf_format & 0x0F00`. -/
def RecordHeader.task_a (hdr : RecordHeader) : Nat := hdr.buf_format &&& 0x0F00

/-- The local `task_b = buf_format & 0x000F`. -/
def RecordHeader.task_b (hdr : RecordHeader) : Nat := hdr.buf_format &&& 0x000F

/-- The locals after the format-dependent reads of one channel (lines 1490-1516). -/
structure ChannelFields where
  one_hit : Hit
  chan_trig_time : Nat
  hi : Nat
  cur : Cursor
deriving DecidableEq, Repr

/-- The format-dependent reads of one channel (lines 1490-1516); `hi` and
`chan_trig_time` enter with their initial values `buf_timehi` and `evt_time_lo`. -/
def readChannel (buff16 : List Nat) (task_b buf_timehi evt_time_lo : Nat) (one_hit : Hit)
    (cur : Cursor) : ChannelFields :=
  if task_b = 0 then
    let r0 := rd buff16 cur
    let trace_len := (r0.1 + 65536 - 9) % 65536
    let r1 := rd buff16 r0.2
    let r2 := rd buff16 r1.2
    let r3 := rd buff16 r2.2
    let r4 := rd buff16 (r3.2.skip 3)
    let from_idx := r4.2.idx
    let trc := (List.range trace_len).map (fun k => word buff16 (from_idx + k))
    let hit := (((one_hit.set_value 0 r1.1).set_value 2 r2.1).set_value 3 r3.1).set_trace trc
    { one_hit := hit, chan_trig_time := evt_time_lo, hi := r4.1,
      cur := { idx := from_idx + trace_len,
               reads := ((List.range trace_len).map (fun k => from_idx + k)).reverse ++ r4.2.reads } }
  else if task_b = 1 then
    let r0 := rd buff16 (cur.skip 1)
    let r1 := rd buff16 r0.2
    let r2 := rd buff16 r1.2
    let r3 := rd buff16 r2.2
    let r4 := rd buff16 (r3.2.skip 3)
    { one_hit := ((one_hit.set_value 0 r1.1).set_value 2 r2.1).set_value 3 r3.1,
      chan_trig_time := r0.1, hi := r4.1, cur := r4.2 }
  else if task_b = 2 then
    let r0 := rd buff16 cur
    let r1 := rd buff16 r0.2
    let r2 := rd buff16 r1.2
    let r3 := rd buff16 r2.2
    { one_hit := ((one_hit.set_value 0 r1.1).set_value 2 r2.1).set_value 3 r3.1,
      chan_trig_time := r0.1, hi := buf_timehi, cur := r3.2 }
  else if task_b = 3 then
    let r0 := rd buff16 cur
    let r1 := rd buff16 r0.2
    { one_hit := one_hit.set_value 0 r1.1, chan_trig_time := r0.1, hi := buf_timehi, cur := r1.2 }
  else
    { one_hit := one_hit, chan_trig_time := evt_time_lo, hi := buf_timehi, cur := cur }

/-- The overflow corrections and the assembly of the native time (lines 1521-1529), in
`uint64_t` arithmetic; `hi0` is the local `hi` after the channel reads. -/
def reconstructTime (task_b buf_timehi buf_timemi evt_time_hi evt_time_lo chan_trig_time
    hi0 : Nat) : Nat :=
  let chan_time_hi := buf_timehi % 65536
  let mi := if chan_trig_time > evt_time_lo then (evt_time_hi + 2 ^ 64 - 1) % 2 ^ 64
            else evt_time_hi
  let hi1 := if evt_time_hi < buf_timemi then (hi0 + 1) % 2 ^ 64 else hi0
  let hi := if task_b = 0 ∨ task_b = 1 then chan_time_hi else hi1
  let lo := chan_trig_time
  ((hi * 2 ^ 32) % 2 ^ 64 + (mi * 2 ^ 16) % 2 ^ 64 + lo) % 2 ^ 64

/-- The words of an event that every channel of the event shares. -/
structure EventHeader where
  pattern : Nat
  evt_time_hi : Nat
  evt_time_lo : Nat
deriving DecidableEq, Repr

/-- One pass of the channel loop for a channel whose pattern bit is set (lines
1474-1531): the hit built and the read position after it. The pattern is a
`std::bitset<16>`; a bit index past 15 (undefined in C++) reads as a clear bit. -/
def parseChannel (ctx : ParseContext) (buff16 : List Nat) (hdr : RecordHeader)
    (ev : EventHeader) (i : Nat) (cur : Cursor) : Hit × Cursor :=
  let sourcechan := sourceChannel ctx hdr.buf_module i
  let hit0 := (Hit.new sourcechan ctx.model).set_value 1 (if ev.pattern.testBit 4 then 1 else 0)
  let f := readChannel buff16 hdr.task_b hdr.buf_timehi ev.evt_time_lo hit0 cur
  let hit1 := if ev.pattern.testBit (i + 8) then f.one_hit else f.one_hit.set_value 0 0
  let time := reconstructTime hdr.task_b hdr.buf_timehi hdr.buf_timemi ev.evt_time_hi
    ev.evt_time_lo f.chan_trig_time f.hi
  (hit1.set_timestamp_native time, f.cur)

/-- One pass of the channel loop (lines 1470-1535); the state is the multiset `ordered`
and the read position. -/
def channelStep (ctx : ParseContext) (buff16 : List Nat) (hdr : RecordHeader)
    (ev : EventHeader) (st : List Hit × Cursor) (i : Nat) : List Hit × Cursor :=
  if ev.pattern.testBit i then
    let r := parseChannel ctx buff16 hdr ev i st.2
    (if 0 ≤ sourceChannel ctx hdr.buf_module i then multiset_insert r.1 st.1 else st.1, r.2)
  else st

/-- An event as decoded: the record and pattern it came from and the hits it appended to
`spill->hits`, in the order appended. -/
structure DecodedEvent where
  record_start : Nat
  buf_module : Nat
  pattern : Nat
  hits : List Hit
deriving DecidableEq, Repr

/-- One pass of the event loop (lines 1463-1540). -/
def parseEvent (ctx : ParseContext) (buff16 : List Nat) (hdr : RecordHeader) (cur : Cursor) :
    DecodedEvent × Cursor :=
  let r0 := rd buff16 cur
  let r1 := rd buff16 r0.2
  let r2 := rd buff16 r1.2
  let ev : EventHeader := { pattern := r0.1, evt_time_hi := r1.1, evt_time_lo := r2.1 }
  let r := (List.range ctx.NUMBER_OF_CHANNELS).foldl (channelStep ctx buff16 hdr ev) ([], r2.2)
  ({ record_start := hdr.start, buf_module := hdr.buf_module, pattern := ev.pattern,
     hits := r.1 }, r.2)

/-- The event loop `while ((task_a == 0x0100) && (idx < buf_end))` (lines 1461-1542);
`none` only when the fuel runs out while the loop test still holds. -/
def eventLoop (ctx : ParseContext) (buff16 : List Nat) (hdr : RecordHeader) :
    Nat → Cursor → List DecodedEvent → Option (Cursor × List DecodedEvent)
  | 0, cur, events =>
    if hdr.task_a = 0x0100 ∧ cur.idx < hdr.buf_end then none else some (cur, events)
  | fuel + 1, cur, events =>
    if hdr.task_a = 0x0100 ∧ cur.idx < hdr.buf_end then
      let r := parseEvent ctx buff16 hdr cur
      eventLoop ctx buff16 hdr fuel r.2 (events ++ [r.1])
    else some (cur, events)

/-- The test that ends the record loop (lines 1448-1450). -/
def badLength (ctx : ParseContext) (buf_ndata buf_end : Nat) : Bool :=
  decide (buf_ndata = 0) || decide (buf_ndata > ctx.max_buf_len)
    || decide (buf_end > ctx.list_mem_len16)

/-- One pass of the record loop `while (true)` (lines 1445-1542). The Boolean tells
whether the loop goes on: `false` when the length test left it by `break`, `true` when the
record was decoded. `none` only when the event loop ran out of fuel, which the fuel given
here excludes. -/
def recordPass (ctx : ParseContext) (buff16 : List Nat) (cur : Cursor)
    (events : List DecodedEvent) : Option (Bool × Cursor × List DecodedEvent) :=
  let r0 := rd buff16 cur
  let buf_ndata := r0.1
  let buf_end := r0.2.idx + buf_ndata - 1
  if badLength ctx buf_ndata buf_end then some (false, r0.2, events)
  else
    let r1 := rd buff16 r0.2
    let r2 := rd buff16 r1.2
    let r3 := rd buff16 r2.2
    let r4 := rd buff16 r3.2
    let cur5 := r4.2.skip 1
    let hdr : RecordHeader :=
      { start := cur.idx, buf_end := buf_end, buf_module := r1.1, buf_format := r2.1,
        buf_timehi := r3.1, buf_timemi := r4.1 }
    match eventLoop ctx buff16 hdr (buf_end - cur5.idx) cur5 events with
    | none => none
    | some r => some (true, r.1, r.2)

/-- The record loop `while (true)` (lines 1444-1543); `none` only when the fuel runs out. -/
def recordLoop (ctx : ParseContext) (buff16 : List Nat) :
    Nat → Cursor → List DecodedEvent → Option (Cursor × List DecodedEvent)
  | 0, _, _ => none
  | fuel + 1, cur, events =>
    match recordPass ctx buff16 cur events with
    | none => none
    | some (false, cur1, events1) => some (cur1, events1)
    | some (true, cur1, events1) => recordLoop ctx buff16 fuel cur1 events1

/-- The decoding of one buffer (lines 1441-1543) from `idx = 0`: the final read position
and the events decoded. A record that passes the length test starts below
`list_mem_len16` and advances `idx`, so `list_mem_len16 + 2` passes are enough. -/
def decodeBuffer (ctx : ParseContext) (buff16 : List Nat) : Option (Cursor × List DecodedEvent) :=
  recordLoop ctx buff16 (ctx.list_mem_len16 + 2) { idx := 0, reads := [] } []

/-- The hits that the decoded events appended, in order. -/
def eventHits (events : List DecodedEvent) : List Hit :=
  (events.map (fun e => e.hits)).flatten

/-- Modelled from the spec: a statistics snapshot of a spill (spill.h is not among the
sources); the parser never reads it. -/
structure StatsUpdate where
  source_channel : Int
  stats_type : Nat
  lab_time : Nat
deriving DecidableEq, Repr

/-- Modelled from the spec: the `Spill` (spill.h is not among the sources): the raw buffer
(here its 16-bit view), the decoded hits and the statistics snapshots. -/
structure Spill where
  data : List Nat
  hits : List Hit
  stats : List StatsUpdate
deriving DecidableEq, Repr

/-- The body of the queue loop of `worker_parse` (lines 1439-1546) for one spill: the
spill as it is enqueued on the output queue. -/
def worker_parse_spill (ctx : ParseContext) (spill : Spill) : Option Spill :=
  if spill.data.length > 0 then
    match decodeBuffer ctx spill.data with
    | none => none
    | some r => some { spill with hits := spill.hits ++ eventHits r.2, data := [] }
  else some { spill with data := [] }

/-- The function `Pixie4::worker_parse`: the spills enqueued on `out_queue` for the spills
dequeued from `in_queue` until it is closed. -/
def worker_parse (ctx : ParseContext) (in_queue : List Spill) : Option (List Spill) :=
  in_queue.mapM (worker_parse_spill ctx)

/-! ## Symmetry check and range query of the 2D spectrum -/

/-- The loop of `check_symmetrization` over the entries not yet visited: it leaves with
`false` at the first entry whose swapped coordinate is absent or holds another count. -/
def symmetryLoop (spectrum_ : SpectrumMap) : SpectrumMap → Bool
  | [] => true
  | q :: rest =>
    let point : Point := (q.1.2, q.1.1)
    if !mapCount spectrum_ point || decide (mapAt spectrum_ point ≠ some q.2) then false
    else symmetryLoop spectrum_ rest

/-- The method `Spectrum2D::check_symmetrization`: the returned Boolean and the state with
the attribute `symmetrized` replaced. -/
def check_symmetrization (s : Spectrum2D) : Bool × Spectrum2D :=
  let symmetrical := symmetryLoop s.spectrum_ s.spectrum_
  (symmetrical, { s with attr_symmetrized := if symmetrical then 1 else 0 })

/-- An `Entry`: the coordinate vector and the count. -/
abbrev Entry := List Nat × PreciseFloat

/-- The conversion of a `uint32_t` to `int`. -/
def toInt32 (x : Nat) : Int :=
  ((x : Int) + 2147483648) % 4294967296 - 2147483648

/-- The scan of `_get_spectrum` over one map with the `int` bounds: the entries whose
coordinates pass `(min0 <= co0) && (co0 < max0) && (min1 <= co1) && (co1 < max1)`, in
iteration order. -/
def scanRange (m : SpectrumMap) (min0 max0 min1 max1 : Int) : List Entry :=
  (m.filter (fun e =>
      decide (min0 ≤ (e.1.1 : Int)) && decide ((e.1.1 : Int) < max0)
        && decide (min1 ≤ (e.1.2 : Int)) && decide ((e.1.2 : Int) < max1))).map
    (fun e => ([e.1.1, e.1.2], e.2))

/-- The method `Spectrum2D::_get_spectrum`: the list returned and the state left. The
ranges are pairs of `uint32_t`, assigned to `int` bounds; without two ranges the bounds
are 0 and `pow(2, bits)`. The wait for the lock that guards the clearing of
`temp_spectrum_` is not represented: the call is alone. -/
def _get_spectrum (s : Spectrum2D) (list : List (Nat × Nat)) : List Entry × Spectrum2D :=
  let min0 : Int := if list.length ≠ 2 then 0 else toInt32 (list.getD 0 (0, 0)).1
  let max0 : Int := if list.length ≠ 2 then 2 ^ s.bits else toInt32 (list.getD 0 (0, 0)).2
  let min1 : Int := if list.length ≠ 2 then 0 else toInt32 (list.getD 1 (0, 0)).1
  let max1 : Int := if list.length ≠ 2 then 2 ^ s.bits else toInt32 (list.getD 1 (0, 0)).2
  let result :=
    if s.buffered_ && !s.temp_spectrum_.isEmpty then scanRange s.temp_spectrum_ min0 max0 min1 max1
    else scanRange s.spectrum_ min0 max0 min1 max1
  (result, if !s.temp_spectrum_.isEmpty then { s with temp_spectrum_ := [] } else s)

/-! ## Comparison of hits (src/engine/hit.h) -/

/-- Modelled from the spec: `TimeStamp::operator>`, the order of the native tick counts. -/
def TimeStamp.gt (a b : TimeStamp) : Bool :=
  decide (a.time_native_ > b.time_native_)

/-- Modelled from the spec: `TimeStamp::operator!=`, which tells timestamps apart that
differ in their tick count or in their timebase. -/
def TimeStamp.ne (a b : TimeStamp) : Bool :=
  decide (a ≠ b)

/-- The comparator `Hit::operator==`. -/
def Hit.eq (a other : Hit) : Bool :=
  if a.source_channel_ ≠ other.source_channel_ then false
  else if a.timestamp_.ne other.timestamp_ then false
  else if a.values_ ≠ other.values_ then false
  else if a.trace_ ≠ other.trace_ then false
  else true

/-- The comparator `Hit::operator!=`. -/
def Hit.ne (a other : Hit) : Bool :=
  !a.eq other

/-- The comparator `Hit::operator>`. -/
def Hit.gt (a other : Hit) : Bool :=
  a.timestamp_.gt other.timestamp_


/-! ## File codecs of the 2D spectrum

A dense file (`m4b`, `mat`) is the list of its cells in file order, every cell a 4-byte or a
2-byte unsigned number in the byte order of the machine. -/

/-- The coordinates `(i, j)` in the order of the nested loops
`for (i=0; i<4096; ++i) for (j=0; j<4096; ++j)` of the dense codecs. -/
def gridPoints : List Point :=
  (List.range 4096).flatMap (fun i => (List.range 4096).map (fun j => (i, j)))

/-- Modelled from the spec: the conversion `static_cast<uintN_t>` of a count
(`PreciseFloat`, not among the sources). A count that fits is kept; for a larger one the
spec says the export does "silently saturate/truncate", here truncation to `width` bits. -/
def castCell (width : Nat) (c : PreciseFloat) : Nat :=
  c % 2 ^ width

/-- The body of the loops of `write_m4b` and `write_mat`: the cell written for one
coordinate, 0 unless the coordinate is populated. -/
def cellAt (width : Nat) (spectrum_ : SpectrumMap) (point : Point) : Nat :=
  if mapCount spectrum_ point then castCell width ((mapAt spectrum_ point).getD 0) else 0

/-- The method `Spectrum2D::write_m4b`: the `uint32_t` cells written to the file. -/
def write_m4b (s : Spectrum2D) : List Nat :=
  gridPoints.map (cellAt 32 s.spectrum_)

/-- The method `Spectrum2D::write_mat`: the `uint16_t` cells written to the file. -/
def write_mat (s : Spectrum2D) : List Nat :=
  gridPoints.map (cellAt 16 s.spectrum_)

/-- The text that `write_m` writes, by its variable parts: the two numbers of the header
and the assignments `coinc(row, column) = count;`; the other lines are fixed. -/
structure ScriptFile where
  bits : Nat
  total_count : PreciseFloat
  assignments : List (Nat × Nat × PreciseFloat)
deriving DecidableEq, Repr

/-- The method `Spectrum2D::write_m`: one assignment per entry, with the coordinates
counted from 1. -/
def write_m (s : Spectrum2D) : ScriptFile :=
  { bits := s.bits, total_count := s.total_count,
    assignments := s.spectrum_.map (fun e => (e.1.1 + 1, e.1.2 + 1, e.2)) }

/-- What a codec wrote. -/
inductive FileContent where
  | script (text : ScriptFile) : FileContent
  | cells (bytesPerCell : Nat) (cells : List Nat) : FileContent

/-- The method `Spectrum2D::_write_file`: the Boolean returned, and the path and content
of the file written, `none` when no codec ran. -/
def _write_file (s : Spectrum2D) (dir format : String) : Bool × Option (String × FileContent) :=
  if format = "m" then
    (true, some (dir ++ "/" ++ s.name ++ ".m", FileContent.script (write_m s)))
  else if format = "mat" then
    (true, some (dir ++ "/" ++ s.name ++ ".mat", FileContent.cells 2 (write_mat s)))
  else if format = "m4b" then
    (true, some (dir ++ "/" ++ s.name ++ ".m4b", FileContent.cells 4 (write_m4b s)))
  else (false, none)

/-- The functions that the import calls and that are not among the sources: the
base-class `Spectrum::initialize`, `recalc_energies`, and
`boost::filesystem::path(filename).filename().string()`. -/
structure ExternalCalls where
  base_initialize : Spectrum2D → Spectrum2D
  recalc_energies : Spectrum2D → Spectrum2D
  path_filename : String → String

/-- The method `Spectrum2D::init_from_file`. The three pattern attributes it replaces
live in the attribute container, which is not represented. -/
def init_from_file (ext : ExternalCalls) (s : Spectrum2D) (filename : String) : Spectrum2D :=
  let s1 : Spectrum2D :=
    { s with pattern_coinc_gates := [true, true], pattern_anti_gates := [false, false],
             pattern_add_gates := [true, true],
             name := (ext.path_filename filename).map (fun c => if c = '.' then '_' else c) }
  ext.recalc_energies (initialize2D ext.base_initialize s1).2

/-- The locals and members of the reading loops of `read_m4b` and `read_mat`: the cells of
the file not yet read, the local `one`, `metadata_.total_count` and `spectrum_`. -/
structure GridReader where
  file : List Nat
  one : Nat
  total_count : PreciseFloat
  spectrum_ : SpectrumMap
deriving DecidableEq, Repr

/-- The body of the reading loops for one coordinate. A `read` past the end of the file
fails and leaves `one` as it was. -/
def readCell (width : Nat) (st : GridReader) (point : Point) : GridReader :=
  let one := match st.file with
    | c :: _ => c % 2 ^ width
    | [] => st.one
  { file := st.file.tail, one := one, total_count := st.total_count + one,
    spectrum_ := if one > 0 then mapModify (fun _ => one) point st.spectrum_ else st.spectrum_ }

/-- The reading loops of `read_m4b` and `read_mat` after `spectrum_.clear()` and
`total_count = 0`; `one0` is the content of the uninitialised local `one`. -/
def readGrid (width one0 : Nat) (file : List Nat) : GridReader :=
  gridPoints.foldl (readCell width) { file := file, one := one0, total_count := 0, spectrum_ := [] }

/-- The statements of `read_m4b` and `read_mat` between the reading loops and the call of
`init_from_file`: `metadata_.detectors.resize(2)`, the name `unknown1` for the first
detector, and for the second the name of the first when `check_symmetrization()` returns
true, `unknown2` otherwise. A detector is its name; a new detector is named `none`. -/
def nameDetectors (s : Spectrum2D) : Spectrum2D :=
  let s2 : Spectrum2D :=
    { s with detectors := ((s.detectors ++ ["none", "none"]).take 2).set 0 "unknown1" }
  let r := check_symmetrization s2
  { r.2 with detectors :=
      if r.1 then r.2.detectors.set 1 (r.2.detectors.getD 0 "none")
      else r.2.detectors.set 1 "unknown2" }

/-- The state after the reading loops of `read_m4b` and `read_mat`: the storage and the
total count of the loops, `bits = 12` and `max_chan = 4095`. -/
def loadGrid (s : Spectrum2D) (g : GridReader) : Spectrum2D :=
  { s with spectrum_ := g.spectrum_, total_count := g.total_count, bits := 12, max_chan := 4095 }

/-- The common body of `read_m4b` and `read_mat`, which differ in the type of `one` only. -/
def readDense (width : Nat) (ext : ExternalCalls) (one0 : Nat) (s : Spectrum2D) (name : String)
    (file : List Nat) : Spectrum2D :=
  init_from_file ext (nameDetectors (loadGrid s (readGrid width one0 file))) name

/-- The method `Spectrum2D::read_m4b`: the state left. The method has no `return`
statement, so the Boolean it returns is not defined. -/
def read_m4b (ext : ExternalCalls) (one0 : Nat) (s : Spectrum2D) (name : String)
    (file : List Nat) : Spectrum2D :=
  readDense 32 ext one0 s name file

/-- The method `Spectrum2D::read_mat`: the state left; no `return` statement either. -/
def read_mat (ext : ExternalCalls) (one0 : Nat) (s : Spectrum2D) (name : String)
    (file : List Nat) : Spectrum2D :=
  readDense 16 ext one0 s name file

/-- The method `Spectrum2D::_read_file`: the Boolean returned, `none` where it is the
undefined return value of `read_m4b` or `read_mat`, and the state left; `file` holds the
cells of the file `name`. -/
def _read_file (ext : ExternalCalls) (one0 : Nat) (s : Spectrum2D) (name format : String)
    (file : List Nat) : Option Bool × Spectrum2D :=
  if format = "m4b" then (none, read_m4b ext one0 s name file)
  else if format = "mat" then (none, read_mat ext one0 s name file)
  else (some false, s)

/-! ## Accessors of hits (src/engine/hit.h) -/

/-- The accessor `Hit::value_count`. -/
def Hit.value_count (h : Hit) : Nat :=
  h.values_.length

/-- Modelled from the spec: the default-constructed `DigitizedVal()` (digitized_value.h is
not among the sources), the value 0 digitized with 0 bits. -/
def defaultDigitizedVal : DigitizedVal :=
  ⟨0, 0⟩

/-- The accessor `Hit::value`: the value at `idx`, and the default-constructed
`DigitizedVal()` at or past the value count. -/
def Hit.value (h : Hit) (idx : Nat) : DigitizedVal :=
  if idx < h.values_.length then h.values_.getD idx defaultDigitizedVal
  else defaultDigitizedVal

/-! ## Bulk addition to the 2D spectrum -/

/-- The loop `for (int i = 16; i; --i)` of `mirrorShort` with `i` passes left: the
statements `result >>= 1; result |= data & 0x8000; data <<= 1;` on the `uint16_t`
variables `result` and `data`. -/
def mirrorLoop : Nat → Nat → Nat → Nat
  | 0, result, _ => result
  | i + 1, result, data =>
    let result1 := (result >>> 1) % 65536
    let result2 := (result1 ||| (data &&& 0x8000)) % 65536
    let data1 := (data <<< 1) % 65536
    mirrorLoop i result2 data1

/-- The method `IsegVHS::mirrorShort`. -/
def mirrorShort (data : Nat) : Nat :=
  mirrorLoop 16 0 data

/-! ## The peak search of the fitter (src/engine/gamma_fitter.cpp)

The samples are `double`s, kept here as rationals: the functions embedded read them for
differences and for comparisons with 0; rounding, infinities and NaN are not represented.
The header gamma_fitter.h is not among the sources: the vectors `prelim`, `filtered`,
`lefts` and `rights` hold unsigned indices of `w` bits, `w` being a parameter. -/

/-- The members of `Gamma::Fitter` that the embedded methods read or write. -/
structure Fitter where
  x_ : List ℚ
  y_ : List ℚ
  y_avg_ : List ℚ
  deriv1 : List ℚ
  deriv2 : List ℚ
  prelim : List Nat
  filtered : List Nat
  lefts : List Nat
  rights : List Nat
deriving DecidableEq, Repr

/-- The two loops of `deriv`, each `out.push_back(0); for (int i=1; i < v.size(); ++i)
out.push_back(v[i] - v[i-1]);`. -/
def derivOf (v : List ℚ) : List ℚ :=
  0 :: (List.range' 1 (v.length - 1)).map (fun i => v.getD i 0 - v.getD (i - 1) 0)

/-- The method `Fitter::deriv`. -/
def deriv (f : Fitter) : Fitter :=
  if f.y_avg_.length = 0 then f
  else { f with deriv1 := derivOf f.y_avg_, deriv2 := derivOf (derivOf f.y_avg_) }

/-- The conversion of an `int` to the unsigned index type of `w` bits. -/
def toIndex (w : Nat) (z : Int) : Nat :=
  (z % 2 ^ w).toNat

/-- The value given to the local `is` of `find_prelim` for the sample `d`: 1 when
`d > 0`, -1 when `d < 0`, else 0. -/
def signOf (d : ℚ) : Int :=
  if d > 0 then 1
  else if d < 0 then -1
  else 0

/-- One pass of the loop of `find_prelim`, on the locals `was` and `prelim`. -/
def prelimStep (w : Nat) (deriv1 : List ℚ) (st : Int × List Nat) (i : Nat) : Int × List Nat :=
  let is : Int := signOf (deriv1.getD i 0)
  (is, if st.1 = 1 ∧ is = -1 then st.2 ++ [toIndex w i] else st.2)

/-- The method `Fitter::find_prelim`. -/
def find_prelim (w : Nat) (f : Fitter) : Fitter :=
  { f with prelim := ((List.range f.deriv1.length).foldl (prelimStep w f.deriv1) (0, [])).2 }

/-- The loop `for (int i=q-1; i >= 0; --i) if (deriv1[i] > 0) left++; else break;` with
`i + 1` given: the `uint16_t` counter `left` at the end. -/
def leftLoop (deriv1 : List ℚ) : Nat → Nat → Nat
  | 0, left => left
  | i + 1, left =>
    if deriv1.getD i 0 > 0 then leftLoop deriv1 i ((left + 1) % 65536) else left

/-- The loop `for (int i=q; i < deriv1.size(); ++i) if (deriv1[i] < 0) right++; else
break;` over the samples `deriv1[i], deriv1[i+1], ...` not yet visited: the `uint16_t`
counter `right` at the end. -/
def rightLoop : List ℚ → Nat → Nat
  | [], right => right
  | d :: rest, right => if d < 0 then rightLoop rest ((right + 1) % 65536) else right

/-- The vectors `lefts`, `filtered` and `rights`. -/
structure Edges where
  lefts : List Nat
  filtered : List Nat
  rights : List Nat
deriving DecidableEq, Repr

/-- One pass of the loop `for (auto &q : prelim)` of `filter_prelim`. -/
def filterStep (w : Nat) (deriv1 : List ℚ) (min_width : Nat) (st : Edges) (q : Nat) : Edges :=
  if q = 0 then st
  else
    let left := leftLoop deriv1 q 0
    let right := rightLoop (deriv1.drop q) 0
    if left ≥ min_width ∧ right ≥ min_width then
      { lefts := st.lefts ++ [toIndex w ((q : Int) - left - 1)],
        filtered := st.filtered ++ [toIndex w ((q : Int) - 1)],
        rights := st.rights ++ [toIndex w ((q : Int) + right - 1)] }
    else st

/-- The method `Fitter::filter_prelim`. -/
def filter_prelim (w : Nat) (f : Fitter) (min_width : Nat) : Fitter :=
  if f.y_.length < 3 ∨ f.prelim.length = 0 then
    { f with filtered := [], lefts := [], rights := [] }
  else
    let r := f.prelim.foldl (filterStep w f.deriv1 min_width) ⟨[], [], []⟩
    { f with filtered := r.filtered, lefts := r.lefts, rights := r.rights }

/-- The locals and the member of the main loop of `set_mov_avg`: `avg`, `y_avg_`, and
the log of the indices at which `y_` was read, latest first. -/
structure MovAvg where
  avg : ℚ
  y_avg_ : List ℚ
  reads : List Nat
deriving DecidableEq, Repr

/-- One pass of the main loop of `set_mov_avg`. -/
def movAvgStep (y_ : List ℚ) (window half : Nat) (st : MovAvg) (i : Nat) : MovAvg :=
  let ri := if i < half + 1 then 0 else i - (half + 1)
  let remove := y_.getD ri 0 / window
  let ai := if i + half > y_.length then y_.length - 1 else i + half
  let add := y_.getD ai 0 / window
  let avg := st.avg - remove + add
  { avg := avg, y_avg_ := st.y_avg_.set i avg, reads := ai :: ri :: st.reads }

/-- The method `Fitter::set_mov_avg`: the state left and the indices at which `y_` was
read, latest first. The parameter `window` is a `uint16_t`. -/
def set_mov_avg (f : Fitter) (window0 : Nat) : Fitter × List Nat :=
  let f1 := { f with y_avg_ := f.y_ }
  let window := if window0 % 2 = 0 then (window0 + 1) % 65536 else window0
  if f.y_.length < window then (f1, [])
  else
    let half := ((window - 1) / 2) % 65536
    let avg0 : ℚ := (half + 1) * f.y_.getD 0 0
    let avg1 := (List.range half).foldl (fun a i => a + f.y_.getD i 0) avg0
    let reads1 := (List.range half).reverse ++ [0]
    let avg2 := avg1 / window
    let r := (List.range f.y_.length).foldl (movAvgStep f.y_ window half)
      { avg := avg2, y_avg_ := f1.y_avg_, reads := reads1 }
    (deriv { f1 with y_avg_ := r.y_avg_ }, r.reads)

/-! ## Notions used in the statements -/

/-- The indices of the set gates of a pattern, in mask-scan (ascending) order. -/
def setGates (gts : List Bool) : List Nat :=
  (List.range gts.length).filter (fun i => gts.getD i false)

/-- The hits that the events of the record starting at index `start` appended. -/
def hitsOfRecord (events : List DecodedEvent) (start : Nat) : List Hit :=
  eventHits (events.filter (fun e => decide (e.record_start = start)))

/-- Ascending (non-decreasing) timestamp order of a list of hits. -/
def TimeOrdered (hits : List Hit) : Prop :=
  hits.Pairwise (fun a b => a.timestamp_.time_native_ ≤ b.timestamp_.time_native_)

instance (hits : List Hit) : Decidable (TimeOrdered hits) := by
  unfold TimeOrdered; infer_instance

/-- The record-loop states that the decoding of a buffer passes through: the state at
`idx = 0` with no event, and every state a decoded record leaves. -/
inductive Reaches (ctx : ParseContext) (buff16 : List Nat) :
    Cursor → List DecodedEvent → Prop where
  | start : Reaches ctx buff16 { idx := 0, reads := [] } []
  | next {cur cur1 : Cursor} {events events1 : List DecodedEvent} :
      Reaches ctx buff16 cur events →
      recordPass ctx buff16 cur events = some (true, cur1, events1) →
      Reaches ctx buff16 cur1 events1

/-- The entry `channel_indices[buf_module][i]` when both indices are in range. -/
def topologyEntry (ctx : ParseContext) (buf_module i : Nat) : Option Int :=
  (ctx.channel_indices[buf_module]?).bind (fun row => row[i]?)

/-- The statement of the unrouted-channel claim for one hit of a decoded event: the source
channel is non-negative and is the topology entry of the record's module and of a channel
whose bit is set in the event pattern. -/
def SourceMatchesTopology (ctx : ParseContext) (ev : DecodedEvent) (h : Hit) : Prop :=
  0 ≤ h.source_channel_
  ∧ ∃ i, i < ctx.NUMBER_OF_CHANNELS ∧ ev.pattern.testBit i = true
      ∧ topologyEntry ctx ev.buf_module i = some h.source_channel_

instance (ctx : ParseContext) (ev : DecodedEvent) (h : Hit) :
    Decidable (SourceMatchesTopology ctx ev h) := by
  unfold SourceMatchesTopology; infer_instance

/-- The local `chan_trig_time` at the overflow corrections (line 1522), the fine low word
of the hit: the channel's trigger-time word in the sub-formats that read one (1, 2, 3),
the event's low time word otherwise; `idx` is the read index at the channel's first word. -/
def fineLowWord (buff16 : List Nat) (task_b evt_time_lo idx : Nat) : Nat :=
  if task_b = 1 then word buff16 (idx + 1)
  else if task_b = 2 ∨ task_b = 3 then word buff16 idx
  else evt_time_lo

/-- The timestamp as the reconstruction claim words it, for every sub-format:
`hi*2^32 + mi*2^16 + lo (mod 2^64)` with `mi` the event's fine high word less one exactly
when the fine low word `lo` exceeds the low time word `ref_lo`, and `hi` the header's high
word plus one exactly when the event's fine high word is below the header's mid word. -/
def claimedTimestamp (buf_timehi buf_timemi evt_time_hi ref_lo lo : Nat) : Int :=
  (((buf_timehi : Int) + (if evt_time_hi < buf_timemi then 1 else 0)) * 2 ^ 32
    + ((evt_time_hi : Int) - (if lo > ref_lo then 1 else 0)) * 2 ^ 16 + (lo : Int)) % 2 ^ 64

/-- The result of the range-query claim in its own words: the stored entries `(c0,c1,count)`
with `min0 <= c0 < max0` and `min1 <= c1 < max1`, the bounds taken as the unsigned numbers
passed, in storage order. -/
def rangeEntries (m : SpectrumMap) (min0 max0 min1 max1 : Nat) : List Entry :=
  (m.filter (fun e =>
      decide (min0 ≤ e.1.1) && decide (e.1.1 < max0)
        && decide (min1 ≤ e.1.2) && decide (e.1.2 < max1))).map
    (fun e => ([e.1.1, e.1.2], e.2))

/-- Ascending coordinate order of a list of entries. -/
def EntriesAscending (l : List Entry) : Prop :=
  l.Pairwise (fun a b => pointLt (a.1.getD 0 0, a.1.getD 1 0) (b.1.getD 0 0, b.1.getD 1 0) = true)

/-- A function on histograms that leaves the storage, the total count, the bit resolution
and `max_chan` as they are: what the import needs of the two methods it calls that are not
among the sources. -/
def KeepsData (f : Spectrum2D → Spectrum2D) : Prop :=
  ∀ t, (f t).spectrum_ = t.spectrum_ ∧ (f t).total_count = t.total_count
    ∧ (f t).bits = t.bits ∧ (f t).max_chan = t.max_chan

/-- The postcondition of the dense import for the grid `cells` (cell `i*4096+j` for the
coordinate `(i,j)`): the storage is a map that holds exactly the coordinates whose cell is
non-zero, each with the cell's value, the total count is the sum of all cells, the
resolution is 12 bits and `max_chan` is 4095. -/
def DensePostcondition (cells : List Nat) (r : Spectrum2D) : Prop :=
  KeysAscending r.spectrum_
  ∧ (∀ i j : Nat, i < 4096 → j < 4096 →
      mapAt r.spectrum_ (i, j)
        = if cells.getD (i * 4096 + j) 0 ≠ 0 then some (cells.getD (i * 4096 + j) 0) else none)
  ∧ (∀ p : Point, 4096 ≤ p.1 ∨ 4096 ≤ p.2 → mapAt r.spectrum_ p = none)
  ∧ r.total_count = cells.sum
  ∧ r.bits = 12
  ∧ r.max_chan = 4095

/-! ## Concrete inputs: the 2D spectrum -/

/-- An initialised, empty 2D histogram at 8-bit resolution with axis 0 on channel 0 and
axis 1 on channel 1, not buffered. -/
def scenario8 : Spectrum2D :=
  { pattern_add_gates := [true, true], attr_buffered := 0, my_type := "2D",
    pattern_ := [0, 1], buffered_ := false, spectrum_ := [], temp_spectrum_ := [],
    dimensions := 2, type := "2D", bits := 8, max_chan := 0, total_count := 0 }

/-- An event with a hit of energy `a` on channel 0 and a hit of energy `b` on channel 1,
both digitized with 8 bits. -/
def coincidence (a b : Nat) : Event :=
  { hits := [(0, ⟨a, 8⟩), (1, ⟨b, 8⟩)] }

/-- The events of the concrete scenario: `(10,20)` three times and `(0,255)` once. -/
def scenarioEvents : List Event :=
  [coincidence 10 20, coincidence 0 255, coincidence 10 20, coincidence 10 20]

/-- A 2D histogram whose add pattern has the gates 1 and 3 set, before `initialize`. -/
def gates1and3 : Spectrum2D :=
  { scenario8 with pattern_add_gates := [false, true, false, true], pattern_ := [],
                   dimensions := 0, type := "invalid" }

/-- A 2D histogram whose add pattern has one gate set, before `initialize`. -/
def oneGate : Spectrum2D :=
  { scenario8 with pattern_add_gates := [false, true], pattern_ := [],
                   dimensions := 0, type := "invalid" }

/-- The histogram of the concrete scenario after accumulation: count 3 at `(10,20)` and
count 1 at `(0,255)`. -/
def scenarioHistogram : Spectrum2D :=
  scenarioEvents.foldl addEvent scenario8

/-- A buffered histogram after the single event `(10,20)`. -/
def bufferedAfterOneEvent : Spectrum2D :=
  addEvent { scenario8 with buffered_ := true } (coincidence 10 20)

/-- A histogram holding the count 5 at `(1,2)` and at `(2,1)`. -/
def mirroredPair : Spectrum2D :=
  { scenario8 with spectrum_ := [((1, 2), 5), ((2, 1), 5)] }

/-! ## Concrete inputs: the parser -/

/-- A hit model with the four values the parser sets (energy, front panel, XIA PSA, user
PSA), 16 bits each, and no trace. -/
def model4 : HitModel :=
  { timebase := ⟨0, 1, 1⟩, values := [⟨0, 16⟩, ⟨0, 16⟩, ⟨0, 16⟩, ⟨0, 16⟩], tracelength := 0 }

/-- One module of four channels bound to the sources 0, 1, 2, 3. -/
def oneModule : ParseContext :=
  { NUMBER_OF_CHANNELS := 4, max_buf_len := 8192, list_mem_len16 := 64,
    channel_indices := [[0, 1, 2, 3]], model := model4 }

/-- A record of sub-format 1 (`buf_format = 0x0101`) with one event on channel 0 whose
fine high word (0) has rolled over relative to the header's mid word (0xFFFF). Header:
word count 18, module 0, format, time words 0, 0xFFFF, 0x0010; event: pattern 0x0101, time
words 0, 0x0010; channel: length 9, trigger time 0x0010, energy 100, two PSA words, three
unused words, high word 1. -/
def rolledFormat1 : List Nat :=
  [18, 0, 0x0101, 0, 0xFFFF, 0x0010, 0x0101, 0, 0x0010, 9, 0x0010, 100, 0, 0, 0, 0, 0, 1]

/-- Two records of sub-format 1, one event on channel 0 each. The first event lies just
before the roll-over of the mid word (header mid 0xFFFE, event words 0xFFFF, 0xFFF0), the
second just after it (header mid 0xFFFF, event words 0, 0x0010, channel high word 1). -/
def rolloverPairFormat1 : List Nat :=
  [18, 0, 0x0101, 0, 0xFFFE, 0, 0x0101, 0xFFFF, 0xFFF0, 9, 0xFFF0, 100, 0, 0, 0, 0, 0, 0,
   18, 0, 0x0101, 0, 0xFFFF, 0, 0x0101, 0, 0x0010, 9, 0x0010, 100, 0, 0, 0, 0, 0, 1]

/-- The same two events in sub-format 3 (`buf_format = 0x0103`), whose channels carry the
trigger time and the energy only. -/
def rolloverPairFormat3 : List Nat :=
  [11, 0, 0x0103, 0, 0xFFFE, 0, 0x0101, 0xFFFF, 0xFFF0, 0xFFF0, 100,
   11, 0, 0x0103, 0, 0xFFFF, 0, 0x0101, 0, 0x0010, 0x0010, 100]

/-- One record of sub-format 3 with two events on channel 0, the second earlier than the
first (event time words 5, 100 and then 4, 50). -/
def twoEventsDescending : List Nat :=
  [16, 0, 0x0103, 0, 0, 0, 0x0101, 5, 100, 100, 77, 0x0101, 4, 50, 50, 66]

/-- One module whose channel 0 is bound to the source id 65541, which does not fit the
`int16_t` source channel of a hit. -/
def wideTopology : ParseContext :=
  { NUMBER_OF_CHANNELS := 4, max_buf_len := 8192, list_mem_len16 := 64,
    channel_indices := [[65541, -1, -1, -1]], model := model4 }

/-- One record of sub-format 3 with one event on channel 0. -/
def oneEventFormat3 : List Nat :=
  [11, 0, 0x0103, 0, 0, 0, 0x0101, 5, 100, 100, 77]

/-- A list-mode memory of 7 words with room for the record header and the pattern word of
one event only. -/
def shortMemory : ParseContext :=
  { NUMBER_OF_CHANNELS := 4, max_buf_len := 8192, list_mem_len16 := 7,
    channel_indices := [[0, 1, 2, 3]], model := model4 }

/-- A record that declares 7 words: the 6 header words and the pattern word of an event on
channel 0 (sub-format 3), so that `buf_end = 7`. -/
def truncatedRecord : List Nat :=
  [7, 0, 0x0103, 0, 0, 0, 0x0001]

/-- The header of the second record of `rolloverPairFormat3`, taken alone: sub-format 3,
high word 0, mid word 0xFFFF. -/
def rolledHeader3 : RecordHeader :=
  { start := 0, buf_end := 11, buf_module := 0, buf_format := 0x0103,
    buf_timehi := 0, buf_timemi := 0xFFFF }

/-- The event words of that record: pattern 0x0101, fine high word 0, low word 0x0010. -/
def rolledEvent : EventHeader :=
  { pattern := 0x0101, evt_time_hi := 0, evt_time_lo := 0x0010 }

/-- The second record of `rolloverPairFormat3`, taken alone. -/
def rolledFormat3 : List Nat :=
  [11, 0, 0x0103, 0, 0xFFFF, 0, 0x0101, 0, 0x0010, 0x0010, 100]

/-- A spill whose buffer holds the record `oneEventFormat3` followed by a word count of
zero. -/
def goodThenMalformed : Spill :=
  { data := oneEventFormat3 ++ [0, 0, 0], hits := [], stats := [] }

/-- The record-loop state after the first record of `goodThenMalformed`. -/
def afterFirstRecord : Cursor × List DecodedEvent :=
  match recordPass oneModule goodThenMalformed.data { idx := 0, reads := [] } [] with
  | some r => r.2
  | none => ({ idx := 0, reads := [] }, [])

/-- A record that declares 7 words (the header and the pattern word of an event on channel
0, sub-format 3), followed by a well-formed record of 11 words that starts at index 7. -/
def truncatedThenNext : List Nat :=
  [7, 0, 0x0103, 0, 0, 0, 0x0001, 11, 0, 0x0103, 0, 0, 0, 0x0101, 5, 100, 100, 77]

/-- One record of sub-format 3 with one event on the channels 0 and 1, channel 0 with the
later trigger time (200) and channel 1 with the earlier one (100). -/
def twoChannelEvent : List Nat :=
  [13, 0, 0x0103, 0, 0, 0, 0x0303, 5, 300, 200, 77, 100, 66]

/-- The header of the record `twoChannelEvent`: 13 words, module 0, sub-format 3. -/
def twoChannelHeader : RecordHeader :=
  { start := 0, buf_end := 13, buf_module := 0, buf_format := 0x0103,
    buf_timehi := 0, buf_timemi := 0 }

/-- The event words of the record `twoChannelEvent`: pattern 0x0303 (the channels 0 and 1
hit and valid), time words 5 and 300. -/
def twoChannelWords : EventHeader :=
  { pattern := 0x0303, evt_time_hi := 5, evt_time_lo := 300 }

/-- Two hits with the same timestamp on the channels 0 and 1. -/
def sameTimeHit (channel : Int) : Hit :=
  { source_channel_ := channel, timestamp_ := ⟨100, 1, 1⟩, values_ := [], trace_ := [] }


/-! ## Concrete inputs: hits -/

/-- A hit model with 4 values and a trace of 3 samples. -/
def traceModel : HitModel :=
  { timebase := ⟨0, 1, 1⟩, values := [⟨0, 16⟩, ⟨0, 16⟩, ⟨0, 16⟩, ⟨0, 16⟩], tracelength := 3 }

/-! ## Concrete inputs: buffered mode -/

/-- The index `i` is a sign change of `deriv1` from positive to negative: `deriv1[i-1] > 0`
and `deriv1[i] < 0`. -/
def peakAt (deriv1 : List ℚ) (i : Nat) : Bool :=
  decide (1 ≤ i) && decide (deriv1.getD (i - 1) 0 > 0) && decide (deriv1.getD i 0 < 0)

/-- The edges are valid and ordered: the three vectors have one length and for every `k`,
`lefts[k] < filtered[k] < rights[k] <= size - 1`. -/
def EdgesOrdered (size : Nat) (lefts filtered rights : List Nat) : Prop :=
  lefts.length = filtered.length ∧ rights.length = filtered.length
  ∧ ∀ k, k < filtered.length →
      lefts.getD k 0 < filtered.getD k 0 ∧ filtered.getD k 0 < rights.getD k 0
        ∧ rights.getD k 0 ≤ size - 1

/-! ## Concrete inputs: the fitter -/

/-- A fitter whose averaged samples rise to 3, fall to 0 and rise to 5 before a last fall. -/
def smallFitter : Fitter :=
  { x_ := [], y_ := [0, 1, 3, 2, 0, 0, 5, 4], y_avg_ := [0, 1, 3, 2, 0, 0, 5, 4],
    deriv1 := [], deriv2 := [], prelim := [], filtered := [], lefts := [], rights := [] }

/-- The 65538 samples `0, 1, ..., 65536, 65535`: a ramp of 65536 rising steps and one
falling step. -/
def rampSamples : List ℚ :=
  List.map (fun n : Nat => (n : ℚ)) (List.range 65537) ++ [(65535 : ℚ)]

/-- A fitter whose samples and averaged samples are the ramp `rampSamples` (the moving
average of window 1 leaves the samples as they are). -/
def rampFitter : Fitter :=
  { x_ := [], y_ := rampSamples, y_avg_ := rampSamples,
    deriv1 := [], deriv2 := [], prelim := [], filtered := [], lefts := [], rights := [] }

/-- A fitter with the three samples `1, 1, 1`. -/
def threeSamples : Fitter :=
  { x_ := [0, 1, 2], y_ := [1, 1, 1], y_avg_ := [],
    deriv1 := [], deriv2 := [], prelim := [], filtered := [], lefts := [], rights := [] }

/-! ## Lemmas on the sparse storage -/

theorem pointLt_iff (p q : Point) :
    pointLt p q = true ↔ p.1 < q.1 ∨ (p.1 = q.1 ∧ p.2 < q.2) := by
  simp [pointLt]

theorem pointLt_irrefl (p : Point) : pointLt p p = false := by
  simp [pointLt]

theorem pointLt_trans {p q r : Point} (h1 : pointLt p q = true) (h2 : pointLt q r = true) :
    pointLt p r = true := by
  rw [pointLt_iff] at *
  omega

theorem pointLt_total {p q : Point} (hne : p ≠ q) (h : pointLt p q = false) :
    pointLt q p = true := by
  have h1 : ¬ (p.1 < q.1 ∨ (p.1 = q.1 ∧ p.2 < q.2)) := by
    rw [← pointLt_iff]; simp [h]
  rw [pointLt_iff]
  have h2 : ¬ (p.1 = q.1 ∧ p.2 = q.2) := fun hh => hne (Prod.ext hh.1 hh.2)
  omega

theorem mapAt_eq_none_of_lt (m : SpectrumMap) (p : Point)
    (h : ∀ e ∈ m, pointLt p e.1 = true) : mapAt m p = none := by
  induction m with
  | nil => rfl
  | cons e rest ih =>
    obtain ⟨k, c⟩ := e
    have hk : pointLt p k = true := h (k, c) (List.mem_cons_self _ _)
    have hne : k ≠ p := by
      intro hkp; subst hkp; rw [pointLt_irrefl] at hk; exact Bool.noConfusion hk
    simp only [mapAt, hne, if_false]
    exact ih (fun e he => h e (List.mem_cons_of_mem _ he))

theorem mem_mapModify (f : PreciseFloat → PreciseFloat) (p : Point) (m : SpectrumMap) :
    ∀ e ∈ mapModify f p m, e.1 = p ∨ ∃ e1 ∈ m, e1.1 = e.1 := by
  induction m with
  | nil =>
    intro e he
    simp only [mapModify, List.mem_singleton] at he
    left; rw [he]
  | cons e0 rest ih =>
    obtain ⟨k, c⟩ := e0
    intro e he
    simp only [mapModify] at he
    split at he
    · rename_i hpk
      rcases List.mem_cons.mp he with h | h
      · left; rw [h]; exact hpk.symm
      · right; exact ⟨e, List.mem_cons_of_mem _ h, rfl⟩
    · split at he
      · rcases List.mem_cons.mp he with h | h
        · left; rw [h]
        · right; exact ⟨e, h, rfl⟩
      · rcases List.mem_cons.mp he with h | h
        · right; exact ⟨(k, c), List.mem_cons_self _ _, by rw [h]⟩
        · rcases ih e h with h1 | ⟨e1, he1, h1⟩
          · left; exact h1
          · right; exact ⟨e1, List.mem_cons_of_mem _ he1, h1⟩

theorem mapModify_keysAscending (f : PreciseFloat → PreciseFloat) (p : Point) (m : SpectrumMap)
    (h : KeysAscending m) : KeysAscending (mapModify f p m) := by
  induction m with
  | nil => simp [mapModify, KeysAscending]
  | cons e0 rest ih =>
    obtain ⟨k, c⟩ := e0
    unfold KeysAscending at h ih ⊢
    rw [List.pairwise_cons] at h
    simp only [mapModify]
    split
    · rw [List.pairwise_cons]
      exact ⟨h.1, h.2⟩
    · rename_i hpk
      split
      · rename_i hlt
        rw [List.pairwise_cons]
        refine ⟨?_, List.pairwise_cons.mpr h⟩
        intro e he
        rcases List.mem_cons.mp he with h1 | h1
        · rw [h1]; exact hlt
        · exact pointLt_trans hlt (h.1 e h1)
      · rename_i hnlt
        rw [List.pairwise_cons]
        refine ⟨?_, ih h.2⟩
        intro e he
        rcases mem_mapModify f p rest e he with h1 | ⟨e1, he1, h1⟩
        · rw [h1]
          exact pointLt_total hpk (by simpa using hnlt)
        · rw [← h1]; exact h.1 e1 he1

theorem mapAt_mapModify (f : PreciseFloat → PreciseFloat) (p q : Point) (m : SpectrumMap)
    (h : KeysAscending m) :
    mapAt (mapModify f p m) q
      = if q = p then some (f ((mapAt m p).getD 0)) else mapAt m q := by
  induction m with
  | nil =>
    by_cases hq : q = p
    · subst hq; simp [mapModify, mapAt]
    · have : ¬ p = q := fun hh => hq hh.symm
      simp [mapModify, mapAt, hq, this]
  | cons e0 rest ih =>
    obtain ⟨k, c⟩ := e0
    unfold KeysAscending at h ih
    rw [List.pairwise_cons] at h
    simp only [mapModify]
    split
    · rename_i hpk
      subst hpk
      by_cases hq : q = p
      · subst hq; simp [mapAt]
      · have : ¬ p = q := fun hh => hq hh.symm
        simp [mapAt, hq, this]
    · rename_i hpk
      have hkp : ¬ k = p := fun hh => hpk hh.symm
      split
      · rename_i hlt
        have hnone : mapAt ((k, c) :: rest) p = none := by
          apply mapAt_eq_none_of_lt
          intro e he
          rcases List.mem_cons.mp he with h1 | h1
          · rw [h1]; exact hlt
          · exact pointLt_trans hlt (h.1 e h1)
        by_cases hq : q = p
        · subst hq
          rw [hnone]
          simp [mapAt]
        · have : ¬ p = q := fun hh => hq hh.symm
          simp only [mapAt, this, if_false, hq]
      · by_cases hq : q = p
        · subst hq
          simp only [mapAt, hkp, if_false, if_true]
          rw [ih h.2]; simp
        · simp only [mapAt, hq, if_false]
          rw [ih h.2]; simp [hq]

theorem mapCount_eq_isSome (m : SpectrumMap) (p : Point) :
    mapCount m p = (mapAt m p).isSome := by
  induction m with
  | nil => rfl
  | cons e0 rest ih =>
    obtain ⟨k, c⟩ := e0
    unfold mapCount at ih ⊢
    by_cases hk : k = p
    · simp [mapAt, hk]
    · simp [mapAt, hk, ih]

theorem get_count_pair (s : Spectrum2D) (a b : Nat) :
    _get_count s [a, b] = some ((mapAt s.spectrum_ (a, b)).getD 0) := by
  simp only [_get_count, List.length_cons, List.length_nil, ne_eq, not_true_eq_false,
    if_false, mapCount_eq_isSome]
  show (if (mapAt s.spectrum_ (a, b)).isSome = true then mapAt s.spectrum_ (a, b) else some 0) = _
  cases mapAt s.spectrum_ (a, b) <;> simp

theorem addEvent_fold_count (events : List Event) :
    ∀ (s : Spectrum2D), KeysAscending s.spectrum_ → ∀ (p : Point),
      KeysAscending (events.foldl addEvent s).spectrum_ ∧
      (mapAt (events.foldl addEvent s).spectrum_ p).getD 0
        = (mapAt s.spectrum_ p).getD 0 + events.countP (fun e => decide (eventCoords s e = p)) := by
  induction events with
  | nil => intro s hs p; exact ⟨hs, by simp⟩
  | cons e rest ih =>
    intro s hs p
    have hs1 : KeysAscending (addEvent s e).spectrum_ :=
      mapModify_keysAscending _ _ _ hs
    obtain ⟨h1, h2⟩ := ih (addEvent s e) hs1 p
    refine ⟨h1, ?_⟩
    rw [List.foldl_cons, h2]
    have h3 : (mapAt (addEvent s e).spectrum_ p).getD 0
        = (mapAt s.spectrum_ p).getD 0 + (if eventCoords s e = p then 1 else 0) := by
      show (mapAt (mapModify (fun c => c + 1) (eventCoords s e) s.spectrum_) p).getD 0 = _
      rw [mapAt_mapModify _ _ _ _ hs]
      by_cases hp : p = eventCoords s e
      · subst hp; simp
      · have : ¬ eventCoords s e = p := fun hh => hp hh.symm
        simp [hp, this]
    rw [h3, List.countP_cons]
    have h4 : List.countP (fun e1 => decide (eventCoords (addEvent s e) e1 = p)) rest
        = List.countP (fun e1 => decide (eventCoords s e1 = p)) rest := rfl
    rw [h4]
    by_cases hp : eventCoords s e = p
    · simp only [hp, decide_True, if_true]
      rw [Nat.add_assoc, Nat.add_comm 1]
    · simp [hp]
/-! ## Accumulation and point query -/

/-- C3: starting from an empty 2D histogram, after `addEvent` has been applied to any
sequence of events, `_get_count({a,b})` returns (and does not throw) the number of events
of the sequence whose coordinates are `(a,b)`; it returns 0 for every pair that no event
produced and for every coordinate list whose length is not 2. -/
theorem get_count_after_addEvents (s : Spectrum2D) (hs : s.spectrum_ = [])
    (events : List Event) :
    (∀ a b : Nat, _get_count (events.foldl addEvent s) [a, b]
        = some (events.countP (fun e => decide (eventCoords s e = (a, b)))))
    ∧ (∀ a b : Nat, (∀ e ∈ events, eventCoords s e ≠ (a, b)) →
        _get_count (events.foldl addEvent s) [a, b] = some 0)
    ∧ (∀ list : List Nat, list.length ≠ 2 →
        _get_count (events.foldl addEvent s) list = some 0) := by
  have hasc : KeysAscending s.spectrum_ := by rw [hs]; exact List.Pairwise.nil
  have hcount : ∀ a b : Nat, _get_count (events.foldl addEvent s) [a, b]
      = some (events.countP (fun e => decide (eventCoords s e = (a, b)))) := by
    intro a b
    rw [get_count_pair, (addEvent_fold_count events s hasc (a, b)).2, hs]
    simp [mapAt]
  refine ⟨hcount, ?_, ?_⟩
  · intro a b hnone
    rw [hcount a b]
    congr 1
    rw [List.countP_eq_zero]
    intro e he
    simpa using hnone e he
  · intro list hlen
    simp [_get_count, hlen]

/-- The concrete scenario of C3: at 8 bits, `(10,20)` three times and `(0,255)` once give
3 at `{10,20}`, 1 at `{0,255}` and 0 at `{1,1}`. -/
theorem get_count_scenario_8bit :
    scenario8.spectrum_ = []
    ∧ _get_count (scenarioEvents.foldl addEvent scenario8) [10, 20] = some 3
    ∧ _get_count (scenarioEvents.foldl addEvent scenario8) [0, 255] = some 1
    ∧ _get_count (scenarioEvents.foldl addEvent scenario8) [1, 1] = some 0 :=
  ⟨rfl,
   ((get_count_after_addEvents scenario8 rfl scenarioEvents).1 10 20).trans (by decide),
   ((get_count_after_addEvents scenario8 rfl scenarioEvents).1 0 255).trans (by decide),
   ((get_count_after_addEvents scenario8 rfl scenarioEvents).1 1 1).trans (by decide)⟩

/-! ## The reading loop of `_channels_from_xml` ends by its own test -/

theorem read_size_le (s : TokenStream) (old : Option Token) :
    (s.read old).2.size ≤ s.size := by
  unfold TokenStream.read TokenStream.size
  cases hw : s.words with
  | nil => simp
  | cons w rest => simp

theorem read_size_lt (s : TokenStream) (old : Option Token) (h : s.in_avail = true) :
    (s.read old).2.size < s.size := by
  unfold TokenStream.read TokenStream.size
  unfold TokenStream.in_avail at h
  cases hw : s.words with
  | nil =>
    rw [hw] at h
    have hb : s.blank = true := by simpa using h
    simp [hb]
  | cons w rest => simp

theorem decodeBody_size_lt (st : XmlDecoder) (s : TokenStream) (r : XmlDecoder × TokenStream)
    (havail : s.in_avail = true) (h : decodeBody st s = some r) : r.2.size < s.size := by
  have h1 := read_size_lt s st.numero havail
  have h2 := read_size_le (s.read st.numero).2 st.numero_z
  unfold decodeBody at h
  simp only at h
  split at h
  · split at h
    · exact Option.noConfusion h
    · have hr := Option.some.inj h
      rw [← hr]
      exact Nat.lt_of_le_of_lt h2 h1
  · split at h
    · exact Option.noConfusion h
    · have hr := Option.some.inj h
      rw [← hr]
      exact Nat.lt_of_le_of_lt h2 h1
  · split at h
    · exact Option.noConfusion h
    · have hr := Option.some.inj h
      rw [← hr]
      exact h1

theorem decodeLoop_fuel (f1 : Nat) : ∀ (f2 : Nat) (st : XmlDecoder) (s : TokenStream),
    s.size ≤ f1 → s.size ≤ f2 → decodeLoop f1 st s = decodeLoop f2 st s := by
  have hdone : ∀ (f : Nat) (st : XmlDecoder) (s : TokenStream), s.size = 0 →
      decodeLoop f st s = some st := by
    intro f st s hs
    have hna : s.in_avail = false := by
      unfold TokenStream.size at hs
      unfold TokenStream.in_avail
      have hw : s.words = [] := List.length_eq_zero.mp (by omega)
      have hb : s.blank = false := by
        cases hbl : s.blank with
        | false => rfl
        | true => rw [hbl] at hs; simp at hs
      simp [hw, hb]
    cases f <;> simp [decodeLoop, hna]
  induction f1 with
  | zero =>
    intro f2 st s h1 _
    rw [hdone 0 st s (by omega), hdone f2 st s (by omega)]
  | succ f1 ih =>
    intro f2 st s h1 h2
    cases f2 with
    | zero => rw [hdone (f1 + 1) st s (by omega), hdone 0 st s (by omega)]
    | succ f2 =>
      unfold decodeLoop
      by_cases havail : s.in_avail = true
      · simp only [havail, if_true]
        cases hbody : decodeBody st s with
        | none => rfl
        | some r =>
          have hlt := decodeBody_size_lt st s r havail hbody
          exact ih f2 r.1 r.2 (by omega) (by omega)
      · simp [havail]

/-! ## The channel-data codec without the final blank -/

theorem mapModify_append (f : PreciseFloat → PreciseFloat) (p : Point) (m : SpectrumMap)
    (h : ∀ e ∈ m, pointLt e.1 p = true) : mapModify f p m = m ++ [(p, f 0)] := by
  induction m with
  | nil => rfl
  | cons e0 rest ih =>
    obtain ⟨k, c⟩ := e0
    have hk : pointLt k p = true := h (k, c) (List.mem_cons_self _ _)
    have hne : ¬ p = k := by
      intro hpk; subst hpk; rw [pointLt_irrefl] at hk; exact Bool.noConfusion hk
    have hnlt : ¬ pointLt p k = true := by
      intro hpk
      have := pointLt_trans hk hpk
      rw [pointLt_irrefl] at this; exact Bool.noConfusion this
    have ih1 := ih (fun e he => h e (List.mem_cons_of_mem _ he))
    simp [mapModify, hne, hnlt, ih1]

theorem decodeLoop_nil (fuel : Nat) (st : XmlDecoder) :
    decodeLoop fuel st { words := [], blank := false } = some st := by
  cases fuel <;> simp [decodeLoop, TokenStream.in_avail]

theorem decodeLoop_plus (fuel n : Nat) (st : XmlDecoder) (ws : List Token) (hn : n < 65536) :
    decodeLoop (fuel + 1) st { words := Token.plus :: Token.num n :: ws, blank := false }
      = decodeLoop fuel
          { st with numero := some Token.plus, numero_z := some (Token.num n),
                    max_chan := if st.j > st.max_chan then st.j else st.max_chan,
                    i := (st.i + n) % 65536, j := 0 }
          { words := ws, blank := false } := by
  simp [decodeLoop, TokenStream.in_avail, decodeBody, TokenStream.read, lexical_cast_uint16, hn]

theorem decodeLoop_zero (fuel n : Nat) (st : XmlDecoder) (ws : List Token) (hn : n < 65536) :
    decodeLoop (fuel + 1) st { words := Token.num 0 :: Token.num n :: ws, blank := false }
      = decodeLoop fuel
          { st with numero := some (Token.num 0), numero_z := some (Token.num n),
                    j := (st.j + n) % 65536 }
          { words := ws, blank := false } := by
  simp [decodeLoop, TokenStream.in_avail, decodeBody, TokenStream.read, lexical_cast_uint16, hn]

theorem decodeLoop_count (fuel c : Nat) (st : XmlDecoder) (ws : List Token) (hc : c ≠ 0) :
    decodeLoop (fuel + 1) st { words := Token.num c :: ws, blank := false }
      = decodeLoop fuel
          { st with numero := some (Token.num c),
                    spectrum_ := mapModify (fun _ => c) (st.i, st.j) st.spectrum_,
                    j := (st.j + 1) % 65536 }
          { words := ws, blank := false } := by
  obtain ⟨k, rfl⟩ := Nat.exists_eq_succ_of_ne_zero hc
  simp [decodeLoop, TokenStream.in_avail, decodeBody, TokenStream.read,
    lexical_cast_PreciseFloat]
theorem decode_encodeFrom (rest : SpectrumMap) :
    ∀ (i j fuel : Nat) (st : XmlDecoder),
      KeysAscending rest →
      (∀ e ∈ rest, e.1.1 < 65536 ∧ e.1.2 < 65536 ∧ e.2 ≠ 0) →
      (∀ e ∈ rest, i < e.1.1 ∨ (i = e.1.1 ∧ j ≤ e.1.2)) →
      (∀ e0 ∈ st.spectrum_, ∀ e ∈ rest, pointLt e0.1 e.1 = true) →
      st.i = i → st.j = j % 65536 →
      (encodeFrom i j rest).length ≤ fuel →
      ∃ st1, decodeLoop fuel st { words := encodeFrom i j rest, blank := false } = some st1
        ∧ st1.spectrum_ = st.spectrum_ ++ rest := by
  induction rest with
  | nil =>
    intro i j fuel st _ _ _ _ _ _ _
    exact ⟨st, decodeLoop_nil _ _, by simp⟩
  | cons e rest ih =>
    obtain ⟨⟨a, b⟩, c⟩ := e
    intro i j fuel st hasc hbound hpos hkeys hi hj hfuel
    obtain ⟨ha, hb, hc⟩ := hbound ((a, b), c) (List.mem_cons_self _ _)
    simp only at ha hb hc
    have hposab := hpos ((a, b), c) (List.mem_cons_self _ _)
    simp only at hposab
    unfold KeysAscending at hasc
    rw [List.pairwise_cons] at hasc
    -- the count word and the remaining entries
    have key : ∀ (fuel1 : Nat) (st1 : XmlDecoder), st1.i = a → st1.j = b →
        st1.spectrum_ = st.spectrum_ →
        (encodeFrom a (b + 1) rest).length + 1 ≤ fuel1 →
        ∃ st2, decodeLoop fuel1 st1
            { words := Token.num c :: encodeFrom a (b + 1) rest, blank := false } = some st2
          ∧ st2.spectrum_ = st.spectrum_ ++ ((a, b), c) :: rest := by
      intro fuel1 st1 h1i h1j h1s hf1
      obtain ⟨f, rfl⟩ : ∃ f, fuel1 = f + 1 := ⟨fuel1 - 1, by omega⟩
      rw [decodeLoop_count f c st1 _ hc]
      have happ : mapModify (fun _ => c) (st1.i, st1.j) st1.spectrum_
          = st.spectrum_ ++ [((a, b), c)] := by
        rw [h1i, h1j, h1s]
        exact mapModify_append _ _ _
          (fun e0 he0 => hkeys e0 he0 ((a, b), c) (List.mem_cons_self _ _))
      obtain ⟨st2, hst2, hspec⟩ := ih a (b + 1) f
        { st1 with numero := some (Token.num c),
                   spectrum_ := mapModify (fun _ => c) (st1.i, st1.j) st1.spectrum_,
                   j := (st1.j + 1) % 65536 }
        hasc.2
        (fun e he => hbound e (List.mem_cons_of_mem _ he))
        (fun e he => by
          have hlt := (pointLt_iff (a, b) e.1).mp (hasc.1 e he)
          simp only at hlt
          omega)
        (fun e0 he0 e he => by
          simp only [happ, List.mem_append, List.mem_singleton] at he0
          rcases he0 with h0 | h0
          · exact hkeys e0 h0 e (List.mem_cons_of_mem _ he)
          · rw [h0]; exact hasc.1 e he)
        h1i (by simp only [h1j]) (by omega)
      refine ⟨st2, hst2, ?_⟩
      rw [hspec]
      simp only [happ, List.append_assoc, List.singleton_append]
    by_cases hrow : a > i
    · -- a new row
      have hi1 : (st.i + (a - i)) % 65536 = a := by rw [hi]; omega
      by_cases hcol : b > 0
      · have hwords : encodeFrom i j (((a, b), c) :: rest)
            = Token.plus :: Token.num (a - i) :: Token.num 0 :: Token.num b
                :: Token.num c :: encodeFrom a (b + 1) rest := by
          simp [encodeFrom, hrow, hcol]
        rw [hwords] at hfuel ⊢
        simp only [List.length_cons] at hfuel
        obtain ⟨f, rfl⟩ : ∃ f, fuel = f + 1 + 1 := ⟨fuel - 2, by omega⟩
        rw [decodeLoop_plus _ _ _ _ (by omega), decodeLoop_zero _ _ _ _ hb]
        exact key f _ hi1 (by show (0 + b) % 65536 = b; omega) rfl (by omega)
      · have hb0 : b = 0 := by omega
        have hwords : encodeFrom i j (((a, b), c) :: rest)
            = Token.plus :: Token.num (a - i) :: Token.num c :: encodeFrom a (b + 1) rest := by
          simp [encodeFrom, hrow, hb0]
        rw [hwords] at hfuel ⊢
        simp only [List.length_cons] at hfuel
        obtain ⟨f, rfl⟩ : ∃ f, fuel = f + 1 := ⟨fuel - 1, by omega⟩
        rw [decodeLoop_plus _ _ _ _ (by omega)]
        exact key f _ hi1 (by show 0 = b; omega) rfl (by omega)
    · -- the same row
      have hia : i = a := by omega
      have hjb : j ≤ b := by omega
      subst hia
      by_cases hcol : b > j
      · have hwords : encodeFrom i j (((i, b), c) :: rest)
            = Token.num 0 :: Token.num (b - j) :: Token.num c :: encodeFrom i (b + 1) rest := by
          simp [encodeFrom, hcol]
        rw [hwords] at hfuel ⊢
        simp only [List.length_cons] at hfuel
        obtain ⟨f, rfl⟩ : ∃ f, fuel = f + 1 := ⟨fuel - 1, by omega⟩
        rw [decodeLoop_zero _ _ _ _ (by omega)]
        exact key f _ hi (by show (st.j + (b - j)) % 65536 = b; rw [hj]; omega) rfl (by omega)
      · have hjb2 : j = b := by omega
        have hwords : encodeFrom i j (((i, b), c) :: rest)
            = Token.num c :: encodeFrom i (b + 1) rest := by
          simp [encodeFrom, hjb2]
        rw [hwords] at hfuel ⊢
        simp only [List.length_cons] at hfuel
        exact key fuel st hi (by rw [hj]; omega) rfl (by omega)

/-- The codec without the final blank: for every storage with ascending keys, 16-bit
coordinates and non-zero counts, `_channels_from_xml` applied to the words that
`_channels_to_xml` writes, when no blank follows the last word, yields a storage with
exactly the same coordinates and counts. -/
theorem channels_roundtrip_without_final_blank (s : Spectrum2D)
    (hasc : KeysAscending s.spectrum_)
    (hbound : ∀ e ∈ s.spectrum_, e.1.1 < 65536 ∧ e.1.2 < 65536 ∧ e.2 ≠ 0) :
    ∃ r, _channels_from_xml s { _channels_to_xml s with blank := false } = some r
      ∧ r.2.spectrum_ = s.spectrum_ := by
  obtain ⟨st1, hst1, hspec⟩ := decode_encodeFrom s.spectrum_ 0 0
    (TokenStream.size { _channels_to_xml s with blank := false })
    { i := 0, j := 0, max_i := 0, max_chan := 0, spectrum_ := [],
      numero := none, numero_z := none }
    hasc hbound (fun e _ => by omega) (fun e0 he0 => absurd he0 (List.not_mem_nil _)) rfl rfl
    (by simp [TokenStream.size, _channels_to_xml])
  have hst2 : decodeLoop (TokenStream.size { _channels_to_xml s with blank := false })
      { i := 0, j := 0, max_i := 0, max_chan := 0, spectrum_ := [],
        numero := none, numero_z := none }
      { _channels_to_xml s with blank := false } = some st1 := hst1
  unfold _channels_from_xml
  simp only [hst2]
  exact ⟨_, rfl, by simpa using hspec⟩

/-! ## The channel-data codec on the concrete scenario -/

/-- C1, the code at a failing input: the histogram of the concrete scenario holds the two
cells `(0,255) -> 1` and `(10,20) -> 3`; `_channels_from_xml` applied to the text that
`_channels_to_xml` wrote for it yields a storage with the third cell `(10,21) -> 3`. The
final blank of the text keeps `in_avail()` non-zero, the extraction then fails and leaves
the last word in `numero`, which is stored once more one column further. -/
theorem channels_roundtrip_adds_cell :
    (scenarioEvents.foldl addEvent scenario8).spectrum_ = [((0, 255), 1), ((10, 20), 3)]
    ∧ (_channels_from_xml (scenarioEvents.foldl addEvent scenario8)
          (_channels_to_xml (scenarioEvents.foldl addEvent scenario8))).map
        (fun r => r.2.spectrum_)
      = some [((0, 255), 1), ((10, 20), 3), ((10, 21), 3)] := by
  constructor <;> decide

/-- C2, the code at a failing input: after the single event `(10,20)` the histogram has
`max_chan = 20`, and `_channels_from_xml` applied to the text `_channels_to_xml` wrote
returns (and sets) `max_chan = 0`; so it does for the same text without its final blank.
For the concrete scenario, with `max_chan = 255`, it returns 256. -/
theorem channels_roundtrip_max_chan_differs :
    ([coincidence 10 20].foldl addEvent scenario8).max_chan = 20
    ∧ (_channels_from_xml ([coincidence 10 20].foldl addEvent scenario8)
          (_channels_to_xml ([coincidence 10 20].foldl addEvent scenario8))).map
        (fun r => (r.1, r.2.max_chan)) = some (0, 0)
    ∧ (_channels_from_xml ([coincidence 10 20].foldl addEvent scenario8)
          { _channels_to_xml ([coincidence 10 20].foldl addEvent scenario8) with
            blank := false }).map
        (fun r => (r.1, r.2.max_chan)) = some (0, 0)
    ∧ (scenarioEvents.foldl addEvent scenario8).max_chan = 255
    ∧ (_channels_from_xml (scenarioEvents.foldl addEvent scenario8)
          (_channels_to_xml (scenarioEvents.foldl addEvent scenario8))).map
        (fun r => (r.1, r.2.max_chan)) = some (256, 256) := by
  refine ⟨?_, ?_, ?_, ?_, ?_⟩ <;> decide
/-! ## `Spectrum2D::initialize` -/

theorem foldl_if_eq_foldl_filter {σ : Type} (g : Nat → Bool) (F : σ → Nat → σ)
    (is : List Nat) : ∀ init : σ,
    is.foldl (fun st i => if g i then F st i else st) init = (is.filter g).foldl F init := by
  induction is with
  | nil => intro init; rfl
  | cons i rest ih =>
    intro init
    by_cases hg : g i = true
    · simp [List.filter, hg, ih]
    · simp [List.filter, hg, ih]

theorem foldl_succ_eq_length (is : List Nat) : ∀ a : Nat,
    is.foldl (fun adds _ => adds + 1) a = a + is.length := by
  induction is with
  | nil => intro a; rfl
  | cons i rest ih => intro a; simp [ih]; omega

theorem countAdds_eq (gts : List Bool) : countAdds gts = (setGates gts).length := by
  unfold countAdds setGates
  rw [foldl_if_eq_foldl_filter (fun i => gts.getD i false) (fun adds _ => adds + 1)]
  rw [foldl_succ_eq_length]; simp

theorem fillPattern_eq (gts : List Bool) (pattern_ : List Int) :
    fillPattern gts pattern_
      = (setGates gts).foldl (fun st i => (st.1.set st.2 (i : Int), st.2 + 1)) (pattern_, 0) := by
  unfold fillPattern setGates
  rw [foldl_if_eq_foldl_filter (fun i => gts.getD i false)
    (fun (st : List Int × Nat) i => (st.1.set st.2 (i : Int), st.2 + 1))]

theorem setGates_append_singleton (l : List Bool) (x : Bool) :
    setGates (l ++ [x]) = setGates l ++ (if x then [l.length] else []) := by
  unfold setGates
  rw [List.length_append, List.length_singleton, List.range_succ, List.filter_append]
  congr 1
  · apply List.filter_congr
    intro i hi
    rw [List.mem_range] at hi
    simp [List.getD_eq_getElem?_getD, List.getElem?_append_left hi]
  · cases x <;> simp [List.filter, List.getD_eq_getElem?_getD]

theorem setGates_length (gts : List Bool) : (setGates gts).length = gts.count true := by
  induction gts using List.reverseRecOn with
  | nil => rfl
  | append_singleton l x ih =>
    rw [setGates_append_singleton, List.length_append, ih, List.count_append]
    cases x <;> simp

theorem setGates_sorted (gts : List Bool) : (setGates gts).Pairwise (fun a b => a < b) :=
  List.Pairwise.filter _ (List.pairwise_lt_range _)

theorem mem_setGates (gts : List Bool) (k : Nat) :
    k ∈ setGates gts ↔ gts[k]? = some true := by
  unfold setGates
  rw [List.mem_filter, List.mem_range]
  constructor
  · rintro ⟨hk, hg⟩
    rw [List.getD_eq_getElem?_getD, List.getElem?_eq_getElem hk] at hg
    rw [List.getElem?_eq_getElem hk]
    simpa using hg
  · intro h
    have hk : k < gts.length := by
      by_contra hcon
      rw [List.getElem?_eq_none (by omega)] at h
      exact Option.noConfusion h
    refine ⟨hk, ?_⟩
    rw [List.getD_eq_getElem?_getD, h]; rfl

theorem resize2_eq (p : List Int) : ∃ x y, resize2 p = [x, y] := by
  unfold resize2
  match p with
  | [] => exact ⟨0, 0, rfl⟩
  | [a] => exact ⟨a, 0, rfl⟩
  | a :: b :: rest => exact ⟨a, b, rfl⟩

/-- C10: `Spectrum2D::initialize` returns true exactly when the add pattern has exactly
two gates set, and false otherwise; on success the histogram has 2 dimensions and axes 0
and 1 are bound to the lower and the higher index of the two set gates. -/
theorem initialize2D_two_gates (base : Spectrum2D → Spectrum2D) (s : Spectrum2D) :
    ((initialize2D base s).1 = true ↔ (base s).pattern_add_gates.count true = 2)
    ∧ ((initialize2D base s).1 = false ↔ (base s).pattern_add_gates.count true ≠ 2)
    ∧ ((initialize2D base s).1 = true →
        (initialize2D base s).2.dimensions = 2
        ∧ ∃ i j : Nat, i < j
            ∧ (base s).pattern_add_gates[i]? = some true
            ∧ (base s).pattern_add_gates[j]? = some true
            ∧ (∀ k : Nat, (base s).pattern_add_gates[k]? = some true → k = i ∨ k = j)
            ∧ (initialize2D base s).2.pattern_ = [(i : Int), (j : Int)]) := by
  have hcount : countAdds (base s).pattern_add_gates = (base s).pattern_add_gates.count true := by
    rw [countAdds_eq, setGates_length]
  have hret : (initialize2D base s).1 = true ↔ (base s).pattern_add_gates.count true = 2 := by
    unfold initialize2D
    by_cases h : countAdds (base s).pattern_add_gates = 2
    · simp [h, ← hcount]
    · simp [h, ← hcount]
  refine ⟨hret, ?_, ?_⟩
  · rw [ne_eq, ← hret]; cases (initialize2D base s).1 <;> simp
  · intro htrue
    have h2 : countAdds (base s).pattern_add_gates = 2 := by rw [hcount]; exact hret.mp htrue
    have hlen : (setGates (base s).pattern_add_gates).length = 2 := by rw [← countAdds_eq]; exact h2
    obtain ⟨x, y, hxy⟩ := resize2_eq (base s).pattern_
    have hsorted := setGates_sorted (base s).pattern_add_gates
    have hmem := mem_setGates (base s).pattern_add_gates
    match hsg : setGates (base s).pattern_add_gates, hlen with
    | [i, j], _ =>
      rw [hsg] at hsorted
      have hij : i < j := by
        rw [List.pairwise_cons] at hsorted
        exact hsorted.1 j (List.mem_singleton.mpr rfl)
      have hpat : (initialize2D base s).2.pattern_ = [(i : Int), (j : Int)] := by
        unfold initialize2D
        simp only [h2, ne_eq, not_true_eq_false, if_false]
        rw [fillPattern_eq, hsg, hxy]
        rfl
      have hdim : (initialize2D base s).2.dimensions = 2 := by
        unfold initialize2D
        simp only [h2, ne_eq, not_true_eq_false, if_false]
      refine ⟨hdim, i, j, hij, ?_, ?_, ?_, hpat⟩
      · rw [← hmem, hsg]; simp
      · rw [← hmem, hsg]; simp
      · intro k hk
        rw [← hmem, hsg] at hk
        simpa using hk
/-- The success case of C10 on the add pattern with the gates 1 and 3 set: `initialize`
returns true, the histogram has 2 dimensions and the axes are bound to 1 and 3. -/
theorem initialize2D_two_gates_witness :
    (initialize2D id gates1and3).1 = true
    ∧ ((initialize2D id gates1and3).2.dimensions = 2
        ∧ ∃ i j : Nat, i < j
            ∧ (id gates1and3).pattern_add_gates[i]? = some true
            ∧ (id gates1and3).pattern_add_gates[j]? = some true
            ∧ (∀ k : Nat, (id gates1and3).pattern_add_gates[k]? = some true → k = i ∨ k = j)
            ∧ (initialize2D id gates1and3).2.pattern_ = [(i : Int), (j : Int)]) :=
  ⟨by decide, (initialize2D_two_gates id gates1and3).2.2 (by decide)⟩

/-! ## Lemmas on the list-mode parser -/

theorem foldl_invariant {σ α : Type} (f : σ → α → σ) (I : σ → Prop) (l : List α)
    (h : ∀ s, ∀ a ∈ l, I s → I (f s a)) : ∀ s, I s → I (l.foldl f s) := by
  induction l with
  | nil => intro s hs; exact hs
  | cons a rest ih =>
    intro s hs
    rw [List.foldl_cons]
    exact ih (fun s1 a1 ha1 => h s1 a1 (List.mem_cons_of_mem _ ha1)) _
      (h s a (List.mem_cons_self _ _) hs)

theorem mem_multiset_insert (h x : Hit) (l : List Hit) :
    x ∈ multiset_insert h l ↔ x = h ∨ x ∈ l := by
  induction l with
  | nil => simp [multiset_insert]
  | cons e rest ih =>
    unfold multiset_insert
    split
    · simp
    · rw [List.mem_cons, ih, List.mem_cons]
      constructor
      · rintro (h1 | h1 | h1)
        · exact Or.inr (Or.inl h1)
        · exact Or.inl h1
        · exact Or.inr (Or.inr h1)
      · rintro (h1 | h1 | h1)
        · exact Or.inr (Or.inl h1)
        · exact Or.inl h1
        · exact Or.inr (Or.inr h1)

theorem multiset_insert_timeOrdered (h : Hit) (l : List Hit) (hl : TimeOrdered l) :
    TimeOrdered (multiset_insert h l) := by
  induction l with
  | nil => simp [multiset_insert, TimeOrdered]
  | cons e rest ih =>
    unfold TimeOrdered at hl ih ⊢
    rw [List.pairwise_cons] at hl
    unfold multiset_insert
    split
    · rename_i hlt
      have hlt1 : h.timestamp_.time_native_ < e.timestamp_.time_native_ := by
        simpa [Hit.lt, TimeStamp.lt] using hlt
      rw [List.pairwise_cons]
      refine ⟨?_, List.pairwise_cons.mpr hl⟩
      intro x hx
      rcases List.mem_cons.mp hx with h1 | h1
      · rw [h1]; exact Nat.le_of_lt hlt1
      · exact Nat.le_trans (Nat.le_of_lt hlt1) (hl.1 x h1)
    · rename_i hnlt
      have hge : e.timestamp_.time_native_ ≤ h.timestamp_.time_native_ := by
        have : ¬ h.timestamp_.time_native_ < e.timestamp_.time_native_ := by
          simpa [Hit.lt, TimeStamp.lt] using hnlt
        omega
      rw [List.pairwise_cons]
      refine ⟨?_, ih hl.2⟩
      intro x hx
      rcases (mem_multiset_insert h x rest).mp hx with h1 | h1
      · rw [h1]; exact hge
      · exact hl.1 x h1

theorem rd_idx (buff16 : List Nat) (cur : Cursor) : (rd buff16 cur).2.idx = cur.idx + 1 := rfl

theorem rd_val (buff16 : List Nat) (cur : Cursor) : (rd buff16 cur).1 = word buff16 cur.idx := rfl

theorem readChannel_idx_le (buff16 : List Nat) (task_b buf_timehi evt_time_lo : Nat)
    (one_hit : Hit) (cur : Cursor) :
    cur.idx ≤ (readChannel buff16 task_b buf_timehi evt_time_lo one_hit cur).cur.idx := by
  unfold readChannel
  split_ifs <;> simp only [rd_idx, Cursor.skip] <;> omega

theorem parseChannel_idx_le (ctx : ParseContext) (buff16 : List Nat) (hdr : RecordHeader)
    (ev : EventHeader) (i : Nat) (cur : Cursor) :
    cur.idx ≤ (parseChannel ctx buff16 hdr ev i cur).2.idx :=
  readChannel_idx_le _ _ _ _ _ _

theorem parseChannel_source (ctx : ParseContext) (buff16 : List Nat) (hdr : RecordHeader)
    (ev : EventHeader) (i : Nat) (cur : Cursor) :
    (parseChannel ctx buff16 hdr ev i cur).1.source_channel_
      = sourceChannel ctx hdr.buf_module i := by
  have hsv : ∀ (h : Hit) (a b : Nat), (h.set_value a b).source_channel_ = h.source_channel_ := by
    intro h a b; unfold Hit.set_value; split <;> rfl
  have hrc : ∀ (t x y : Nat) (h : Hit) (c : Cursor),
      (readChannel buff16 t x y h c).one_hit.source_channel_ = h.source_channel_ := by
    intro t x y h c
    unfold readChannel
    split_ifs <;> simp [hsv, Hit.set_trace]
  unfold parseChannel
  simp only [Hit.set_timestamp_native]
  split_ifs <;> simp [hsv, hrc, Hit.new]

theorem channelStep_idx_le (ctx : ParseContext) (buff16 : List Nat) (hdr : RecordHeader)
    (ev : EventHeader) (st : List Hit × Cursor) (i : Nat) :
    st.2.idx ≤ (channelStep ctx buff16 hdr ev st i).2.idx := by
  unfold channelStep
  split
  · exact parseChannel_idx_le _ _ _ _ _ _
  · exact Nat.le_refl _

theorem channelStep_hits (ctx : ParseContext) (buff16 : List Nat) (hdr : RecordHeader)
    (ev : EventHeader) (st : List Hit × Cursor) (i : Nat) :
    (channelStep ctx buff16 hdr ev st i).1 = st.1
    ∨ (ev.pattern.testBit i = true ∧ 0 ≤ sourceChannel ctx hdr.buf_module i
        ∧ (channelStep ctx buff16 hdr ev st i).1
            = multiset_insert (parseChannel ctx buff16 hdr ev i st.2).1 st.1) := by
  unfold channelStep
  by_cases hb : ev.pattern.testBit i = true
  · by_cases hs : 0 ≤ sourceChannel ctx hdr.buf_module i
    · right; simp [hb, hs]
    · left; simp [hb, hs]
  · left; simp [hb]

theorem parseEvent_idx (ctx : ParseContext) (buff16 : List Nat) (hdr : RecordHeader)
    (cur : Cursor) : cur.idx + 3 ≤ (parseEvent ctx buff16 hdr cur).2.idx := by
  unfold parseEvent
  apply foldl_invariant (channelStep ctx buff16 hdr _) (fun st => cur.idx + 3 ≤ st.2.idx)
  · intro s a _ hs
    exact Nat.le_trans hs (channelStep_idx_le _ _ _ _ _ _)
  · simp [rd_idx]

theorem parseEvent_timeOrdered (ctx : ParseContext) (buff16 : List Nat) (hdr : RecordHeader)
    (cur : Cursor) : TimeOrdered (parseEvent ctx buff16 hdr cur).1.hits := by
  unfold parseEvent
  apply foldl_invariant (channelStep ctx buff16 hdr _) (fun st => TimeOrdered st.1)
  · intro s a _ hs
    rcases channelStep_hits ctx buff16 hdr
      { pattern := (rd buff16 cur).1, evt_time_hi := (rd buff16 (rd buff16 cur).2).1,
        evt_time_lo := (rd buff16 (rd buff16 (rd buff16 cur).2).2).1 } s a with h | ⟨_, _, h⟩
    · show TimeOrdered (channelStep _ _ _ _ _ _).1
      rw [h]; exact hs
    · show TimeOrdered (channelStep _ _ _ _ _ _).1
      rw [h]; exact multiset_insert_timeOrdered _ _ hs
  · exact List.Pairwise.nil

theorem eventLoop_spec (ctx : ParseContext) (buff16 : List Nat) (hdr : RecordHeader)
    (P : DecodedEvent → Prop) (hP : ∀ cur, P (parseEvent ctx buff16 hdr cur).1) :
    ∀ (fuel : Nat) (cur : Cursor) (events : List DecodedEvent),
      hdr.buf_end ≤ cur.idx + fuel →
      ∃ r, eventLoop ctx buff16 hdr fuel cur events = some r ∧ cur.idx ≤ r.1.idx
        ∧ ∃ more, r.2 = events ++ more ∧ ∀ e ∈ more, P e := by
  intro fuel
  induction fuel with
  | zero =>
    intro cur events hfuel
    refine ⟨(cur, events), ?_, Nat.le_refl _, [], by simp, by simp⟩
    unfold eventLoop
    have : ¬ (hdr.task_a = 0x0100 ∧ cur.idx < hdr.buf_end) := by
      intro h; have := h.2; omega
    simp [this]
  | succ fuel ih =>
    intro cur events hfuel
    unfold eventLoop
    by_cases hc : hdr.task_a = 0x0100 ∧ cur.idx < hdr.buf_end
    · simp only [hc, and_self, if_true]
      have hidx := parseEvent_idx ctx buff16 hdr cur
      obtain ⟨r, hr, hle, more, hmore, hPm⟩ :=
        ih (parseEvent ctx buff16 hdr cur).2 (events ++ [(parseEvent ctx buff16 hdr cur).1])
          (by omega)
      refine ⟨r, hr, by omega, (parseEvent ctx buff16 hdr cur).1 :: more, ?_, ?_⟩
      · rw [hmore]; simp
      · intro e he
        rcases List.mem_cons.mp he with h1 | h1
        · rw [h1]; exact hP cur
        · exact hPm e h1
    · refine ⟨(cur, events), ?_, Nat.le_refl _, [], by simp, by simp⟩
      simp [hc]

theorem recordPass_spec (ctx : ParseContext) (buff16 : List Nat)
    (P : DecodedEvent → Prop) (hP : ∀ hdr cur, P (parseEvent ctx buff16 hdr cur).1)
    (cur : Cursor) (events : List DecodedEvent) :
    ∃ r, recordPass ctx buff16 cur events = some r
      ∧ (r.1 = false →
          badLength ctx (word buff16 cur.idx) (cur.idx + 1 + word buff16 cur.idx - 1) = true
          ∧ r.2.2 = events)
      ∧ (r.1 = true →
          badLength ctx (word buff16 cur.idx) (cur.idx + 1 + word buff16 cur.idx - 1) = false
          ∧ cur.idx < ctx.list_mem_len16 ∧ cur.idx + 6 ≤ r.2.1.idx)
      ∧ ∃ more, r.2.2 = events ++ more ∧ ∀ e ∈ more, P e := by
  unfold recordPass
  simp only [rd_idx, rd_val]
  by_cases hbad : badLength ctx (word buff16 cur.idx) (cur.idx + 1 + word buff16 cur.idx - 1) = true
  · simp only [hbad, if_true]
    exact ⟨_, rfl, fun _ => ⟨trivial, rfl⟩, fun h => Bool.noConfusion h, [], by simp, by simp⟩
  · simp only [hbad, if_false]
    have hgood : badLength ctx (word buff16 cur.idx) (cur.idx + 1 + word buff16 cur.idx - 1)
        = false := by simpa using hbad
    have hlt : cur.idx < ctx.list_mem_len16 := by
      unfold badLength at hgood
      simp only [Bool.or_eq_false_iff, decide_eq_false_iff_not] at hgood
      omega
    obtain ⟨r, hr, hle, more, hmore, hPm⟩ :=
      eventLoop_spec ctx buff16
        { start := cur.idx, buf_end := cur.idx + 1 + word buff16 cur.idx - 1,
          buf_module := word buff16 (cur.idx + 1), buf_format := word buff16 (cur.idx + 1 + 1),
          buf_timehi := word buff16 (cur.idx + 1 + 1 + 1),
          buf_timemi := word buff16 (cur.idx + 1 + 1 + 1 + 1) } P (hP _)
        (cur.idx + 1 + word buff16 cur.idx - 1
          - (Cursor.skip (rd buff16 (rd buff16 (rd buff16 (rd buff16 (rd buff16 cur).2).2).2).2).2 1).idx)
        (Cursor.skip (rd buff16 (rd buff16 (rd buff16 (rd buff16 (rd buff16 cur).2).2).2).2).2 1)
        events (by simp only [Cursor.skip, rd_idx]; omega)
    rw [hr]
    refine ⟨_, rfl, fun h => Bool.noConfusion h, fun _ => ⟨trivial, hlt, ?_⟩, more, hmore, hPm⟩
    simp only [Cursor.skip, rd_idx] at hle
    show cur.idx + 6 ≤ r.1.idx
    omega

theorem recordLoop_spec (ctx : ParseContext) (buff16 : List Nat)
    (P : DecodedEvent → Prop) (hP : ∀ hdr cur, P (parseEvent ctx buff16 hdr cur).1) :
    ∀ (fuel : Nat) (cur : Cursor) (events : List DecodedEvent),
      1 ≤ fuel → ctx.list_mem_len16 + 2 ≤ cur.idx + fuel →
      ∃ r, recordLoop ctx buff16 fuel cur events = some r
        ∧ ∃ more, r.2 = events ++ more ∧ ∀ e ∈ more, P e := by
  intro fuel
  induction fuel with
  | zero => intro cur events h1; omega
  | succ fuel ih =>
    intro cur events _ hfuel
    obtain ⟨r, hr, hfalse, htrue, more, hmore, hPm⟩ :=
      recordPass_spec ctx buff16 P hP cur events
    unfold recordLoop
    rw [hr]
    obtain ⟨b, cur1, events1⟩ := r
    cases b with
    | false => exact ⟨(cur1, events1), rfl, more, hmore, hPm⟩
    | true =>
      obtain ⟨_, hlt, hidx⟩ := htrue rfl
      simp only at hidx hmore
      obtain ⟨r2, hr2, more2, hmore2, hPm2⟩ := ih cur1 events1 (by omega) (by omega)
      refine ⟨r2, hr2, more ++ more2, ?_, ?_⟩
      · rw [hmore2, hmore]; simp
      · intro e he
        rcases List.mem_append.mp he with h1 | h1
        · exact hPm e h1
        · exact hPm2 e h1

theorem decodeBuffer_spec (ctx : ParseContext) (buff16 : List Nat)
    (P : DecodedEvent → Prop) (hP : ∀ hdr cur, P (parseEvent ctx buff16 hdr cur).1) :
    ∃ r, decodeBuffer ctx buff16 = some r ∧ ∀ e ∈ r.2, P e := by
  obtain ⟨r, hr, more, hmore, hPm⟩ :=
    recordLoop_spec ctx buff16 P hP (ctx.list_mem_len16 + 2) { idx := 0, reads := [] } []
      (by omega) (by simp)
  refine ⟨r, hr, ?_⟩
  intro e he
  rw [hmore] at he
  exact hPm e (by simpa using he)
/-! ## The read index stays far below `2^32` -/

theorem readChannel_idx_ub (buff16 : List Nat) (task_b buf_timehi evt_time_lo : Nat)
    (one_hit : Hit) (cur : Cursor) :
    (readChannel buff16 task_b buf_timehi evt_time_lo one_hit cur).cur.idx
      ≤ cur.idx + 65543 := by
  unfold readChannel
  split_ifs <;> simp only [rd_idx, rd_val, Cursor.skip] <;> omega

theorem channelStep_idx_ub (ctx : ParseContext) (buff16 : List Nat) (hdr : RecordHeader)
    (ev : EventHeader) (st : List Hit × Cursor) (i : Nat) :
    (channelStep ctx buff16 hdr ev st i).2.idx ≤ st.2.idx + 65543 := by
  unfold channelStep
  split
  · exact readChannel_idx_ub _ _ _ _ _ _
  · omega

theorem channelFold_idx_ub (ctx : ParseContext) (buff16 : List Nat) (hdr : RecordHeader)
    (ev : EventHeader) (l : List Nat) : ∀ st : List Hit × Cursor,
    (l.foldl (channelStep ctx buff16 hdr ev) st).2.idx ≤ st.2.idx + l.length * 65543 := by
  induction l with
  | nil => intro st; simp
  | cons i rest ih =>
    intro st
    rw [List.foldl_cons, List.length_cons]
    have h1 := ih (channelStep ctx buff16 hdr ev st i)
    have h2 := channelStep_idx_ub ctx buff16 hdr ev st i
    calc (rest.foldl (channelStep ctx buff16 hdr ev) (channelStep ctx buff16 hdr ev st i)).2.idx
        ≤ (channelStep ctx buff16 hdr ev st i).2.idx + rest.length * 65543 := h1
      _ ≤ st.2.idx + 65543 + rest.length * 65543 := by omega
      _ = st.2.idx + (rest.length + 1) * 65543 := by omega

theorem parseEvent_idx_ub (ctx : ParseContext) (buff16 : List Nat) (hdr : RecordHeader)
    (cur : Cursor) :
    (parseEvent ctx buff16 hdr cur).2.idx ≤ cur.idx + 3 + ctx.NUMBER_OF_CHANNELS * 65543 := by
  unfold parseEvent
  have h := channelFold_idx_ub ctx buff16 hdr
    { pattern := (rd buff16 cur).1, evt_time_hi := (rd buff16 (rd buff16 cur).2).1,
      evt_time_lo := (rd buff16 (rd buff16 (rd buff16 cur).2).2).1 }
    (List.range ctx.NUMBER_OF_CHANNELS) ([], (rd buff16 (rd buff16 (rd buff16 cur).2).2).2)
  simp only [rd_idx, List.length_range] at h
  exact h

theorem eventLoop_idx_ub (ctx : ParseContext) (buff16 : List Nat) (hdr : RecordHeader) :
    ∀ (fuel : Nat) (cur : Cursor) (events : List DecodedEvent)
      (r : Cursor × List DecodedEvent),
      eventLoop ctx buff16 hdr fuel cur events = some r →
      r.1.idx ≤ cur.idx ∨ r.1.idx ≤ hdr.buf_end + 2 + ctx.NUMBER_OF_CHANNELS * 65543 := by
  intro fuel
  induction fuel with
  | zero =>
    intro cur events r h
    unfold eventLoop at h
    split at h
    · exact Option.noConfusion h
    · left; rw [← Option.some.inj h]
  | succ fuel ih =>
    intro cur events r h
    unfold eventLoop at h
    split at h
    · rename_i hc
      have hub := parseEvent_idx_ub ctx buff16 hdr cur
      rcases ih _ _ r h with h1 | h1
      · right; omega
      · right; exact h1
    · left; rw [← Option.some.inj h]

theorem recordPass_idx_ub (ctx : ParseContext) (buff16 : List Nat) (cur : Cursor)
    (events : List DecodedEvent) (r : Bool × Cursor × List DecodedEvent)
    (h : recordPass ctx buff16 cur events = some r) :
    (r.1 = false → r.2.1.idx = cur.idx + 1)
    ∧ (r.1 = true → cur.idx < ctx.list_mem_len16
        ∧ r.2.1.idx ≤ ctx.list_mem_len16 + 5 + ctx.NUMBER_OF_CHANNELS * 65543) := by
  unfold recordPass at h
  simp only [rd_idx, rd_val] at h
  split at h
  · rw [← Option.some.inj h]
    exact ⟨fun _ => rfl, fun hh => Bool.noConfusion hh⟩
  · rename_i hbad
    have hgood : badLength ctx (word buff16 cur.idx) (cur.idx + 1 + word buff16 cur.idx - 1)
        = false := by simpa using hbad
    unfold badLength at hgood
    simp only [Bool.or_eq_false_iff, decide_eq_false_iff_not] at hgood
    split at h
    · exact Option.noConfusion h
    · rename_i r1 hr1
      rw [← Option.some.inj h]
      refine ⟨fun hh => Bool.noConfusion hh, fun _ => ⟨by omega, ?_⟩⟩
      have hub := eventLoop_idx_ub ctx buff16 _ _ _ _ r1 hr1
      simp only [Cursor.skip, rd_idx] at hub
      show r1.1.idx ≤ _
      omega

/-- The read index after the decoding of a buffer is at most
`list_mem_len16 + 6 + NUMBER_OF_CHANNELS * 65543`; the index never decreases, so with the
constants of the vendor header the `uint32_t` index does not wrap. -/
theorem recordLoop_idx_ub (ctx : ParseContext) (buff16 : List Nat) :
    ∀ (fuel : Nat) (cur : Cursor) (events : List DecodedEvent)
      (r : Cursor × List DecodedEvent),
      recordLoop ctx buff16 fuel cur events = some r →
      cur.idx ≤ ctx.list_mem_len16 + 5 + ctx.NUMBER_OF_CHANNELS * 65543 →
      r.1.idx ≤ ctx.list_mem_len16 + 6 + ctx.NUMBER_OF_CHANNELS * 65543 := by
  intro fuel
  induction fuel with
  | zero =>
    intro cur events r h
    rw [recordLoop] at h
    exact Option.noConfusion h
  | succ fuel ih =>
    intro cur events r h hcur
    rw [recordLoop] at h
    cases hpass : recordPass ctx buff16 cur events with
    | none => rw [hpass] at h; exact Option.noConfusion h
    | some p =>
      rw [hpass] at h
      obtain ⟨hfalse, htrue⟩ := recordPass_idx_ub ctx buff16 cur events p hpass
      obtain ⟨b, cur1, events1⟩ := p
      cases b with
      | false =>
        simp only at h
        have := hfalse rfl
        simp only at this
        rw [← Option.some.inj h]
        show cur1.idx ≤ _
        omega
      | true =>
        simp only at h
        exact ih cur1 events1 r h (htrue rfl).2

theorem decodeBuffer_idx_ub (ctx : ParseContext) (buff16 : List Nat)
    (r : Cursor × List DecodedEvent) (h : decodeBuffer ctx buff16 = some r) :
    r.1.idx ≤ ctx.list_mem_len16 + 6 + ctx.NUMBER_OF_CHANNELS * 65543 :=
  recordLoop_idx_ub ctx buff16 _ _ _ r h (Nat.zero_le _)

/-! ## Timestamp reconstruction -/

theorem readChannel_chan_trig_time (buff16 : List Nat) (task_b buf_timehi evt_time_lo : Nat)
    (one_hit : Hit) (cur : Cursor) :
    (readChannel buff16 task_b buf_timehi evt_time_lo one_hit cur).chan_trig_time
      = fineLowWord buff16 task_b evt_time_lo cur.idx := by
  unfold readChannel fineLowWord
  by_cases h0 : task_b = 0
  · subst h0; simp
  · by_cases h1 : task_b = 1
    · subst h1; simp [rd_val, Cursor.skip]
    · by_cases h2 : task_b = 2
      · subst h2; simp [rd_val]
      · by_cases h3 : task_b = 3
        · subst h3; simp [rd_val]
        · simp [h0, h1, h2, h3]

theorem readChannel_hi (buff16 : List Nat) (task_b buf_timehi evt_time_lo : Nat)
    (one_hit : Hit) (cur : Cursor) (h0 : task_b ≠ 0) (h1 : task_b ≠ 1) :
    (readChannel buff16 task_b buf_timehi evt_time_lo one_hit cur).hi = buf_timehi := by
  unfold readChannel
  simp only [h0, h1, if_false]
  split_ifs <;> rfl

theorem parseChannel_time (ctx : ParseContext) (buff16 : List Nat) (hdr : RecordHeader)
    (ev : EventHeader) (i : Nat) (cur : Cursor) :
    (parseChannel ctx buff16 hdr ev i cur).1.timestamp_.time_native_
      = reconstructTime hdr.task_b hdr.buf_timehi hdr.buf_timemi ev.evt_time_hi ev.evt_time_lo
          (readChannel buff16 hdr.task_b hdr.buf_timehi ev.evt_time_lo
            ((Hit.new (sourceChannel ctx hdr.buf_module i) ctx.model).set_value 1
              (if ev.pattern.testBit 4 then 1 else 0)) cur).chan_trig_time
          (readChannel buff16 hdr.task_b hdr.buf_timehi ev.evt_time_lo
            ((Hit.new (sourceChannel ctx hdr.buf_module i) ctx.model).set_value 1
              (if ev.pattern.testBit 4 then 1 else 0)) cur).hi := rfl

theorem reconstructTime_full (task_b buf_timehi buf_timemi evt_time_hi evt_time_lo lo : Nat)
    (h0 : task_b ≠ 0) (h1 : task_b ≠ 1) :
    ((reconstructTime task_b buf_timehi buf_timemi evt_time_hi evt_time_lo lo buf_timehi : Nat)
        : Int)
      = (((buf_timehi : Int) + (if evt_time_hi < buf_timemi then 1 else 0)) * 2 ^ 32
          + ((evt_time_hi : Int) - (if lo > evt_time_lo then 1 else 0)) * 2 ^ 16
          + (lo : Int)) % 2 ^ 64 := by
  unfold reconstructTime
  have hnot : ¬ (task_b = 0 ∨ task_b = 1) := by omega
  simp only [hnot, if_false]
  split_ifs <;> push_cast <;> omega

theorem reconstructTime_low (task_b buf_timehi buf_timemi evt_time_hi evt_time_lo lo hi0 : Nat) :
    ((reconstructTime task_b buf_timehi buf_timemi evt_time_hi evt_time_lo lo hi0 : Nat) : Int)
        % 2 ^ 32
      = (((evt_time_hi : Int) - (if lo > evt_time_lo then 1 else 0)) * 2 ^ 16 + (lo : Int))
          % 2 ^ 32 := by
  unfold reconstructTime
  split_ifs <;> push_cast <;> omega

/-- For every hit of a sub-format other than 0 and 1 the native timestamp is
`hi*2^32 + mi*2^16 + lo (mod 2^64)`, where `lo` is the hit's fine low word, `mi` is the
event's fine high word decremented by one exactly when `lo` is greater than the event's
low time word, and `hi` is the header's high word incremented by one exactly when the
event's fine high word is less than the header's mid word; for every sub-format the low
32 bits of the timestamp are `mi*2^16 + lo (mod 2^32)` by the same rule. -/
theorem parseChannel_timestamp (ctx : ParseContext) (buff16 : List Nat) (hdr : RecordHeader)
    (ev : EventHeader) (i : Nat) (cur : Cursor) :
    (hdr.task_b ≠ 0 → hdr.task_b ≠ 1 →
      ((parseChannel ctx buff16 hdr ev i cur).1.timestamp_.time_native_ : Int)
        = (((hdr.buf_timehi : Int) + (if ev.evt_time_hi < hdr.buf_timemi then 1 else 0)) * 2 ^ 32
            + ((ev.evt_time_hi : Int)
                - (if fineLowWord buff16 hdr.task_b ev.evt_time_lo cur.idx > ev.evt_time_lo
                   then 1 else 0)) * 2 ^ 16
            + (fineLowWord buff16 hdr.task_b ev.evt_time_lo cur.idx : Int)) % 2 ^ 64)
    ∧ ((parseChannel ctx buff16 hdr ev i cur).1.timestamp_.time_native_ : Int) % 2 ^ 32
        = (((ev.evt_time_hi : Int)
              - (if fineLowWord buff16 hdr.task_b ev.evt_time_lo cur.idx > ev.evt_time_lo
                 then 1 else 0)) * 2 ^ 16
            + (fineLowWord buff16 hdr.task_b ev.evt_time_lo cur.idx : Int)) % 2 ^ 32 := by
  rw [parseChannel_time, readChannel_chan_trig_time]
  refine ⟨?_, ?_⟩
  · intro h0 h1
    rw [readChannel_hi _ _ _ _ _ _ h0 h1]
    exact reconstructTime_full _ _ _ _ _ _ h0 h1
  · exact reconstructTime_low _ _ _ _ _ _ _
/-- The reconstruction rule at a hit of sub-format 3 whose fine high word rolled over: the
high word is incremented, the timestamp is `2^32 + 16`. -/
theorem parseChannel_timestamp_rolled3 :
    rolledHeader3.task_b ≠ 0 ∧ rolledHeader3.task_b ≠ 1
    ∧ ((parseChannel oneModule rolledFormat3 rolledHeader3 rolledEvent 0
          { idx := 9, reads := [] }).1.timestamp_.time_native_ : Int) = 4294967312 :=
  ⟨by decide, by decide,
   ((parseChannel_timestamp oneModule rolledFormat3 rolledHeader3 rolledEvent 0
      { idx := 9, reads := [] }).1 (by decide) (by decide)).trans (by decide)⟩

/-- C4 fails in the code for sub-format 1: the record `rolledFormat1` has the header words
high 0, mid 0xFFFF, low 0x0010 and one hit with the event words 0, 0x0010, the fine low
word 0x0010 and the channel high word 1. The fine high word 0 is less than the header's
mid word, so the rule of the claim gives `2^32 + 16` (whether the fine low word is
compared with the event's or with the header's low word); the parser retains the one hit
with the timestamp 16: the incremented high word is overwritten by `hi = chan_time_hi`,
which still holds the header's high word. The same hit in sub-format 3 gets `2^32 + 16`. -/
theorem timestamp_claim_fails_format1 :
    ∃ r, decodeBuffer oneModule rolledFormat1 = some r
      ∧ (eventHits r.2).map (fun h => h.timestamp_.time_native_) = [16]
      ∧ claimedTimestamp (word rolledFormat1 3) (word rolledFormat1 4)
          (word rolledFormat1 7) (word rolledFormat1 8) (word rolledFormat1 10) = 4294967312
      ∧ claimedTimestamp (word rolledFormat1 3) (word rolledFormat1 4)
          (word rolledFormat1 7) (word rolledFormat1 5) (word rolledFormat1 10) = 4294967312
      ∧ ∃ h ∈ eventHits r.2,
          (h.timestamp_.time_native_ : Int)
            ≠ claimedTimestamp (word rolledFormat1 3) (word rolledFormat1 4)
                (word rolledFormat1 7) (word rolledFormat1 8) (word rolledFormat1 10)
          ∧ (h.timestamp_.time_native_ : Int)
            ≠ claimedTimestamp (word rolledFormat1 3) (word rolledFormat1 4)
                (word rolledFormat1 7) (word rolledFormat1 5) (word rolledFormat1 10) :=
  ⟨_, rfl, by decide, by decide, by decide, by decide⟩
/-! ## Unrouted channels -/

theorem sourceChannel_nonneg (ctx : ParseContext) (buf_module i : Nat)
    (h : 0 ≤ sourceChannel ctx buf_module i) :
    ∃ v, topologyEntry ctx buf_module i = some v ∧ 0 ≤ v
      ∧ sourceChannel ctx buf_module i = toInt16 v := by
  unfold sourceChannel at h ⊢
  unfold topologyEntry
  cases hrow : ctx.channel_indices[buf_module]? with
  | none => rw [hrow] at h; simp at h
  | some row =>
    rw [hrow] at h
    simp only at h ⊢
    cases hv : row[i]? with
    | none => rw [hv] at h; simp at h
    | some v =>
      rw [hv] at h
      by_cases hnn : 0 ≤ v
      · exact ⟨v, by simp [hv], hnn, by simp [hnn]⟩
      · simp [hnn] at h

theorem toInt16_of_small (v : Int) (h0 : 0 ≤ v) (h1 : v < 32768) : toInt16 v = v := by
  unfold toInt16; omega

theorem parseEvent_header (ctx : ParseContext) (buff16 : List Nat) (hdr : RecordHeader)
    (cur : Cursor) :
    (parseEvent ctx buff16 hdr cur).1.buf_module = hdr.buf_module
    ∧ (parseEvent ctx buff16 hdr cur).1.pattern = word buff16 cur.idx
    ∧ (parseEvent ctx buff16 hdr cur).1.record_start = hdr.start := ⟨rfl, rfl, rfl⟩

theorem parseEvent_sources (ctx : ParseContext) (buff16 : List Nat) (hdr : RecordHeader)
    (cur : Cursor) :
    ∀ h ∈ (parseEvent ctx buff16 hdr cur).1.hits,
      0 ≤ h.source_channel_
      ∧ ∃ i, i < ctx.NUMBER_OF_CHANNELS
          ∧ (parseEvent ctx buff16 hdr cur).1.pattern.testBit i = true
          ∧ ∃ v, topologyEntry ctx (parseEvent ctx buff16 hdr cur).1.buf_module i = some v
              ∧ 0 ≤ v ∧ h.source_channel_ = toInt16 v := by
  unfold parseEvent
  simp only
  apply foldl_invariant (channelStep ctx buff16 hdr _)
    (fun st => ∀ h ∈ st.1, 0 ≤ h.source_channel_
      ∧ ∃ i, i < ctx.NUMBER_OF_CHANNELS ∧ (rd buff16 cur).1.testBit i = true
          ∧ ∃ v, topologyEntry ctx hdr.buf_module i = some v
              ∧ 0 ≤ v ∧ h.source_channel_ = toInt16 v)
  · intro s a ha hs h hh
    rcases channelStep_hits ctx buff16 hdr
      { pattern := (rd buff16 cur).1, evt_time_hi := (rd buff16 (rd buff16 cur).2).1,
        evt_time_lo := (rd buff16 (rd buff16 (rd buff16 cur).2).2).1 } s a
      with hsame | ⟨hbit, hnn, hins⟩
    · rw [hsame] at hh; exact hs h hh
    · rw [hins] at hh
      rcases (mem_multiset_insert _ _ _).mp hh with hnew | hold
      · have hsrc : h.source_channel_ = sourceChannel ctx hdr.buf_module a := by
          rw [hnew]; exact parseChannel_source _ _ _ _ _ _
        obtain ⟨v, hv, hv0, hveq⟩ := sourceChannel_nonneg ctx hdr.buf_module a hnn
        refine ⟨by rw [hsrc]; exact hnn, a, List.mem_range.mp ha, hbit, v, hv, hv0, ?_⟩
        rw [hsrc]; exact hveq
      · exact hs h hold
  · intro h hh
    exact absurd hh (List.not_mem_nil _)

theorem sourceChannel_unrouted (ctx : ParseContext) (buf_module i : Nat)
    (h : topologyEntry ctx buf_module i = none
      ∨ ∃ v, topologyEntry ctx buf_module i = some v ∧ v < 0) :
    sourceChannel ctx buf_module i = -1 := by
  unfold topologyEntry at h
  unfold sourceChannel
  cases hrow : ctx.channel_indices[buf_module]? with
  | none => rfl
  | some row =>
    rw [hrow] at h
    simp only [Option.some_bind] at h ⊢
    cases hv : row[i]? with
    | none => rfl
    | some v =>
      rw [hv] at h
      rcases h with h | ⟨w, hw, hneg⟩
      · exact Option.noConfusion h
      · have hvw : v = w := Option.some.inj hw
        subst hvw
        have : ¬ 0 ≤ v := by omega
        simp [this]

/-- C5 as amended: for every raw buffer and every channel topology the decoding returns,
and every hit of every decoded event (the hits appended to the spill) has
`source_channel >= 0`, and that value is the entry `channel_indices[module][i]` converted
to `int16_t`, hence the entry itself when it is below 32768, for the record's module and a
channel bit `i` set in the event pattern, the entry being in range and non-negative; and a
pass of the channel loop for a channel that is out of the topology's range or mapped to a
negative id leaves the hits of the event as they are. -/
theorem retained_hits_are_routed (ctx : ParseContext) (buff16 : List Nat) :
    (∃ r, decodeBuffer ctx buff16 = some r
      ∧ ∀ ev ∈ r.2, ∀ h ∈ ev.hits,
          0 ≤ h.source_channel_
          ∧ ∃ i, i < ctx.NUMBER_OF_CHANNELS ∧ ev.pattern.testBit i = true
              ∧ ∃ v, topologyEntry ctx ev.buf_module i = some v ∧ 0 ≤ v
                  ∧ h.source_channel_ = toInt16 v
                  ∧ (v < 32768 → h.source_channel_ = v))
    ∧ (∀ (hdr : RecordHeader) (ev : EventHeader) (st : List Hit × Cursor) (i : Nat),
        (topologyEntry ctx hdr.buf_module i = none
          ∨ ∃ v, topologyEntry ctx hdr.buf_module i = some v ∧ v < 0) →
        (channelStep ctx buff16 hdr ev st i).1 = st.1) := by
  constructor
  · obtain ⟨r, hr, hP⟩ := decodeBuffer_spec ctx buff16
      (fun ev => ∀ h ∈ ev.hits, 0 ≤ h.source_channel_
        ∧ ∃ i, i < ctx.NUMBER_OF_CHANNELS ∧ ev.pattern.testBit i = true
            ∧ ∃ v, topologyEntry ctx ev.buf_module i = some v ∧ 0 ≤ v
                ∧ h.source_channel_ = toInt16 v)
      (fun hdr cur => parseEvent_sources ctx buff16 hdr cur)
    refine ⟨r, hr, ?_⟩
    intro ev hev h hh
    obtain ⟨h0, i, hi, hbit, v, hv, hv0, hveq⟩ := hP ev hev h hh
    exact ⟨h0, i, hi, hbit, v, hv, hv0, hveq,
      fun hsmall => by rw [hveq]; exact toInt16_of_small v hv0 hsmall⟩
  · intro hdr ev st i hun
    have hsrc := sourceChannel_unrouted ctx hdr.buf_module i hun
    unfold channelStep
    split
    · simp [hsrc]
    · rfl

/-- The amended C5 on a topology that binds channel 0 and leaves channel 1 unrouted: a
pass of the channel loop for channel 1 leaves the hits of the event as they are, for an
event whose pattern bit 1 is clear and for the event of `twoChannelEvent`, whose pattern
bit 1 is set: the two words of channel 1 are read (the index goes from 11 to 13) and the
hit is not retained. -/
theorem retained_hits_are_routed_witness :
    (topologyEntry wideTopology rolledHeader3.buf_module 1 = none
      ∨ ∃ v, topologyEntry wideTopology rolledHeader3.buf_module 1 = some v ∧ v < 0)
    ∧ (channelStep wideTopology rolledFormat3 rolledHeader3 rolledEvent
        ([], { idx := 9, reads := [] }) 1).1 = []
    ∧ twoChannelWords.pattern.testBit 1 = true
    ∧ (channelStep wideTopology twoChannelEvent twoChannelHeader twoChannelWords
        ([], { idx := 11, reads := [] }) 1).2.idx = 13
    ∧ (channelStep wideTopology twoChannelEvent twoChannelHeader twoChannelWords
        ([], { idx := 11, reads := [] }) 1).1 = [] :=
  ⟨Or.inr ⟨-1, by decide, by decide⟩,
   (retained_hits_are_routed wideTopology rolledFormat3).2 rolledHeader3 rolledEvent
     ([], { idx := 9, reads := [] }) 1 (Or.inr ⟨-1, by decide, by decide⟩),
   by decide, by decide,
   (retained_hits_are_routed wideTopology twoChannelEvent).2 twoChannelHeader twoChannelWords
     ([], { idx := 11, reads := [] }) 1 (Or.inr ⟨-1, by decide, by decide⟩)⟩

/-- C5 as stated fails for a topology entry that does not fit `int16_t`: with channel 0 of
module 0 bound to 65541, the hit of the record `oneEventFormat3` is retained with
`source_channel = 5`, which is no entry of the topology. -/
theorem source_claim_fails_wide_topology :
    ∃ r, decodeBuffer wideTopology oneEventFormat3 = some r
      ∧ ¬ (∀ ev ∈ r.2, ∀ h ∈ ev.hits, SourceMatchesTopology wideTopology ev h) :=
  ⟨_, rfl, by decide⟩

/-! ## Ordering of the hits -/

/-- C6 as amended: for every raw buffer the decoding returns, and the hits retained from
one event (one pattern word with its channels) are in ascending (non-decreasing) timestamp
order; `worker_parse_spill` appends them to the spill event by event. -/
theorem event_hits_ascending (ctx : ParseContext) (buff16 : List Nat) :
    ∃ r, decodeBuffer ctx buff16 = some r ∧ ∀ ev ∈ r.2, TimeOrdered ev.hits :=
  decodeBuffer_spec ctx buff16 (fun ev => TimeOrdered ev.hits)
    (fun hdr cur => parseEvent_timeOrdered ctx buff16 hdr cur)

/-- The amended C6 on an event whose channels 0 and 1 come in bit-scan order with the
later trigger time first: the hit of channel 1 is appended before the hit of channel 0. -/
theorem event_hits_ascending_witness :
    (∃ r, decodeBuffer oneModule twoChannelEvent = some r ∧ ∀ ev ∈ r.2, TimeOrdered ev.hits)
    ∧ (decodeBuffer oneModule twoChannelEvent).map
        (fun r => (eventHits r.2).map (fun h => (h.source_channel_, h.timestamp_.time_native_)))
      = some [(1, 327780), (0, 327880)] :=
  ⟨event_hits_ascending oneModule twoChannelEvent, by decide⟩

/-- C6 as stated fails: the buffer `twoEventsDescending` is one record (starting at index
0) with two events on channel 0, the second earlier than the first; both hits are
retained, and the hits of that record are not in ascending timestamp order in the hit
list. -/
theorem record_hits_not_ascending :
    ∃ r, decodeBuffer oneModule twoEventsDescending = some r
      ∧ (∀ ev ∈ r.2, ev.record_start = 0)
      ∧ (hitsOfRecord r.2 0).map (fun h => h.timestamp_.time_native_) = [327780, 262194]
      ∧ ¬ TimeOrdered (hitsOfRecord r.2 0) :=
  ⟨_, rfl, by decide, by decide, by decide⟩
/-! ## Failure policy -/

theorem reaches_recordLoop (ctx : ParseContext) (buff16 : List Nat) (cur : Cursor)
    (events : List DecodedEvent) (h : Reaches ctx buff16 cur events) :
    ∃ fuel, decodeBuffer ctx buff16 = recordLoop ctx buff16 (fuel + 1) cur events := by
  induction h with
  | start => exact ⟨ctx.list_mem_len16 + 1, rfl⟩
  | next hreach hpass ih =>
    rename_i c c1 e e1
    obtain ⟨fuel, hfuel⟩ := ih
    have hstep : recordLoop ctx buff16 (fuel + 1) c e = recordLoop ctx buff16 fuel c1 e1 := by
      rw [recordLoop, hpass]
    cases fuel with
    | zero =>
      obtain ⟨r, hr, _⟩ := decodeBuffer_spec ctx buff16 (fun _ => True) (fun _ _ => trivial)
      rw [hfuel, hstep, recordLoop] at hr
      exact Option.noConfusion hr
    | succ fuel1 => exact ⟨fuel1, by rw [hfuel, hstep]⟩

/-- C7: when the decoding of a spill's buffer stands at a record (after any number of
decoded records, with the events `events` decoded so far) whose word-count field is zero,
is greater than `max_buf_len`, or places the record end past `list_mem_len16`, the
decoding stops right after that word-count field and the forwarded spill holds its hits
followed by exactly the hits of the earlier records, unchanged; and every spill is
forwarded, with its raw buffer cleared and its earlier hits and statistics kept. -/
theorem malformed_record_stops_decoding (ctx : ParseContext) :
    (∀ (spill : Spill) (cur : Cursor) (events : List DecodedEvent),
        spill.data ≠ [] →
        Reaches ctx spill.data cur events →
        (word spill.data cur.idx = 0
          ∨ word spill.data cur.idx > ctx.max_buf_len
          ∨ cur.idx + 1 + word spill.data cur.idx - 1 > ctx.list_mem_len16) →
        decodeBuffer ctx spill.data
            = some ({ idx := cur.idx + 1, reads := cur.idx :: cur.reads }, events)
        ∧ worker_parse_spill ctx spill
            = some { spill with hits := spill.hits ++ eventHits events, data := [] })
    ∧ (∀ spill : Spill, ∃ out, worker_parse_spill ctx spill = some out
        ∧ out.data = [] ∧ out.stats = spill.stats
        ∧ ∃ more, out.hits = spill.hits ++ more) := by
  constructor
  · intro spill cur events hdata hreach hlength
    have hbad : badLength ctx (word spill.data cur.idx)
        (cur.idx + 1 + word spill.data cur.idx - 1) = true := by
      unfold badLength
      simp only [Bool.or_eq_true, decide_eq_true_eq]
      rcases hlength with h | h | h
      · exact Or.inl (Or.inl h)
      · exact Or.inl (Or.inr h)
      · exact Or.inr h
    obtain ⟨fuel, hfuel⟩ := reaches_recordLoop ctx spill.data cur events hreach
    have hdec : decodeBuffer ctx spill.data
        = some ({ idx := cur.idx + 1, reads := cur.idx :: cur.reads }, events) := by
      rw [hfuel, recordLoop]
      have hpass : recordPass ctx spill.data cur events
          = some (false, { idx := cur.idx + 1, reads := cur.idx :: cur.reads }, events) := by
        unfold recordPass
        simp only [rd_idx, rd_val, hbad, if_true]
        rfl
      rw [hpass]
    refine ⟨hdec, ?_⟩
    unfold worker_parse_spill
    have hlen : spill.data.length > 0 := List.length_pos.mpr hdata
    simp only [hlen, if_true, hdec]
  · intro spill
    unfold worker_parse_spill
    by_cases hlen : spill.data.length > 0
    · obtain ⟨r, hr, _⟩ := decodeBuffer_spec ctx spill.data (fun _ => True) (fun _ _ => trivial)
      simp only [hlen, if_true, hr]
      exact ⟨_, rfl, rfl, rfl, _, rfl⟩
    · simp only [hlen, if_false]
      exact ⟨_, rfl, rfl, rfl, [], by simp⟩
/-- The failure policy of C7 on a spill whose buffer holds one good record followed by a
word count of zero: the decoding stops at index 11 and the spill is forwarded with the
one hit of the first record. -/
theorem malformed_record_stops_decoding_witness :
    goodThenMalformed.data ≠ []
    ∧ Reaches oneModule goodThenMalformed.data afterFirstRecord.1 afterFirstRecord.2
    ∧ (word goodThenMalformed.data afterFirstRecord.1.idx = 0
        ∨ word goodThenMalformed.data afterFirstRecord.1.idx > oneModule.max_buf_len
        ∨ afterFirstRecord.1.idx + 1 + word goodThenMalformed.data afterFirstRecord.1.idx - 1
            > oneModule.list_mem_len16)
    ∧ (decodeBuffer oneModule goodThenMalformed.data
          = some ({ idx := afterFirstRecord.1.idx + 1,
                    reads := afterFirstRecord.1.idx :: afterFirstRecord.1.reads },
                  afterFirstRecord.2)
        ∧ worker_parse_spill oneModule goodThenMalformed
          = some { goodThenMalformed with
                   hits := goodThenMalformed.hits ++ eventHits afterFirstRecord.2,
                   data := [] }) :=
  have h1 : goodThenMalformed.data ≠ [] := by decide
  have h2 : Reaches oneModule goodThenMalformed.data afterFirstRecord.1 afterFirstRecord.2 :=
    Reaches.next Reaches.start (by decide)
  have h3 : word goodThenMalformed.data afterFirstRecord.1.idx = 0
      ∨ word goodThenMalformed.data afterFirstRecord.1.idx > oneModule.max_buf_len
      ∨ afterFirstRecord.1.idx + 1 + word goodThenMalformed.data afterFirstRecord.1.idx - 1
          > oneModule.list_mem_len16 := Or.inl (by decide)
  ⟨h1, h2, h3,
    (malformed_record_stops_decoding oneModule).1 goodThenMalformed afterFirstRecord.1
      afterFirstRecord.2 h1 h2 h3⟩

/-! ## Reads of the decoder -/

/-- C8, the code at a failing input: the first record of `truncatedThenNext` declares 7
words, so `buf_end = 7`, and passes the length test. The event loop starts an event at
index 6, below `buf_end`, and then reads the event time words at 7 and 8 and the channel's
trigger time and energy at 9 and 10, all at or past `buf_end`: they are header words of
the next record, and the hit built from them is retained. When the record lies at the end
of the list-mode memory (`truncatedRecord` in a memory of 7 words) the same reads leave
the memory. -/
theorem event_reads_pass_record_end :
    badLength oneModule (word truncatedThenNext 0) (0 + 1 + word truncatedThenNext 0 - 1) = false
    ∧ (recordPass oneModule truncatedThenNext { idx := 0, reads := [] } []).map
        (fun r => (r.1, r.2.1.reads,
          r.2.2.map (fun e => e.hits.map (fun h => h.timestamp_.time_native_))))
      = some (true, [10, 9, 8, 7, 6, 4, 3, 2, 1, 0], [[655619]])
    ∧ truncatedRecord.length = 7
    ∧ badLength shortMemory (word truncatedRecord 0) (0 + 1 + word truncatedRecord 0 - 1) = false
    ∧ (recordPass shortMemory truncatedRecord { idx := 0, reads := [] } []).map
        (fun r => (r.1, r.2.1.reads, r.2.2.map (fun e => e.hits.length)))
      = some (true, [10, 9, 8, 7, 6, 4, 3, 2, 1, 0], [1]) := by
  refine ⟨?_, ?_, ?_, ?_, ?_⟩ <;> decide

/-! ## Overflow correction across two records -/

/-- C9, the code at a failing input: for the two records of `rolloverPairFormat1`
(sub-format 1), whose second event has rolled over relative to its header, the two hits of
channel 0 get the timestamps 4294967280 and then 16, which decreases; the same two events
in sub-format 3 get 4294967280 and then 4294967312. -/
theorem rollover_pair_decreases_format1 :
    (decodeBuffer oneModule rolloverPairFormat1).map
        (fun r => (eventHits r.2).map (fun h => (h.source_channel_, h.timestamp_.time_native_)))
      = some [(0, 4294967280), (0, 16)]
    ∧ (decodeBuffer oneModule rolloverPairFormat3).map
        (fun r => (eventHits r.2).map (fun h => (h.source_channel_, h.timestamp_.time_native_)))
      = some [(0, 4294967280), (0, 4294967312)] := by
  constructor <;> decide
/-! ## Failure of `Spectrum2D::initialize` -/

/-- C11: when `Spectrum2D::initialize` returns false (the add pattern does not select
exactly two channels), the method has changed nothing after the call of the base class;
so, the base-class call leaving them alone, the histogram's dimensions, type,
axis-to-channel pattern and buffered flag are the same as before the call. -/
theorem initialize2D_failure_changes_nothing (base : Spectrum2D → Spectrum2D) (s : Spectrum2D)
    (hfalse : (initialize2D base s).1 = false) :
    (base s).pattern_add_gates.count true ≠ 2
    ∧ (initialize2D base s).2 = base s
    ∧ ((base s).dimensions = s.dimensions → (base s).type = s.type →
        (base s).pattern_ = s.pattern_ → (base s).buffered_ = s.buffered_ →
        (initialize2D base s).2.dimensions = s.dimensions
        ∧ (initialize2D base s).2.type = s.type
        ∧ (initialize2D base s).2.pattern_ = s.pattern_
        ∧ (initialize2D base s).2.buffered_ = s.buffered_) := by
  have hcount : countAdds (base s).pattern_add_gates ≠ 2 := by
    intro h2
    unfold initialize2D at hfalse
    simp [h2] at hfalse
  have hstate : (initialize2D base s).2 = base s := by
    unfold initialize2D
    simp [hcount]
  refine ⟨?_, hstate, ?_⟩
  · rw [← setGates_length, ← countAdds_eq]; exact hcount
  · intro h1 h2 h3 h4
    rw [hstate]
    exact ⟨h1, h2, h3, h4⟩

/-- The failure case of C11 on an add pattern with one gate set: `initialize` returns
false and dimensions, type, pattern and buffered flag are as before. -/
theorem initialize2D_failure_changes_nothing_witness :
    (initialize2D id oneGate).1 = false
    ∧ (initialize2D id oneGate).2.dimensions = oneGate.dimensions
    ∧ (initialize2D id oneGate).2.type = oneGate.type
    ∧ (initialize2D id oneGate).2.pattern_ = oneGate.pattern_
    ∧ (initialize2D id oneGate).2.buffered_ = oneGate.buffered_ :=
  ⟨by decide,
   (initialize2D_failure_changes_nothing id oneGate (by decide)).2.2 rfl rfl rfl rfl⟩

/-! ## Symmetry check -/

theorem symmetryLoop_iff (m : SpectrumMap) (rest : SpectrumMap) :
    symmetryLoop m rest = true ↔ ∀ q ∈ rest, mapAt m (q.1.2, q.1.1) = some q.2 := by
  induction rest with
  | nil => simp [symmetryLoop]
  | cons q rest ih =>
    unfold symmetryLoop
    by_cases hq : mapAt m (q.1.2, q.1.1) = some q.2
    · have hc : mapCount m (q.1.2, q.1.1) = true := by
        rw [mapCount_eq_isSome, hq]; rfl
      simp only [hc, hq, Bool.not_true, ne_eq, not_true_eq_false, decide_False, Bool.or_self,
        Bool.false_eq_true, if_false, ih, List.mem_cons, forall_eq_or_imp, true_and]
    · have hd : decide (mapAt m (q.1.2, q.1.1) ≠ some q.2) = true := by simpa using hq
      simp only [hd, Bool.or_true, if_true, Bool.false_eq_true, List.mem_cons,
        forall_eq_or_imp, hq, false_and]

/-- C14: `check_symmetrization` returns true exactly when for every entry of the storage,
at a populated coordinate `(i,j)` with count `c`, the swapped coordinate `(j,i)` is
populated with the same count `c`, so it returns true for an empty histogram; and the
attribute `symmetrized` holds 1 exactly when it returned true and 0 exactly when it
returned false. -/
theorem check_symmetrization_correct (s : Spectrum2D) :
    ((check_symmetrization s).1 = true
      ↔ ∀ q ∈ s.spectrum_, mapAt s.spectrum_ (q.1.2, q.1.1) = some q.2)
    ∧ (s.spectrum_ = [] → (check_symmetrization s).1 = true)
    ∧ ((check_symmetrization s).2.attr_symmetrized = 1 ↔ (check_symmetrization s).1 = true)
    ∧ ((check_symmetrization s).2.attr_symmetrized = 0 ↔ (check_symmetrization s).1 = false) := by
  have hiff : (check_symmetrization s).1 = true
      ↔ ∀ q ∈ s.spectrum_, mapAt s.spectrum_ (q.1.2, q.1.1) = some q.2 :=
    symmetryLoop_iff s.spectrum_ s.spectrum_
  refine ⟨hiff, ?_, ?_, ?_⟩
  · intro hempty
    rw [hiff, hempty]
    intro q hq
    exact absurd hq (List.not_mem_nil _)
  · show (if symmetryLoop s.spectrum_ s.spectrum_ = true then (1 : Int) else 0) = 1
      ↔ symmetryLoop s.spectrum_ s.spectrum_ = true
    cases symmetryLoop s.spectrum_ s.spectrum_ <;> simp
  · show (if symmetryLoop s.spectrum_ s.spectrum_ = true then (1 : Int) else 0) = 0
      ↔ symmetryLoop s.spectrum_ s.spectrum_ = false
    cases symmetryLoop s.spectrum_ s.spectrum_ <;> simp

/-- The symmetry check of C14 on the empty histogram and on a mirrored pair of cells. -/
theorem check_symmetrization_correct_witness :
    scenario8.spectrum_ = [] ∧ (check_symmetrization scenario8).1 = true
    ∧ (check_symmetrization mirroredPair).1 = true
    ∧ (check_symmetrization scenarioHistogram).1 = false :=
  ⟨rfl, (check_symmetrization_correct scenario8).2.1 rfl, by decide, by decide⟩

/-- C15: `check_symmetrization` leaves the storage unchanged, and running it twice on a
histogram not modified in between returns the same Boolean both times (and records the
same attribute value). -/
theorem check_symmetrization_idempotent (s : Spectrum2D) :
    (check_symmetrization s).2.spectrum_ = s.spectrum_
    ∧ (check_symmetrization (check_symmetrization s).2).1 = (check_symmetrization s).1
    ∧ (check_symmetrization (check_symmetrization s).2).2 = (check_symmetrization s).2 :=
  ⟨rfl, rfl, rfl⟩
/-! ## Range query -/

theorem toInt32_of_small (x : Nat) (h : x < 2147483648) : toInt32 x = (x : Int) := by
  unfold toInt32; omega

theorem scanRange_eq_rangeEntries (m : SpectrumMap) (min0 max0 min1 max1 : Nat) :
    scanRange m (min0 : Int) (max0 : Int) (min1 : Int) (max1 : Int)
      = rangeEntries m min0 max0 min1 max1 := by
  unfold scanRange rangeEntries
  congr 1
  apply List.filter_congr
  intro e _
  simp only [Nat.cast_le, Nat.cast_lt]

theorem rangeEntries_ascending (m : SpectrumMap) (min0 max0 min1 max1 : Nat)
    (h : KeysAscending m) : EntriesAscending (rangeEntries m min0 max0 min1 max1) := by
  unfold EntriesAscending rangeEntries
  rw [List.pairwise_map]
  exact List.Pairwise.filter _ h

/-- C12 as amended: for a non-buffered 2D histogram, every storage and every two ranges
`(min0,max0)`, `(min1,max1)` with bounds below `2^31`, `_get_spectrum` returns exactly the
stored entries `(c0,c1,count)` with `min0 <= c0 < max0` and `min1 <= c1 < max1`, each
once, with its stored count and in storage order, which is ascending coordinate order; an
entry outside either half-open range is not returned. -/
theorem get_spectrum_range (s : Spectrum2D) (hbuf : s.buffered_ = false)
    (min0 max0 min1 max1 : Nat)
    (h0 : min0 < 2147483648) (h1 : max0 < 2147483648)
    (h2 : min1 < 2147483648) (h3 : max1 < 2147483648) :
    (_get_spectrum s [(min0, max0), (min1, max1)]).1
        = (s.spectrum_.filter (fun e =>
              decide (min0 ≤ e.1.1) && decide (e.1.1 < max0)
                && decide (min1 ≤ e.1.2) && decide (e.1.2 < max1))).map
            (fun e => ([e.1.1, e.1.2], e.2))
    ∧ (∀ c0 c1 count, ([c0, c1], count) ∈ (_get_spectrum s [(min0, max0), (min1, max1)]).1
        ↔ (((c0, c1), count) ∈ s.spectrum_
            ∧ min0 ≤ c0 ∧ c0 < max0 ∧ min1 ≤ c1 ∧ c1 < max1))
    ∧ (KeysAscending s.spectrum_ →
        EntriesAscending (_get_spectrum s [(min0, max0), (min1, max1)]).1) := by
  have hres : (_get_spectrum s [(min0, max0), (min1, max1)]).1
      = rangeEntries s.spectrum_ min0 max0 min1 max1 := by
    unfold _get_spectrum
    simp only [hbuf, Bool.false_and, List.length_cons, List.length_nil, ne_eq,
      not_true_eq_false, if_false, List.getD_cons_zero, List.getD_cons_succ,
      Bool.false_eq_true]
    rw [toInt32_of_small _ h0, toInt32_of_small _ h1, toInt32_of_small _ h2,
      toInt32_of_small _ h3]
    exact scanRange_eq_rangeEntries _ _ _ _ _
  refine ⟨hres, ?_, ?_⟩
  · intro c0 c1 count
    rw [hres]
    unfold rangeEntries
    simp only [List.mem_map, List.mem_filter, Bool.and_eq_true, decide_eq_true_eq,
      Prod.mk.injEq, List.cons.injEq, and_true]
    constructor
    · rintro ⟨e, ⟨hmem, hrange⟩, ⟨hc0, hc1⟩, hc⟩
      obtain ⟨⟨a, b⟩, c⟩ := e
      simp only at hc0 hc1 hc hrange
      subst hc0; subst hc1; subst hc
      exact ⟨hmem, hrange.1.1.1, hrange.1.1.2, hrange.1.2, hrange.2⟩
    · rintro ⟨hmem, ha, hb, hc, hd⟩
      exact ⟨((c0, c1), count), ⟨hmem, ⟨⟨⟨ha, hb⟩, hc⟩, hd⟩⟩, ⟨rfl, rfl⟩, rfl⟩
  · intro hasc
    rw [hres]
    exact rangeEntries_ascending _ _ _ _ _ hasc

/-- The range query of C12 on the histogram of the concrete scenario: the ranges
`[0,11)` and `[0,256)` return both cells, the ranges `[1,11)` and `[0,256)` only
`(10,20)`. -/
theorem get_spectrum_range_witness :
    scenarioHistogram.buffered_ = false
    ∧ (_get_spectrum scenarioHistogram [(0, 11), (0, 256)]).1 = [([0, 255], 1), ([10, 20], 3)]
    ∧ (_get_spectrum scenarioHistogram [(1, 11), (0, 256)]).1 = [([10, 20], 3)] :=
  ⟨rfl,
   ((get_spectrum_range scenarioHistogram rfl 0 11 0 256 (by decide) (by decide) (by decide)
      (by decide)).1).trans (by decide),
   ((get_spectrum_range scenarioHistogram rfl 1 11 0 256 (by decide) (by decide) (by decide)
      (by decide)).1).trans (by decide)⟩

/-- C12 as stated fails for a bound of `2^31` or more: the ranges are pairs of `uint32_t`
and the bounds are `int`. For the histogram of the concrete scenario and the ranges
`(0, 4294967295)` on both axes, both cells lie in the ranges, and `_get_spectrum` returns
the empty list, the upper bounds having become -1. -/
theorem get_spectrum_range_fails_wide_bound :
    rangeEntries scenarioHistogram.spectrum_ 0 4294967295 0 4294967295
        = [([0, 255], 1), ([10, 20], 3)]
    ∧ (_get_spectrum scenarioHistogram [(0, 4294967295), (0, 4294967295)]).1 = []
    ∧ (_get_spectrum scenarioHistogram [(0, 4294967295), (0, 4294967295)]).1
        ≠ rangeEntries scenarioHistogram.spectrum_ 0 4294967295 0 4294967295 := by
  refine ⟨?_, ?_, ?_⟩ <;> decide

/-! ## Buffered mode -/

/-- C13 as amended: a `_get_spectrum` call leaves the delta map empty and the main storage
as it was, so with buffering enabled the second of two consecutive calls with no
accumulation in between returns the same list as a non-buffered histogram with the same
storage, which for two ranges with bounds below `2^31` is exactly the stored entries
inside the ranges; with buffering disabled the two calls return the identical result. -/
theorem get_spectrum_twice (s : Spectrum2D) (list : List (Nat × Nat)) :
    (_get_spectrum s list).2.temp_spectrum_ = []
    ∧ (_get_spectrum s list).2.spectrum_ = s.spectrum_
    ∧ (_get_spectrum (_get_spectrum s list).2 list).1
        = (_get_spectrum { s with buffered_ := false } list).1
    ∧ (∀ min0 max0 min1 max1 : Nat, list = [(min0, max0), (min1, max1)] →
        min0 < 2147483648 → max0 < 2147483648 → min1 < 2147483648 → max1 < 2147483648 →
        (_get_spectrum (_get_spectrum s list).2 list).1
          = rangeEntries s.spectrum_ min0 max0 min1 max1)
    ∧ (s.buffered_ = false →
        (_get_spectrum (_get_spectrum s list).2 list).1 = (_get_spectrum s list).1) := by
  have htemp : (_get_spectrum s list).2.temp_spectrum_ = [] := by
    unfold _get_spectrum
    cases ht : s.temp_spectrum_ with
    | nil => simp [ht]
    | cons e rest => simp
  have hspec : (_get_spectrum s list).2.spectrum_ = s.spectrum_ := by
    unfold _get_spectrum
    cases ht : s.temp_spectrum_ <;> simp
  have hbits : (_get_spectrum s list).2.bits = s.bits := by
    unfold _get_spectrum
    cases ht : s.temp_spectrum_ <;> simp
  have hsecond : (_get_spectrum (_get_spectrum s list).2 list).1
      = (_get_spectrum { s with buffered_ := false } list).1 := by
    generalize hr : (_get_spectrum s list).2 = r at htemp hspec hbits
    unfold _get_spectrum
    simp [htemp, hspec, hbits]
  refine ⟨htemp, hspec, hsecond, ?_, ?_⟩
  · intro min0 max0 min1 max1 hlist h0 h1 h2 h3
    rw [hsecond, hlist]
    unfold _get_spectrum
    simp only [Bool.false_and, List.length_cons, List.length_nil, ne_eq,
      not_true_eq_false, if_false, List.getD_cons_zero, List.getD_cons_succ,
      Bool.false_eq_true]
    rw [toInt32_of_small _ h0, toInt32_of_small _ h1, toInt32_of_small _ h2,
      toInt32_of_small _ h3]
    exact scanRange_eq_rangeEntries _ _ _ _ _
  · intro hbuf
    rw [hsecond]
    have : { s with buffered_ := false } = s := by
      cases s; simp only at hbuf; simp [hbuf]
    rw [this]

/-- The amended C13 on the buffered 8-bit histogram after the single event `(10,20)`: the
second of two consecutive calls with the ranges `[0,256)` returns the stored cell; and on
the histogram of the concrete scenario, not buffered, two consecutive calls return the
same two cells. -/
theorem get_spectrum_twice_witness :
    bufferedAfterOneEvent.buffered_ = true
    ∧ (_get_spectrum (_get_spectrum bufferedAfterOneEvent [(0, 256), (0, 256)]).2
        [(0, 256), (0, 256)]).1 = [([10, 20], 1)]
    ∧ scenarioHistogram.buffered_ = false
    ∧ (_get_spectrum (_get_spectrum scenarioHistogram [(0, 256), (0, 256)]).2
        [(0, 256), (0, 256)]).1
      = (_get_spectrum scenarioHistogram [(0, 256), (0, 256)]).1 :=
  ⟨rfl,
   ((get_spectrum_twice bufferedAfterOneEvent [(0, 256), (0, 256)]).2.2.2.1 0 256 0 256 rfl
      (by decide) (by decide) (by decide) (by decide)).trans (by decide),
   rfl, (get_spectrum_twice scenarioHistogram [(0, 256), (0, 256)]).2.2.2.2 rfl⟩

/-- C13 as stated fails: for a buffered histogram after the single event `(10,20)` the
first `_get_spectrum` call returns the touched cell from the delta map and clears it, and
the second call, with no accumulation in between, returns the cell again from the main
storage, not an empty list. -/
theorem buffered_second_call_not_empty :
    bufferedAfterOneEvent.buffered_ = true
    ∧ (_get_spectrum bufferedAfterOneEvent [(0, 256), (0, 256)]).1 = [([10, 20], 1)]
    ∧ (_get_spectrum (_get_spectrum bufferedAfterOneEvent [(0, 256), (0, 256)]).2
        [(0, 256), (0, 256)]).1 = [([10, 20], 1)]
    ∧ (_get_spectrum (_get_spectrum bufferedAfterOneEvent [(0, 256), (0, 256)]).2
        [(0, 256), (0, 256)]).1 ≠ [] := by
  refine ⟨?_, ?_, ?_, ?_⟩ <;> decide
/-! ## Ordering and equality of hits -/

theorem hit_eq_iff (a b : Hit) : a.eq b = true ↔ a = b := by
  unfold Hit.eq TimeStamp.ne
  constructor
  · intro h
    split at h
    · exact Bool.noConfusion h
    · rename_i h1
      split at h
      · exact Bool.noConfusion h
      · rename_i h2
        split at h
        · exact Bool.noConfusion h
        · rename_i h3
          split at h
          · exact Bool.noConfusion h
          · rename_i h4
            cases a; cases b
            simp only [ne_eq, Decidable.not_not, decide_not, Bool.not_eq_true',
              decide_eq_false_iff_not] at h1 h2 h3 h4
            simp only [Hit.mk.injEq]
            exact ⟨h1, h2, h3, h4⟩
  · intro h
    subst h
    simp

/-- C20 as amended: for all hits `a` and `b`, `a < b` holds exactly when `a`'s timestamp
is less than `b`'s and `a > b` exactly when it is greater, independently of channel,
values and trace; at most one of `a < b`, `a == b`, `a > b` holds, and one of them holds
exactly when the timestamps differ in their tick count or the two hits are equal in
channel, timestamp, values and trace. -/
theorem hit_order_by_timestamp (a b : Hit) :
    (a.lt b = true ↔ a.timestamp_.time_native_ < b.timestamp_.time_native_)
    ∧ (a.gt b = true ↔ a.timestamp_.time_native_ > b.timestamp_.time_native_)
    ∧ (∀ a1 b1 : Hit, a1.timestamp_ = a.timestamp_ → b1.timestamp_ = b.timestamp_ →
        a1.lt b1 = a.lt b ∧ a1.gt b1 = a.gt b)
    ∧ ¬ (a.lt b = true ∧ a.eq b = true)
    ∧ ¬ (a.lt b = true ∧ a.gt b = true)
    ∧ ¬ (a.eq b = true ∧ a.gt b = true)
    ∧ ((a.lt b = true ∨ a.eq b = true ∨ a.gt b = true)
        ↔ (a.timestamp_.time_native_ ≠ b.timestamp_.time_native_ ∨ a = b)) := by
  have hlt : a.lt b = true ↔ a.timestamp_.time_native_ < b.timestamp_.time_native_ := by
    simp [Hit.lt, TimeStamp.lt]
  have hgt : a.gt b = true ↔ a.timestamp_.time_native_ > b.timestamp_.time_native_ := by
    simp [Hit.gt, TimeStamp.gt]
  have heq := hit_eq_iff a b
  refine ⟨hlt, hgt, ?_, ?_, ?_, ?_, ?_⟩
  · intro a1 b1 ha hb
    simp [Hit.lt, Hit.gt, ha, hb]
  · rintro ⟨h1, h2⟩
    rw [hlt] at h1; rw [heq] at h2; subst h2; omega
  · rintro ⟨h1, h2⟩
    rw [hlt] at h1; rw [hgt] at h2; omega
  · rintro ⟨h1, h2⟩
    rw [heq] at h1; rw [hgt] at h2; subst h1; omega
  · rw [hlt, hgt, heq]
    constructor
    · rintro (h | h | h)
      · left; omega
      · right; exact h
      · left; omega
    · rintro (h | h)
      · rcases Nat.lt_or_gt_of_ne h with h1 | h1
        · left; exact h1
        · right; right; exact h1
      · right; left; exact h

/-- The amended C20 on two hits with the tick counts 100 and 200. -/
theorem hit_order_by_timestamp_witness :
    ((sameTimeHit 0).timestamp_.time_native_
        ≠ ((sameTimeHit 1).set_timestamp_native 200).timestamp_.time_native_
      ∨ sameTimeHit 0 = (sameTimeHit 1).set_timestamp_native 200)
    ∧ ((sameTimeHit 0).lt ((sameTimeHit 1).set_timestamp_native 200) = true
        ∨ (sameTimeHit 0).eq ((sameTimeHit 1).set_timestamp_native 200) = true
        ∨ (sameTimeHit 0).gt ((sameTimeHit 1).set_timestamp_native 200) = true) :=
  ⟨Or.inl (by decide),
   (hit_order_by_timestamp (sameTimeHit 0) ((sameTimeHit 1).set_timestamp_native 200)).2.2.2.2.2.2.mpr
     (Or.inl (by decide))⟩

/-- C20 as stated fails: two hits with the same timestamp on different channels satisfy
none of `a < b`, `a == b`, `a > b`. -/
theorem hit_trichotomy_fails :
    (sameTimeHit 0).timestamp_ = (sameTimeHit 1).timestamp_
    ∧ (sameTimeHit 0).lt (sameTimeHit 1) = false
    ∧ (sameTimeHit 0).eq (sameTimeHit 1) = false
    ∧ (sameTimeHit 0).gt (sameTimeHit 1) = false := by
  refine ⟨?_, ?_, ?_, ?_⟩ <;> decide
/-! ## File formats -/

/-- C19: `_write_file` returns true exactly when the format is one of "m", "mat", "m4b",
and when it returns false no codec has run (no file is written; the method is `const`);
`_read_file` returns false for every format other than "m4b" and "mat", and then the
histogram, storage and metadata, is unchanged and no codec has run. -/
theorem file_format_dispatch (ext : ExternalCalls) (one0 : Nat) (s : Spectrum2D) :
    (∀ dir format : String, (_write_file s dir format).1 = true
        ↔ (format = "m" ∨ format = "mat" ∨ format = "m4b"))
    ∧ (∀ dir format : String, (_write_file s dir format).1 = false →
        (_write_file s dir format).2 = none)
    ∧ (∀ (name format : String) (file : List Nat), format ≠ "m4b" → format ≠ "mat" →
        _read_file ext one0 s name format file = (some false, s)) := by
  refine ⟨?_, ?_, ?_⟩
  · intro dir format
    unfold _write_file
    by_cases h1 : format = "m"
    · simp [h1]
    · by_cases h2 : format = "mat"
      · simp [h2]
      · by_cases h3 : format = "m4b"
        · simp [h3]
        · simp [h1, h2, h3]
  · intro dir format
    unfold _write_file
    by_cases h1 : format = "m"
    · simp [h1]
    · by_cases h2 : format = "mat"
      · simp [h2]
      · by_cases h3 : format = "m4b"
        · simp [h3]
        · simp [h1, h2, h3]
  · intro name format file h1 h2
    unfold _read_file
    simp [h1, h2]

/-- The dispatch of C19 on the unknown format "spe": `_write_file` returns false and
writes nothing, `_read_file` returns false and leaves the histogram as it is. -/
theorem file_format_dispatch_witness :
    (_write_file scenarioHistogram "out" "spe").1 = false
    ∧ (_write_file scenarioHistogram "out" "spe").2 = none
    ∧ "spe" ≠ "m4b" ∧ "spe" ≠ "mat"
    ∧ _read_file ⟨id, id, id⟩ 0 scenarioHistogram "out/a.spe" "spe" [] = (some false, scenarioHistogram) :=
  have hfalse : (_write_file scenarioHistogram "out" "spe").1 = false := by
    have h := (file_format_dispatch ⟨id, id, id⟩ 0 scenarioHistogram).1 "out" "spe"
    cases hb : (_write_file scenarioHistogram "out" "spe").1 with
    | false => rfl
    | true =>
      rcases h.mp hb with h1 | h1 | h1 <;> exact absurd h1 (by decide)
  ⟨hfalse,
   (file_format_dispatch ⟨id, id, id⟩ 0 scenarioHistogram).2.1 "out" "spe" hfalse,
   by decide, by decide,
   (file_format_dispatch ⟨id, id, id⟩ 0 scenarioHistogram).2.2 "out/a.spe" "spe" []
     (by decide) (by decide)⟩

/-! ## The dense grid -/

theorem grid_eq_range_map {α : Type} (m : Nat) (hm : 0 < m) (f : Nat → Nat → α) (n : Nat) :
    (List.range n).flatMap (fun i => (List.range m).map (fun j => f i j))
      = (List.range (n * m)).map (fun pos => f (pos / m) (pos % m)) := by
  induction n with
  | zero => simp
  | succ n ih =>
    rw [List.range_succ, List.flatMap_append, ih, Nat.succ_mul, List.range_add,
      List.map_append, List.flatMap_singleton, List.map_map]
    congr 1
    apply List.map_congr_left
    intro j hj
    rw [List.mem_range] at hj
    show f n j = f ((n * m + j) / m) ((n * m + j) % m)
    have h1 : (n * m + j) / m = n := by
      rw [Nat.mul_comm n m, Nat.mul_add_div hm, Nat.div_eq_of_lt hj, Nat.add_zero]
    have h2 : (n * m + j) % m = j := by
      rw [Nat.mul_comm n m, Nat.mul_add_mod, Nat.mod_eq_of_lt hj]
    rw [h1, h2]

theorem gridPoints_eq :
    gridPoints = (List.range 16777216).map (fun pos => (pos / 4096, pos % 4096)) :=
  grid_eq_range_map 4096 (by omega) (fun i j => (i, j)) 4096

theorem gridPoints_length : gridPoints.length = 16777216 := by
  rw [gridPoints_eq, List.length_map, List.length_range]

theorem gridPoints_getElem? (i j : Nat) (hi : i < 4096) (hj : j < 4096) :
    gridPoints[i * 4096 + j]? = some (i, j) := by
  rw [gridPoints_eq, List.getElem?_map, List.getElem?_range (by omega)]
  simp only [Option.map_some']
  congr 1
  apply Prod.ext
  · show (i * 4096 + j) / 4096 = i
    omega
  · show (i * 4096 + j) % 4096 = j
    omega

theorem gridPoints_ascending : gridPoints.Pairwise (fun p q => pointLt p q = true) := by
  rw [gridPoints_eq, List.pairwise_map]
  apply List.Pairwise.imp _ (List.pairwise_lt_range 16777216)
  intro a b hab
  rw [pointLt_iff]
  show a / 4096 < b / 4096 ∨ (a / 4096 = b / 4096 ∧ a % 4096 < b % 4096)
  omega

theorem mem_gridPoints (p : Point) : p ∈ gridPoints ↔ p.1 < 4096 ∧ p.2 < 4096 := by
  rw [gridPoints_eq, List.mem_map]
  constructor
  · rintro ⟨pos, hpos, rfl⟩
    rw [List.mem_range] at hpos
    constructor
    · show pos / 4096 < 4096
      omega
    · show pos % 4096 < 4096
      omega
  · rintro ⟨h1, h2⟩
    refine ⟨p.1 * 4096 + p.2, List.mem_range.mpr (by omega), ?_⟩
    apply Prod.ext
    · show (p.1 * 4096 + p.2) / 4096 = p.1
      omega
    · show (p.1 * 4096 + p.2) % 4096 = p.2
      omega

theorem cellAt_eq (width : Nat) (m : SpectrumMap) (p : Point) :
    cellAt width m p = match mapAt m p with
      | some c => c % 2 ^ width
      | none => 0 := by
  unfold cellAt castCell
  rw [mapCount_eq_isSome]
  cases mapAt m p <;> simp

/-- C16: for every 2D histogram, `write_m4b` emits exactly `4096*4096` four-byte unsigned
cells in row-major order, where the cell at position `i*4096+j` holds the count stored at
coordinate `(i,j)` as a 32-bit unsigned value (the count itself when it is below `2^32`)
and 0 when `(i,j)` is not populated, whatever the sparsity or the bit resolution. -/
theorem write_m4b_layout (s : Spectrum2D) :
    (write_m4b s).length = 4096 * 4096
    ∧ (∀ i j : Nat, i < 4096 → j < 4096 →
        (write_m4b s)[i * 4096 + j]?
          = some (match mapAt s.spectrum_ (i, j) with
                  | some c => c % 2 ^ 32
                  | none => 0))
    ∧ (∀ i j c : Nat, i < 4096 → j < 4096 → mapAt s.spectrum_ (i, j) = some c →
        c < 2 ^ 32 → (write_m4b s)[i * 4096 + j]? = some c) := by
  have hcell : ∀ i j : Nat, i < 4096 → j < 4096 →
      (write_m4b s)[i * 4096 + j]?
        = some (match mapAt s.spectrum_ (i, j) with
                | some c => c % 2 ^ 32
                | none => 0) := by
    intro i j hi hj
    unfold write_m4b
    rw [List.getElem?_map, gridPoints_getElem? i j hi hj, Option.map_some', cellAt_eq]
  refine ⟨?_, hcell, ?_⟩
  · unfold write_m4b
    rw [List.length_map, gridPoints_length]
  · intro i j c hi hj hc hsmall
    rw [hcell i j hi hj, hc]
    simp only
    rw [Nat.mod_eq_of_lt hsmall]

/-- The layout of C16 on the histogram of the concrete scenario: the cell at position
`10*4096+20` holds 3. -/
theorem write_m4b_layout_witness :
    10 < 4096 ∧ 20 < 4096 ∧ mapAt scenarioHistogram.spectrum_ (10, 20) = some 3 ∧ 3 < 2 ^ 32
    ∧ (write_m4b scenarioHistogram)[10 * 4096 + 20]? = some 3 :=
  ⟨by decide, by decide, by decide, by decide,
   (write_m4b_layout scenarioHistogram).2.2 10 20 3 (by decide) (by decide) (by decide)
     (by decide)⟩
theorem filter_range_eq_of_sorted (N : Nat) (L : List Nat) (p : Nat → Bool)
    (hs : L.Sorted (fun a b => a < b)) (hmem : ∀ x, x ∈ L ↔ (x < N ∧ p x = true)) :
    (List.range N).filter p = L := by
  apply List.eq_of_perm_of_sorted (r := fun a b => a < b)
  · apply (List.perm_ext_iff_of_nodup ((List.nodup_range N).filter p) hs.nodup).mpr
    intro a
    rw [List.mem_filter, List.mem_range, hmem]
  · exact List.Pairwise.filter _ (List.pairwise_lt_range N)
  · exact hs

theorem scenarioHistogram_spectrum :
    scenarioHistogram.spectrum_ = [((0, 255), 1), ((10, 20), 3)] := by decide

theorem write_mat_scenario_cells :
    write_mat scenarioHistogram
      = (List.range 16777216).map
          (fun pos => if pos = 255 then 1 else if pos = 40980 then 3 else 0) := by
  unfold write_mat
  rw [gridPoints_eq, List.map_map]
  apply List.map_congr_left
  intro pos hpos
  rw [List.mem_range] at hpos
  show cellAt 16 scenarioHistogram.spectrum_ (pos / 4096, pos % 4096) = _
  rw [cellAt_eq, scenarioHistogram_spectrum]
  by_cases h1 : pos = 255
  · subst h1; decide
  · by_cases h2 : pos = 40980
    · subst h2; decide
    · have hne1 : ¬ ((0, 255) : Point) = (pos / 4096, pos % 4096) := by
        intro h
        have ha := congrArg Prod.fst h
        have hb := congrArg Prod.snd h
        simp only at ha hb
        omega
      have hne2 : ¬ ((10, 20) : Point) = (pos / 4096, pos % 4096) := by
        intro h
        have ha := congrArg Prod.fst h
        have hb := congrArg Prod.snd h
        simp only at ha hb
        omega
      simp only [mapAt, hne1, hne2, if_false, h1, h2]

/-- C17 as amended: for the 2-axis histogram at 8-bit resolution holding count 3 at
`(10,20)` and count 1 at `(0,255)`, the dense mat export written by `write_mat` consists
of `4096*4096 = 16777216` cells, exactly two of which are non-zero: the cell at position
`0*4096+255` with the value 1 and the cell at position `10*4096+20` with the value 3. -/
theorem write_mat_scenario :
    scenarioHistogram.bits = 8
    ∧ (write_mat scenarioHistogram).length = 16777216
    ∧ (write_mat scenarioHistogram).filter (fun c => decide (c ≠ 0)) = [1, 3]
    ∧ (write_mat scenarioHistogram)[0 * 4096 + 255]? = some 1
    ∧ (write_mat scenarioHistogram)[10 * 4096 + 20]? = some 3 := by
  refine ⟨rfl, ?_, ?_, ?_, ?_⟩
  · rw [write_mat_scenario_cells, List.length_map, List.length_range]
  · rw [write_mat_scenario_cells, List.filter_map]
    have hfilter : (List.range 16777216).filter
        ((fun c => decide (c ≠ 0)) ∘ (fun pos => if pos = 255 then 1 else if pos = 40980 then 3 else 0))
        = [255, 40980] := by
      apply filter_range_eq_of_sorted
      · simp [List.Sorted]
      · intro x
        simp only [List.mem_cons, List.mem_singleton, List.not_mem_nil, or_false,
          Function.comp, ne_eq, decide_not, Bool.not_eq_true', decide_eq_false_iff_not]
        constructor
        · rintro (h | h) <;> subst h <;> decide
        · rintro ⟨_, h⟩
          by_cases h1 : x = 255
          · left; exact h1
          · by_cases h2 : x = 40980
            · right; exact h2
            · simp [h1, h2] at h
    rw [hfilter]
    decide
  · rw [write_mat_scenario_cells, List.getElem?_map, List.getElem?_range (by decide)]
    decide
  · rw [write_mat_scenario_cells, List.getElem?_map, List.getElem?_range (by decide)]
    decide

/-- C17 as stated fails: the mat export of the concrete scenario has 16777216 cells, not
65536; `write_mat` runs over the fixed grid of `4096*4096` cells whatever the bit
resolution. -/
theorem write_mat_scenario_not_65536_cells :
    (write_mat scenarioHistogram).length ≠ 65536 := by
  unfold write_mat
  rw [List.length_map, gridPoints_length]
  decide
/-! ## The dense import -/

theorem mapAt_eq_some_iff_mem (m : SpectrumMap) (hasc : KeysAscending m) (p : Point)
    (c : PreciseFloat) : mapAt m p = some c ↔ (p, c) ∈ m := by
  induction m with
  | nil => simp [mapAt]
  | cons e rest ih =>
    obtain ⟨k, c0⟩ := e
    unfold KeysAscending at hasc ih
    rw [List.pairwise_cons] at hasc
    by_cases hk : k = p
    · subst hk
      simp only [mapAt, if_true, Option.some.injEq, List.mem_cons, Prod.mk.injEq, true_and]
      constructor
      · intro h; left; exact h.symm
      · rintro (h | h)
        · exact h.symm
        · have hlt := hasc.1 (k, c) h
          rw [pointLt_irrefl] at hlt
          exact Bool.noConfusion hlt
    · simp only [mapAt, hk, if_false, List.mem_cons, Prod.mk.injEq]
      rw [ih hasc.2]
      constructor
      · intro h; right; exact h
      · rintro (⟨h, _⟩ | h)
        · exact absurd h.symm hk
        · exact h

theorem spectrumMap_ext (m1 : SpectrumMap) : ∀ (m2 : SpectrumMap),
    KeysAscending m1 → KeysAscending m2 → (∀ p, mapAt m1 p = mapAt m2 p) → m1 = m2 := by
  induction m1 with
  | nil =>
    intro m2 _ _ h
    cases m2 with
    | nil => rfl
    | cons e r =>
      have := h e.1
      simp [mapAt] at this
  | cons e1 r1 ih =>
    obtain ⟨k1, c1⟩ := e1
    intro m2 h1 h2 h
    cases m2 with
    | nil =>
      have := h k1
      simp [mapAt] at this
    | cons e2 r2 =>
      obtain ⟨k2, c2⟩ := e2
      have hm1 : (k2, c2) ∈ (k1, c1) :: r1 := by
        rw [← mapAt_eq_some_iff_mem _ h1, h k2]; simp [mapAt]
      have hm2 : (k1, c1) ∈ (k2, c2) :: r2 := by
        rw [← mapAt_eq_some_iff_mem _ h2, ← h k1]; simp [mapAt]
      have h1p := h1
      have h2p := h2
      unfold KeysAscending at h1p h2p
      rw [List.pairwise_cons] at h1p h2p
      have hk : k1 = k2 := by
        rcases List.mem_cons.mp hm1 with ha | ha
        · exact (congrArg Prod.fst ha).symm
        · rcases List.mem_cons.mp hm2 with hb | hb
          · exact congrArg Prod.fst hb
          · have hlt1 := h1p.1 (k2, c2) ha
            have hlt2 := h2p.1 (k1, c1) hb
            have := pointLt_trans hlt1 hlt2
            rw [pointLt_irrefl] at this
            exact Bool.noConfusion this
      subst hk
      have hc : c1 = c2 := by
        have := h k1
        simpa [mapAt] using this
      subst hc
      have htail : r1 = r2 := by
        apply ih r2 h1p.2 h2p.2
        intro p
        by_cases hp : k1 = p
        · subst hp
          rw [mapAt_eq_none_of_lt r1 k1 (fun e he => h1p.1 e he),
            mapAt_eq_none_of_lt r2 k1 (fun e he => h2p.1 e he)]
        · have := h p
          simpa [mapAt, hp] using this
      rw [htail]

theorem readCells_spec (width : Nat) : ∀ (pts : List Point) (cells : List Nat)
    (one : Nat) (total : PreciseFloat) (acc : SpectrumMap),
    cells.length = pts.length → (∀ c ∈ cells, c < 2 ^ width) →
    pts.Pairwise (fun p q => pointLt p q = true) →
    (∀ e ∈ acc, ∀ p ∈ pts, pointLt e.1 p = true) →
    (pts.foldl (readCell width)
        { file := cells, one := one, total_count := total, spectrum_ := acc }).spectrum_
      = acc ++ (pts.zip cells).filter (fun e => decide (e.2 ≠ 0))
    ∧ (pts.foldl (readCell width)
        { file := cells, one := one, total_count := total, spectrum_ := acc }).total_count
      = total + cells.sum := by
  intro pts
  induction pts with
  | nil =>
    intro cells one total acc hlen _ _ _
    have : cells = [] := List.length_eq_zero.mp hlen
    subst this
    simp
  | cons p ps ih =>
    intro cells one total acc hlen hcells hasc hacc
    cases cells with
    | nil => simp at hlen
    | cons c cs =>
      have hc : c % 2 ^ width = c :=
        Nat.mod_eq_of_lt (hcells c (List.mem_cons_self _ _))
      rw [List.pairwise_cons] at hasc
      have hstep : readCell width
          { file := c :: cs, one := one, total_count := total, spectrum_ := acc } p
          = { file := cs, one := c, total_count := total + c,
              spectrum_ := if c > 0 then acc ++ [(p, c)] else acc } := by
        unfold readCell
        simp only [hc, List.tail_cons]
        by_cases hpos : c > 0
        · simp only [hpos, if_true]
          rw [mapModify_append _ _ _ (fun e he => hacc e he p (List.mem_cons_self _ _))]
        · simp only [hpos, if_false]
      rw [List.foldl_cons, hstep]
      obtain ⟨h1, h2⟩ := ih cs c (total + c) (if c > 0 then acc ++ [(p, c)] else acc)
        (by simpa using hlen)
        (fun x hx => hcells x (List.mem_cons_of_mem _ hx))
        hasc.2
        (by
          intro e he q hq
          by_cases hpos : c > 0
          · simp only [hpos, if_true, List.mem_append, List.mem_singleton] at he
            rcases he with he | he
            · exact hacc e he q (List.mem_cons_of_mem _ hq)
            · rw [he]; exact hasc.1 q hq
          · simp only [hpos, if_false] at he
            exact hacc e he q (List.mem_cons_of_mem _ hq))
      refine ⟨?_, ?_⟩
      · rw [h1, List.zip_cons_cons, List.filter_cons]
        by_cases hpos : c > 0
        · have hne : decide (c ≠ 0) = true := by simpa using (by omega : c ≠ 0)
          simp only [hpos, if_true, hne, List.append_assoc, List.singleton_append]
        · have hne : decide (c ≠ 0) = false := by simpa using (by omega : c = 0)
          simp only [hpos, if_false, hne, Bool.false_eq_true]
      · rw [h2, List.sum_cons, Nat.add_assoc]

theorem readGrid_spec (width one0 : Nat) (cells : List Nat)
    (hlen : cells.length = 4096 * 4096) (hcells : ∀ c ∈ cells, c < 2 ^ width) :
    (readGrid width one0 cells).spectrum_
      = (gridPoints.zip cells).filter (fun e => decide (e.2 ≠ 0))
    ∧ (readGrid width one0 cells).total_count = cells.sum := by
  obtain ⟨h1, h2⟩ := readCells_spec width gridPoints cells one0 0 []
    (by rw [hlen, gridPoints_length]) hcells gridPoints_ascending
    (fun e he => absurd he (List.not_mem_nil _))
  unfold readGrid
  exact ⟨by simpa using h1, by simpa using h2⟩

/-! ## Frame and postcondition of `read_m4b` and `read_mat` -/

theorem gridPoints_getElem?_eq_some (pos : Nat) (p : Point) :
    gridPoints[pos]? = some p ↔ pos < 16777216 ∧ p = (pos / 4096, pos % 4096) := by
  rw [gridPoints_eq, List.getElem?_map]
  by_cases hpos : pos < 16777216
  · rw [List.getElem?_range hpos]
    simp only [Option.map_some', Option.some.injEq, hpos, true_and]
    exact eq_comm
  · rw [List.getElem?_eq_none (by rw [List.length_range]; omega)]
    simp [hpos]

theorem grid_zip_ascending (cells : List Nat) (hlen : cells.length = 4096 * 4096) :
    KeysAscending ((gridPoints.zip cells).filter (fun e => decide (e.2 ≠ 0))) := by
  unfold KeysAscending
  apply List.Pairwise.filter
  have h := gridPoints_ascending
  rw [← List.map_fst_zip gridPoints cells (by rw [hlen, gridPoints_length]),
    List.pairwise_map] at h
  exact h

theorem mem_grid_zip (cells : List Nat) (hlen : cells.length = 4096 * 4096) (i j c : Nat)
    (hi : i < 4096) (hj : j < 4096) :
    ((i, j), c) ∈ gridPoints.zip cells ↔ cells.getD (i * 4096 + j) 0 = c := by
  have hlt : i * 4096 + j < cells.length := by rw [hlen]; omega
  have hget : cells[i * 4096 + j]? = some (cells.getD (i * 4096 + j) 0) := by
    rw [List.getD_eq_getElem?_getD, List.getElem?_eq_getElem hlt]; rfl
  rw [List.mem_iff_getElem?]
  constructor
  · rintro ⟨pos, hpos⟩
    rw [List.getElem?_zip_eq_some] at hpos
    obtain ⟨h1, h2⟩ := hpos
    simp only at h1 h2
    rw [gridPoints_getElem?_eq_some] at h1
    obtain ⟨hp, heq⟩ := h1
    have ha := congrArg Prod.fst heq
    have hb := congrArg Prod.snd heq
    simp only at ha hb
    have hposeq : pos = i * 4096 + j := by omega
    subst hposeq
    rw [hget] at h2
    exact Option.some.inj h2
  · intro hc
    refine ⟨i * 4096 + j, ?_⟩
    rw [List.getElem?_zip_eq_some]
    refine ⟨gridPoints_getElem? i j hi hj, ?_⟩
    simp only
    rw [hget, hc]

theorem initialize2D_keepsData (base : Spectrum2D → Spectrum2D) (hbase : KeepsData base)
    (t : Spectrum2D) :
    (initialize2D base t).2.spectrum_ = t.spectrum_
    ∧ (initialize2D base t).2.total_count = t.total_count
    ∧ (initialize2D base t).2.bits = t.bits
    ∧ (initialize2D base t).2.max_chan = t.max_chan := by
  by_cases h : countAdds (base t).pattern_add_gates = 2
  · have hr : (initialize2D base t).2
        = { base t with dimensions := 2,
                        pattern_ := (fillPattern (base t).pattern_add_gates
                          (resize2 (base t).pattern_)).1,
                        buffered_ := decide ((base t).attr_buffered ≠ 0),
                        type := (base t).my_type } := by
      unfold initialize2D
      simp only [h, ne_eq, not_true_eq_false, if_false]
    rw [hr]
    exact hbase t
  · have hr : (initialize2D base t).2 = base t := by
      unfold initialize2D
      simp only [h, ne_eq, not_false_eq_true, if_true]
    rw [hr]
    exact hbase t

theorem init_from_file_data (ext : ExternalCalls)
    (hbase : KeepsData ext.base_initialize) (hrecalc : KeepsData ext.recalc_energies)
    (t : Spectrum2D) (filename : String) :
    (init_from_file ext t filename).spectrum_ = t.spectrum_
    ∧ (init_from_file ext t filename).total_count = t.total_count
    ∧ (init_from_file ext t filename).bits = t.bits
    ∧ (init_from_file ext t filename).max_chan = t.max_chan := by
  unfold init_from_file
  obtain ⟨r1, r2, r3, r4⟩ := hrecalc (initialize2D ext.base_initialize
    { t with pattern_coinc_gates := [true, true], pattern_anti_gates := [false, false],
             pattern_add_gates := [true, true],
             name := (ext.path_filename filename).map (fun c => if c = '.' then '_' else c) }).2
  obtain ⟨i1, i2, i3, i4⟩ := initialize2D_keepsData ext.base_initialize hbase
    { t with pattern_coinc_gates := [true, true], pattern_anti_gates := [false, false],
             pattern_add_gates := [true, true],
             name := (ext.path_filename filename).map (fun c => if c = '.' then '_' else c) }
  exact ⟨r1.trans i1, r2.trans i2, r3.trans i3, r4.trans i4⟩

theorem nameDetectors_data (t : Spectrum2D) :
    (nameDetectors t).spectrum_ = t.spectrum_
    ∧ (nameDetectors t).total_count = t.total_count
    ∧ (nameDetectors t).bits = t.bits
    ∧ (nameDetectors t).max_chan = t.max_chan :=
  ⟨rfl, rfl, rfl, rfl⟩

theorem loadGrid_data (ext : ExternalCalls)
    (hbase : KeepsData ext.base_initialize) (hrecalc : KeepsData ext.recalc_energies)
    (s : Spectrum2D) (name : String) (g : GridReader) :
    (init_from_file ext (nameDetectors (loadGrid s g)) name).spectrum_ = g.spectrum_
    ∧ (init_from_file ext (nameDetectors (loadGrid s g)) name).total_count = g.total_count
    ∧ (init_from_file ext (nameDetectors (loadGrid s g)) name).bits = 12
    ∧ (init_from_file ext (nameDetectors (loadGrid s g)) name).max_chan = 4095 := by
  obtain ⟨h1, h2, h3, h4⟩ := init_from_file_data ext hbase hrecalc
    (nameDetectors (loadGrid s g)) name
  obtain ⟨n1, n2, n3, n4⟩ := nameDetectors_data (loadGrid s g)
  have l1 : (loadGrid s g).spectrum_ = g.spectrum_ := rfl
  have l2 : (loadGrid s g).total_count = g.total_count := rfl
  have l3 : (loadGrid s g).bits = 12 := rfl
  have l4 : (loadGrid s g).max_chan = 4095 := rfl
  refine ⟨?_, ?_, ?_, ?_⟩
  · rw [h1, n1, l1]
  · rw [h2, n2, l2]
  · rw [h3, n3, l3]
  · rw [h4, n4, l4]

theorem readDense_data (width : Nat) (ext : ExternalCalls)
    (hbase : KeepsData ext.base_initialize) (hrecalc : KeepsData ext.recalc_energies)
    (one0 : Nat) (s : Spectrum2D) (name : String) (file : List Nat) :
    (readDense width ext one0 s name file).spectrum_ = (readGrid width one0 file).spectrum_
    ∧ (readDense width ext one0 s name file).total_count
        = (readGrid width one0 file).total_count
    ∧ (readDense width ext one0 s name file).bits = 12
    ∧ (readDense width ext one0 s name file).max_chan = 4095 :=
  loadGrid_data ext hbase hrecalc s name (readGrid width one0 file)

theorem readDense_postcondition (width : Nat) (ext : ExternalCalls)
    (hbase : KeepsData ext.base_initialize) (hrecalc : KeepsData ext.recalc_energies)
    (one0 : Nat) (s : Spectrum2D) (name : String) (cells : List Nat)
    (hlen : cells.length = 4096 * 4096) (hcells : ∀ c ∈ cells, c < 2 ^ width) :
    DensePostcondition cells (readDense width ext one0 s name cells) := by
  obtain ⟨d1, d2, d3, d4⟩ := readDense_data width ext hbase hrecalc one0 s name cells
  obtain ⟨g1, g2⟩ := readGrid_spec width one0 cells hlen hcells
  have hasc := grid_zip_ascending cells hlen
  unfold DensePostcondition
  rw [d1, d2, d3, d4, g1, g2]
  refine ⟨hasc, ?_, ?_, rfl, rfl, rfl⟩
  · intro i j hi hj
    have hiff : ∀ c, mapAt ((gridPoints.zip cells).filter (fun e => decide (e.2 ≠ 0))) (i, j)
        = some c ↔ (c ≠ 0 ∧ cells.getD (i * 4096 + j) 0 = c) := by
      intro c
      rw [mapAt_eq_some_iff_mem _ hasc, List.mem_filter, mem_grid_zip cells hlen i j c hi hj]
      simp only [ne_eq, decide_not, Bool.not_eq_true', decide_eq_false_iff_not]
      exact and_comm
    cases hm : mapAt ((gridPoints.zip cells).filter (fun e => decide (e.2 ≠ 0))) (i, j) with
    | none =>
      by_cases hz : cells.getD (i * 4096 + j) 0 ≠ 0
      · have := (hiff (cells.getD (i * 4096 + j) 0)).mpr ⟨hz, rfl⟩
        rw [hm] at this
        exact Option.noConfusion this
      · simp only [hz, if_false]
    | some c =>
      obtain ⟨hc0, hceq⟩ := (hiff c).mp hm
      rw [hceq]
      simp only [hc0, ne_eq, not_false_eq_true, if_true]
  · intro p hp
    cases hm : mapAt ((gridPoints.zip cells).filter (fun e => decide (e.2 ≠ 0))) p with
    | none => rfl
    | some c =>
      rw [mapAt_eq_some_iff_mem _ hasc, List.mem_filter] at hm
      have hg := (List.of_mem_zip hm.1).1
      rw [mem_gridPoints] at hg
      omega

theorem write_m4b_getD (s0 : Spectrum2D) (i j : Nat) (hi : i < 4096) (hj : j < 4096) :
    (write_m4b s0).getD (i * 4096 + j) 0
      = match mapAt s0.spectrum_ (i, j) with
        | some c => c % 2 ^ 32
        | none => 0 := by
  unfold write_m4b
  rw [List.getD_eq_getElem?_getD, List.getElem?_map, gridPoints_getElem? i j hi hj,
    Option.map_some', cellAt_eq]
  rfl

/-- C18: for every `4096*4096` grid of cells, `read_m4b` (and `read_mat` for 2-byte cells)
discards the previous storage and leaves a storage holding exactly the coordinates `(i,j)`
whose cell `i*4096+j` is non-zero, each with that cell's value, a total count equal to the
sum of all cells, a resolution of 12 bits and `max_chan` 4095; hence reading the output of
`write_m4b` for a histogram with coordinates below 4096 and counts in `1..2^32-1` restores
its storage. The two methods called that are not among the sources leave storage, total
count, resolution and `max_chan` alone. -/
theorem dense_import_postcondition (ext : ExternalCalls)
    (hbase : KeepsData ext.base_initialize) (hrecalc : KeepsData ext.recalc_energies)
    (one0 : Nat) (s : Spectrum2D) (name : String) :
    (∀ cells : List Nat, cells.length = 4096 * 4096 → (∀ c ∈ cells, c < 2 ^ 32) →
        DensePostcondition cells (read_m4b ext one0 s name cells))
    ∧ (∀ cells : List Nat, cells.length = 4096 * 4096 → (∀ c ∈ cells, c < 2 ^ 16) →
        DensePostcondition cells (read_mat ext one0 s name cells))
    ∧ (∀ s0 : Spectrum2D, KeysAscending s0.spectrum_ →
        (∀ e ∈ s0.spectrum_, e.1.1 < 4096 ∧ e.1.2 < 4096 ∧ 1 ≤ e.2 ∧ e.2 < 2 ^ 32) →
        (read_m4b ext one0 s name (write_m4b s0)).spectrum_ = s0.spectrum_) := by
  refine ⟨?_, ?_, ?_⟩
  · intro cells hlen hcells
    exact readDense_postcondition 32 ext hbase hrecalc one0 s name cells hlen hcells
  · intro cells hlen hcells
    exact readDense_postcondition 16 ext hbase hrecalc one0 s name cells hlen hcells
  · intro s0 hasc hbound
    have hlen : (write_m4b s0).length = 4096 * 4096 := by
      unfold write_m4b
      rw [List.length_map, gridPoints_length]
    have hcells : ∀ c ∈ write_m4b s0, c < 2 ^ 32 := by
      intro c hc
      unfold write_m4b at hc
      rw [List.mem_map] at hc
      obtain ⟨p, _, hp⟩ := hc
      rw [← hp, cellAt_eq]
      cases mapAt s0.spectrum_ p with
      | none => simp
      | some v => exact Nat.mod_lt _ (by norm_num)
    obtain ⟨hasc1, hin, hout, _⟩ :=
      readDense_postcondition 32 ext hbase hrecalc one0 s name (write_m4b s0) hlen hcells
    apply spectrumMap_ext _ _ hasc1 hasc
    intro p
    obtain ⟨i, j⟩ := p
    by_cases hgrid : i < 4096 ∧ j < 4096
    · have h1 := hin i j hgrid.1 hgrid.2
      show mapAt (readDense 32 ext one0 s name (write_m4b s0)).spectrum_ (i, j) = _
      rw [h1, write_m4b_getD s0 i j hgrid.1 hgrid.2]
      cases hm : mapAt s0.spectrum_ (i, j) with
      | none => simp
      | some c =>
        have hmem := (mapAt_eq_some_iff_mem _ hasc (i, j) c).mp hm
        obtain ⟨_, _, hc1, hc2⟩ := hbound ((i, j), c) hmem
        have hc1a : 1 ≤ c := hc1
        have hc2a : c < 2 ^ 32 := hc2
        simp only [Nat.mod_eq_of_lt hc2a]
        have hne : c ≠ 0 := Nat.one_le_iff_ne_zero.mp hc1a
        simp [hne]
    · have h1 := hout (i, j) (by show 4096 ≤ i ∨ 4096 ≤ j; omega)
      show mapAt (readDense 32 ext one0 s name (write_m4b s0)).spectrum_ (i, j) = _
      rw [h1]
      cases hm : mapAt s0.spectrum_ (i, j) with
      | none => rfl
      | some c =>
        have hmem := (mapAt_eq_some_iff_mem _ hasc (i, j) c).mp hm
        obtain ⟨hc1, hc2, _, _⟩ := hbound ((i, j), c) hmem
        exact absurd ⟨hc1, hc2⟩ hgrid

theorem keepsData_id : KeepsData id := fun _ => ⟨rfl, rfl, rfl, rfl⟩

/-- The round trip of C18 on the histogram of the concrete scenario: reading the m4b
export of the scenario into any histogram gives the two cells of the scenario. -/
theorem dense_import_postcondition_witness :
    KeepsData (id : Spectrum2D → Spectrum2D)
    ∧ KeysAscending scenarioHistogram.spectrum_
    ∧ (∀ e ∈ scenarioHistogram.spectrum_,
        e.1.1 < 4096 ∧ e.1.2 < 4096 ∧ 1 ≤ e.2 ∧ e.2 < 2 ^ 32)
    ∧ (read_m4b ⟨id, id, id⟩ 0 mirroredPair "a.m4b" (write_m4b scenarioHistogram)).spectrum_
        = scenarioHistogram.spectrum_ :=
  have h1 : KeysAscending scenarioHistogram.spectrum_ := by
    unfold KeysAscending; decide
  have h2 : ∀ e ∈ scenarioHistogram.spectrum_,
      e.1.1 < 4096 ∧ e.1.2 < 4096 ∧ 1 ≤ e.2 ∧ e.2 < 2 ^ 32 := by decide
  ⟨keepsData_id, h1, h2,
   (dense_import_postcondition ⟨id, id, id⟩ keepsData_id keepsData_id 0 mirroredPair
      "a.m4b").2.2 scenarioHistogram h1 h2⟩

/-! ## Equality of hits -/

/-- C21: for all hits `a` and `b`, `a == b` holds exactly when their source channel,
timestamp, value arrays and traces are all equal, and `a != b` is its negation. -/
theorem hit_equality (a b : Hit) :
    (a.eq b = true ↔ (a.source_channel_ = b.source_channel_ ∧ a.timestamp_ = b.timestamp_
        ∧ a.values_ = b.values_ ∧ a.trace_ = b.trace_))
    ∧ (a.ne b = true ↔ ¬ (a.eq b = true)) := by
  constructor
  · rw [hit_eq_iff]
    constructor
    · intro h
      subst h
      exact ⟨rfl, rfl, rfl, rfl⟩
    · rintro ⟨h1, h2, h3, h4⟩
      cases a
      cases b
      simp only at h1 h2 h3 h4
      subst h1 h2 h3 h4
      rfl
  · unfold Hit.ne
    cases a.eq b <;> simp

/-! ## Spills after decoding -/

theorem worker_parse_spill_spec (ctx : ParseContext) (spill : Spill) :
    ∃ r, worker_parse_spill ctx spill = some r ∧ r.data = [] ∧ r.stats = spill.stats := by
  unfold worker_parse_spill
  by_cases hd : spill.data.length > 0
  · obtain ⟨r, hr, _⟩ := decodeBuffer_spec ctx spill.data (fun _ => True) (fun _ _ => trivial)
    simp only [hd, if_true, hr]
    exact ⟨_, rfl, rfl, rfl⟩
  · simp only [hd, if_false]
    exact ⟨_, rfl, rfl, rfl⟩

theorem worker_parse_spec (ctx : ParseContext) (in_queue : List Spill) :
    ∃ out, worker_parse ctx in_queue = some out
      ∧ (∀ sp ∈ out, sp.data = [])
      ∧ out.map (fun sp => sp.stats) = in_queue.map (fun sp => sp.stats) := by
  unfold worker_parse
  induction in_queue with
  | nil => exact ⟨[], rfl, by simp, rfl⟩
  | cons sp rest ih =>
    obtain ⟨out, hout, hdata, hstats⟩ := ih
    obtain ⟨r, hr, hrd, hrs⟩ := worker_parse_spill_spec ctx sp
    refine ⟨r :: out, ?_, ?_, ?_⟩
    · rw [List.mapM_cons, hr, hout]
      rfl
    · intro x hx
      rcases List.mem_cons.mp hx with h | h
      · rw [h]; exact hrd
      · exact hdata x h
    · simp only [List.map_cons, hrs, hstats]

/-- C23: for every queue of spills, `worker_parse` forwards one spill per spill dequeued,
each with an empty raw buffer, whether or not hits were decoded from it, so no forwarded
spill has both a non-empty raw buffer and a non-empty hit list; the statistics of each
spill are unchanged by the decoding. -/
theorem forwarded_spills_are_decoded (ctx : ParseContext) (in_queue : List Spill) :
    ∃ out, worker_parse ctx in_queue = some out
      ∧ out.length = in_queue.length
      ∧ (∀ sp ∈ out, sp.data = [] ∧ ¬ (sp.data ≠ [] ∧ sp.hits ≠ []))
      ∧ out.map (fun sp => sp.stats) = in_queue.map (fun sp => sp.stats) := by
  obtain ⟨out, hout, hdata, hstats⟩ := worker_parse_spec ctx in_queue
  refine ⟨out, hout, ?_, ?_, hstats⟩
  · have := congrArg List.length hstats
    simpa using this
  · intro sp hsp
    exact ⟨hdata sp hsp, fun h => h.1 (hdata sp hsp)⟩

/-! ## Sizes of a hit -/

theorem set_trace_length (h : Hit) (trc : List Nat) :
    (h.set_trace trc).trace_.length = h.trace_.length := by
  unfold Hit.set_trace
  simp only [List.length_append, List.length_take, List.length_drop]
  omega

/-- C26: a `Hit` constructed from a model has as many values as the model and a trace of
exactly `model.tracelength` samples, and `set_value`, `set_trace` and
`set_timestamp_native` keep both sizes; `set_value` with an index at or past the value
count changes nothing, `value()` at such an index returns the default value, and
`set_trace` copies only the first `min(given length, trace length)` samples and leaves the
remaining samples as they were. -/
theorem hit_sizes_follow_model (sourcechan : Int) (model : HitModel) (h : Hit) :
    (Hit.new sourcechan model).value_count = model.values.length
    ∧ (Hit.new sourcechan model).trace_.length = model.tracelength
    ∧ (∀ idx val : Nat, (h.set_value idx val).value_count = h.value_count
        ∧ (h.set_value idx val).trace_.length = h.trace_.length)
    ∧ (∀ trc : List Nat, (h.set_trace trc).value_count = h.value_count
        ∧ (h.set_trace trc).trace_.length = h.trace_.length)
    ∧ (∀ native : Nat, (h.set_timestamp_native native).value_count = h.value_count
        ∧ (h.set_timestamp_native native).trace_.length = h.trace_.length)
    ∧ (∀ idx val : Nat, h.value_count ≤ idx → h.set_value idx val = h)
    ∧ (∀ idx : Nat, h.value_count ≤ idx → h.value idx = defaultDigitizedVal)
    ∧ (∀ (trc : List Nat) (i : Nat), i < min trc.length h.trace_.length →
        (h.set_trace trc).trace_[i]? = trc[i]?)
    ∧ (∀ (trc : List Nat) (i : Nat), min trc.length h.trace_.length ≤ i →
        (h.set_trace trc).trace_[i]? = h.trace_[i]?) := by
  refine ⟨rfl, ?_, ?_, ?_, ?_, ?_, ?_, ?_, ?_⟩
  · simp [Hit.new]
  · intro idx val
    unfold Hit.set_value Hit.value_count
    split
    · simp
    · exact ⟨rfl, rfl⟩
  · intro trc
    exact ⟨rfl, set_trace_length h trc⟩
  · intro native
    exact ⟨rfl, rfl⟩
  · intro idx val hidx
    unfold Hit.set_value
    unfold Hit.value_count at hidx
    rw [if_neg (by omega)]
  · intro idx hidx
    unfold Hit.value
    unfold Hit.value_count at hidx
    rw [if_neg (by omega)]
  · intro trc i hi
    unfold Hit.set_trace
    simp only
    rw [List.getElem?_append_left (by rw [List.length_take]; omega), List.getElem?_take]
    rw [if_pos hi]
  · intro trc i hi
    unfold Hit.set_trace
    simp only
    have hlen : (List.take (min trc.length h.trace_.length) trc).length
        = min trc.length h.trace_.length := by
      rw [List.length_take]; omega
    rw [List.getElem?_append_right (by rw [hlen]; exact hi), hlen, List.getElem?_drop]
    congr 1
    omega

/-- The sizes of C26 on a hit of a model with 4 values and a trace of 3 samples:
`set_value` at index 4 changes nothing, `value(7)` is the default value, and `set_trace`
with 2 samples or with 5 samples keeps 3 samples. -/
theorem hit_sizes_follow_model_witness :
    (Hit.new 0 traceModel).value_count = 4
    ∧ (Hit.new 0 traceModel).trace_.length = 3
    ∧ (Hit.new 0 traceModel).set_value 4 9 = Hit.new 0 traceModel
    ∧ (Hit.new 0 traceModel).value 7 = defaultDigitizedVal
    ∧ ((Hit.new 0 traceModel).set_trace [7, 8]).trace_[0]? = [7, 8][0]?
    ∧ ((Hit.new 0 traceModel).set_trace [7, 8]).trace_[2]? = (Hit.new 0 traceModel).trace_[2]?
    ∧ ((Hit.new 0 traceModel).set_trace [7, 8, 9, 10, 11]).trace_ = [7, 8, 9] :=
  ⟨(hit_sizes_follow_model 0 traceModel (Hit.new 0 traceModel)).1,
   (hit_sizes_follow_model 0 traceModel (Hit.new 0 traceModel)).2.1,
   (hit_sizes_follow_model 0 traceModel (Hit.new 0 traceModel)).2.2.2.2.2.1 4 9 (by decide),
   (hit_sizes_follow_model 0 traceModel (Hit.new 0 traceModel)).2.2.2.2.2.2.1 7 (by decide),
   (hit_sizes_follow_model 0 traceModel (Hit.new 0 traceModel)).2.2.2.2.2.2.2.1 [7, 8] 0
     (by decide),
   (hit_sizes_follow_model 0 traceModel (Hit.new 0 traceModel)).2.2.2.2.2.2.2.2 [7, 8] 2
     (by decide),
   by decide⟩

/-! ## Termination of the decoding -/

theorem recordPass_progress (ctx : ParseContext) (buff16 : List Nat) (cur : Cursor)
    (events : List DecodedEvent) :
    ∃ r, recordPass ctx buff16 cur events = some r ∧ cur.idx + 1 ≤ r.2.1.idx
      ∧ (r.1 = false ↔
          (word buff16 cur.idx = 0 ∨ word buff16 cur.idx > ctx.max_buf_len
            ∨ cur.idx + 1 + word buff16 cur.idx - 1 > ctx.list_mem_len16)) := by
  have hbad : badLength ctx (word buff16 cur.idx) (cur.idx + 1 + word buff16 cur.idx - 1) = true
      ↔ (word buff16 cur.idx = 0 ∨ word buff16 cur.idx > ctx.max_buf_len
            ∨ cur.idx + 1 + word buff16 cur.idx - 1 > ctx.list_mem_len16) := by
    unfold badLength
    simp only [Bool.or_eq_true, decide_eq_true_eq, or_assoc]
  obtain ⟨r, hr, hfalse, htrue, _⟩ :=
    recordPass_spec ctx buff16 (fun _ => True) (fun _ _ => trivial) cur events
  refine ⟨r, hr, ?_, ?_⟩
  · cases hb : r.1 with
    | true =>
      have := (htrue hb).2.2
      omega
    | false =>
      have hbt := (hfalse hb).1
      unfold recordPass at hr
      simp only [rd_idx, rd_val, hbt, if_true, Option.some.injEq] at hr
      rw [← hr]
      simp [rd_idx]
  · rw [← hbad]
    constructor
    · intro hb
      exact (hfalse hb).1
    · intro hb
      cases hr1 : r.1 with
      | false => rfl
      | true =>
        have := (htrue hr1).1
        rw [hb] at this
        exact Bool.noConfusion this

/-- C28: for every raw buffer content and every topology, the decoding of one spill
buffer by `worker_parse` terminates (the fuel of the record loop is enough for every
buffer, and the whole queue is worked off): each pass of the event loop and of the record
loop advances the read index by at least one word, and a pass of the record loop leaves
the loop exactly when the word count is zero or above `max_buf_len` or the record end
exceeds `list_mem_len16`. -/
theorem decoding_terminates (ctx : ParseContext) (buff16 : List Nat) :
    (∃ r, decodeBuffer ctx buff16 = some r)
    ∧ (∀ in_queue : List Spill, ∃ out, worker_parse ctx in_queue = some out)
    ∧ (∀ (hdr : RecordHeader) (cur : Cursor),
        cur.idx + 1 ≤ (parseEvent ctx buff16 hdr cur).2.idx)
    ∧ (∀ (cur : Cursor) (events : List DecodedEvent),
        ∃ r, recordPass ctx buff16 cur events = some r ∧ cur.idx + 1 ≤ r.2.1.idx
          ∧ (r.1 = false ↔
              (word buff16 cur.idx = 0 ∨ word buff16 cur.idx > ctx.max_buf_len
                ∨ cur.idx + 1 + word buff16 cur.idx - 1 > ctx.list_mem_len16))) := by
  refine ⟨?_, ?_, ?_, ?_⟩
  · obtain ⟨r, hr, _⟩ := decodeBuffer_spec ctx buff16 (fun _ => True) (fun _ _ => trivial)
    exact ⟨r, hr⟩
  · intro in_queue
    obtain ⟨out, hout, _⟩ := worker_parse_spec ctx in_queue
    exact ⟨out, hout⟩
  · intro hdr cur
    have := parseEvent_idx ctx buff16 hdr cur
    omega
  · intro cur events
    exact recordPass_progress ctx buff16 cur events

/-! ## `IsegVHS::mirrorShort` -/

theorem testBit_of_lt_65536 (x : Nat) (hx : x < 65536) (k : Nat) (hk : 16 ≤ k) :
    x.testBit k = false := by
  apply Nat.testBit_lt_two_pow
  calc x < 2 ^ 16 := hx
    _ ≤ 2 ^ k := Nat.pow_le_pow_right (by decide) hk

theorem mirrorLoop_testBit (x : Nat) :
    ∀ (i t result data : Nat), i + t = 16 →
      (∀ k, data.testBit k = (decide (k < 16) && decide (t ≤ k) && x.testBit (k - t))) →
      (∀ k, result.testBit k
          = (decide (k < 16) && decide (16 ≤ k + t) && x.testBit (31 - t - k))) →
      ∀ k, (mirrorLoop i result data).testBit k = (decide (k < 16) && x.testBit (15 - k)) := by
  intro i
  induction i with
  | zero =>
    intro t result data ht _ hres k
    have ht16 : t = 16 := by omega
    subst ht16
    unfold mirrorLoop
    rw [hres k]
    have h1 : 31 - 16 - k = 15 - k := by omega
    have h2 : decide (16 ≤ k + 16) = true := by simp
    rw [h1, h2, Bool.and_true]
  | succ i ih =>
    intro t result data ht hdata hres k
    unfold mirrorLoop
    have h65536 : (65536 : Nat) = 2 ^ 16 := by norm_num
    have h8000 : (0x8000 : Nat) = 2 ^ 15 := by norm_num
    apply ih (t + 1) _ _ (by omega)
    · intro j
      rw [h65536, Nat.testBit_mod_two_pow, Nat.testBit_shiftLeft, hdata]
      by_cases hj : j < 16
      · by_cases hj1 : 1 ≤ j
        · by_cases hjt : t + 1 ≤ j
          · have e1 : j - 1 - t = j - (t + 1) := by omega
            have e2 : t ≤ j - 1 := by omega
            have e3 : j - 1 < 16 := by omega
            simp [hj, hj1, hjt, e1, e2, e3]
          · have e2 : ¬ t ≤ j - 1 := by omega
            simp [hj, hj1, hjt, e2]
        · have e2 : ¬ t + 1 ≤ j := by omega
          simp [hj, hj1, e2]
      · simp [hj]
    · intro j
      rw [h65536, Nat.testBit_mod_two_pow, Nat.testBit_or, Nat.testBit_mod_two_pow,
        Nat.testBit_shiftRight, Nat.testBit_and, h8000, Nat.testBit_two_pow, hres, hdata]
      by_cases hj : j < 15
      · have e1 : ¬ 15 = j := by omega
        have e2 : j < 16 := by omega
        have e3 : 1 + j < 16 := by omega
        have e4 : 31 - t - (1 + j) = 31 - (t + 1) - j := by omega
        have e5 : (16 ≤ 1 + j + t) ↔ (16 ≤ j + (t + 1)) := by omega
        simp [e1, e2, e3, e4, e5]
      · by_cases hj15 : j = 15
        · subst hj15
          have e4 : 31 - (t + 1) - 15 = 15 - t := by omega
          have e5 : t ≤ 15 := by omega
          have e6 : 30 - t - 15 = 15 - t := by omega
          have e7 : 16 ≤ 15 + (t + 1) := by omega
          simp [e4, e5, e6, e7]
        · have e2 : ¬ j < 16 := by omega
          simp [e2]

theorem mirrorShort_testBit (x : Nat) (hx : x < 65536) (k : Nat) :
    (mirrorShort x).testBit k = (decide (k < 16) && x.testBit (15 - k)) := by
  unfold mirrorShort
  apply mirrorLoop_testBit x 16 0 0 x rfl
  · intro j
    by_cases hj : j < 16
    · simp [hj]
    · simp [hj, testBit_of_lt_65536 x hx j (by omega)]
  · intro j
    by_cases hj : j < 16
    · have : ¬ 16 ≤ j := by omega
      simp [hj, this]
    · simp [hj]

/-- C27: `IsegVHS::mirrorShort` mirrors the bit positions of a 16-bit word: for every
16-bit input `x` and every `k` in `0..15`, bit `k` of `mirrorShort(x)` equals bit `15-k`
of `x`; the result is a 16-bit word, and `mirrorShort(mirrorShort(x)) = x`. -/
theorem mirrorShort_mirrors_bits (x : Nat) (hx : x < 65536) :
    (∀ k, k < 16 → (mirrorShort x).testBit k = x.testBit (15 - k))
    ∧ mirrorShort x < 65536
    ∧ mirrorShort (mirrorShort x) = x := by
  have hlt : mirrorShort x < 65536 := by
    have h65536 : (65536 : Nat) = 2 ^ 16 := by norm_num
    rw [h65536]
    apply Nat.lt_pow_two_of_testBit
    intro i hi
    rw [mirrorShort_testBit x hx i]
    have : ¬ i < 16 := by omega
    simp [this]
  refine ⟨?_, hlt, ?_⟩
  · intro k hk
    rw [mirrorShort_testBit x hx k]
    simp [hk]
  · apply Nat.eq_of_testBit_eq
    intro k
    rw [mirrorShort_testBit (mirrorShort x) hlt k]
    by_cases hk : k < 16
    · rw [mirrorShort_testBit x hx (15 - k)]
      have e1 : 15 - k < 16 := by omega
      have e2 : 15 - (15 - k) = k := by omega
      simp [hk, e1, e2]
    · simp [hk, testBit_of_lt_65536 x hx k (by omega)]

/-- The mirroring of C27 on the word `0x0001`: the result is `0x8000`, and mirroring
`0x1234` twice gives `0x1234` back. -/
theorem mirrorShort_mirrors_bits_witness :
    (1 : Nat) < 65536
    ∧ mirrorShort 1 = 0x8000
    ∧ mirrorShort 0x1234 = 0x2C48
    ∧ mirrorShort (mirrorShort 0x1234) = 0x1234 :=
  ⟨by decide, by decide, by decide,
   (mirrorShort_mirrors_bits 0x1234 (by decide)).2.2⟩

/-! ## The storage holds no zero count -/

theorem derivOf_length (v : List ℚ) (hv : v ≠ []) : (derivOf v).length = v.length := by
  unfold derivOf
  have : 0 < v.length := List.length_pos.mpr hv
  simp only [List.length_cons, List.length_map, List.length_range']
  omega

theorem derivOf_head (v : List ℚ) : (derivOf v).getD 0 0 = 0 := rfl

theorem derivOf_getD (v : List ℚ) (i : Nat) (h1 : 1 ≤ i) (h2 : i < v.length) :
    (derivOf v).getD i 0 = v.getD i 0 - v.getD (i - 1) 0 := by
  unfold derivOf
  obtain ⟨k, rfl⟩ : ∃ k, i = k + 1 := ⟨i - 1, by omega⟩
  rw [List.getD_cons_succ, List.getD_eq_getElem?_getD, List.getElem?_map,
    List.getElem?_range' _ _ (by omega)]
  simp only [Option.map_some', Option.getD_some, Nat.one_mul]
  have e1 : 1 + k = k + 1 := by omega
  rw [e1]

theorem signOf_eq_one (d : ℚ) : signOf d = 1 ↔ d > 0 := by
  unfold signOf
  split
  · rename_i h; simp [h]
  · rename_i h
    split <;> simp [h]

theorem signOf_eq_neg_one (d : ℚ) : signOf d = -1 ↔ d < 0 := by
  unfold signOf
  split
  · rename_i h
    have : ¬ d < 0 := not_lt.mpr (le_of_lt h)
    simp [this]
  · split
    · rename_i h; simp [h]
    · rename_i h; simp [h]

theorem prelim_fold (w : Nat) (deriv1 : List ℚ) : ∀ n : Nat,
    (List.range n).foldl (prelimStep w deriv1) (0, [])
      = (if n = 0 then 0 else signOf (deriv1.getD (n - 1) 0),
         ((List.range n).filter (peakAt deriv1)).map (toIndex w ∘ Int.ofNat)) := by
  intro n
  induction n with
  | zero => rfl
  | succ n ih =>
    rw [List.range_succ, List.foldl_append, ih, List.filter_append, List.map_append]
    simp only [List.foldl_cons, List.foldl_nil, prelimStep, Nat.succ_ne_zero, if_false,
      Nat.add_sub_cancel]
    congr 1
    by_cases hp : peakAt deriv1 n = true
    · have hp1 := hp
      unfold peakAt at hp1
      simp only [Bool.and_eq_true, decide_eq_true_eq] at hp1
      obtain ⟨⟨h1, h2⟩, h3⟩ := hp1
      have hn : ¬ n = 0 := by omega
      have hwas : signOf (deriv1.getD (n - 1) 0) = 1 := (signOf_eq_one _).mpr h2
      have his : signOf (deriv1.getD n 0) = -1 := (signOf_eq_neg_one _).mpr h3
      have hcond : (if n = 0 then (0 : Int) else signOf (deriv1.getD (n - 1) 0)) = 1
          ∧ signOf (deriv1.getD n 0) = -1 := ⟨by rw [if_neg hn]; exact hwas, his⟩
      rw [if_pos hcond]
      simp only [List.filter_cons, hp, if_true, List.filter_nil, List.map_cons, List.map_nil,
        Function.comp]
      rfl
    · have hcond : ¬ ((if n = 0 then (0 : Int) else signOf (deriv1.getD (n - 1) 0)) = 1
          ∧ signOf (deriv1.getD n 0) = -1) := by
        rintro ⟨hwas, his⟩
        apply hp
        unfold peakAt
        by_cases hn : n = 0
        · rw [if_pos hn] at hwas
          exact absurd hwas (by decide)
        · rw [if_neg hn] at hwas
          simp only [Bool.and_eq_true, decide_eq_true_eq]
          exact ⟨⟨by omega, (signOf_eq_one _).mp hwas⟩, (signOf_eq_neg_one _).mp his⟩
      have hpf : peakAt deriv1 n = false := by simpa using hp
      rw [if_neg hcond]
      simp only [List.filter_cons, hpf, List.filter_nil, List.map_nil, List.append_nil]
      simp

theorem find_prelim_prelim (w : Nat) (f : Fitter) :
    (find_prelim w f).prelim
      = ((List.range f.deriv1.length).filter (peakAt f.deriv1)).map (toIndex w ∘ Int.ofNat) := by
  unfold find_prelim
  simp only [prelim_fold]

/-! ## The peak search: the counters and the edges -/

theorem leftLoop_bounds (deriv1 : List ℚ) : ∀ (i left : Nat), left + i < 65536 →
    left ≤ leftLoop deriv1 i left
    ∧ (¬ deriv1.getD 0 0 > 0 → 1 ≤ i → leftLoop deriv1 i left + 1 ≤ left + i)
    ∧ (1 ≤ i → deriv1.getD (i - 1) 0 > 0 → left + 1 ≤ leftLoop deriv1 i left) := by
  intro i
  induction i with
  | zero =>
    intro left _
    refine ⟨Nat.le_refl _, ?_, ?_⟩
    · intro _ h; omega
    · intro h; omega
  | succ i ih =>
    intro left hlt
    unfold leftLoop
    by_cases hpos : deriv1.getD i 0 > 0
    · rw [if_pos hpos]
      have hmod : (left + 1) % 65536 = left + 1 := Nat.mod_eq_of_lt (by omega)
      rw [hmod]
      obtain ⟨ha, hb, _⟩ := ih (left + 1) (by omega)
      refine ⟨by omega, ?_, ?_⟩
      · intro h0 _
        by_cases hi : i = 0
        · subst hi
          exact absurd hpos h0
        · have := hb h0 (by omega)
          omega
      · intro _ _
        omega
    · rw [if_neg hpos]
      refine ⟨Nat.le_refl _, ?_, ?_⟩
      · intro _ _; omega
      · intro _ h
        rw [Nat.add_sub_cancel] at h
        exact absurd h hpos

theorem rightLoop_bounds : ∀ (l : List ℚ) (right : Nat), right + l.length < 65536 →
    right ≤ rightLoop l right ∧ rightLoop l right ≤ right + l.length
    ∧ (∀ d rest, l = d :: rest → d < 0 → right + 1 ≤ rightLoop l right) := by
  intro l
  induction l with
  | nil =>
    intro right _
    refine ⟨Nat.le_refl _, Nat.le_refl _, ?_⟩
    intro d rest h
    exact absurd h (List.noConfusion)
  | cons d0 rest0 ih =>
    intro right hlt
    rw [List.length_cons] at hlt
    unfold rightLoop
    by_cases hneg : d0 < 0
    · rw [if_pos hneg]
      have hmod : (right + 1) % 65536 = right + 1 := Nat.mod_eq_of_lt (by omega)
      rw [hmod]
      obtain ⟨ha, hb, _⟩ := ih (right + 1) (by omega)
      refine ⟨by omega, ?_, ?_⟩
      · rw [List.length_cons]; omega
      · intro _ _ _ _; omega
    · rw [if_neg hneg]
      refine ⟨Nat.le_refl _, ?_, ?_⟩
      · omega
      · intro d rest h hd
        have := (List.cons.inj h).1
        rw [this] at hneg
        exact absurd hd hneg

theorem toIndex_of_small (w : Nat) (hw : 16 ≤ w) (n : Nat) (hn : n < 65536) :
    toIndex w (n : Int) = n := by
  unfold toIndex
  have hpow : (65536 : Nat) ≤ 2 ^ w := by
    calc (65536 : Nat) = 2 ^ 16 := by norm_num
      _ ≤ 2 ^ w := Nat.pow_le_pow_right (by decide) hw
  have hlt : (n : Int) < 2 ^ w := by
    have : n < 2 ^ w := by omega
    exact_mod_cast this
  rw [Int.emod_eq_of_lt (Int.ofNat_nonneg n) hlt]
  rfl

theorem edgesOrdered_push (size : Nat) (lefts filtered rights : List Nat) (l m r : Nat)
    (h : EdgesOrdered size lefts filtered rights) (hlm : l < m) (hmr : m < r)
    (hr : r ≤ size - 1) :
    EdgesOrdered size (lefts ++ [l]) (filtered ++ [m]) (rights ++ [r]) := by
  obtain ⟨h1, h2, h3⟩ := h
  refine ⟨?_, ?_, ?_⟩
  · simp only [List.length_append, List.length_singleton, h1]
  · simp only [List.length_append, List.length_singleton, h2]
  · intro k hk
    simp only [List.length_append, List.length_singleton] at hk
    by_cases hkl : k < filtered.length
    · rw [List.getD_append _ _ _ _ (by omega), List.getD_append _ _ _ _ hkl,
        List.getD_append _ _ _ _ (by omega)]
      exact h3 k hkl
    · have hke : k = filtered.length := by omega
      rw [List.getD_append_right _ _ _ _ (by omega),
        List.getD_append_right _ _ _ _ (by omega),
        List.getD_append_right _ _ _ _ (by omega)]
      have e1 : k - lefts.length = 0 := by omega
      have e2 : k - filtered.length = 0 := by omega
      have e3 : k - rights.length = 0 := by omega
      rw [e1, e2, e3]
      exact ⟨hlm, hmr, hr⟩

theorem edgesOrdered_nil (size : Nat) : EdgesOrdered size [] [] [] := by
  refine ⟨rfl, rfl, ?_⟩
  intro k hk
  exact absurd hk (Nat.not_lt_zero k)

theorem filterStep_ordered (w : Nat) (hw : 16 ≤ w) (deriv1 : List ℚ) (min_width : Nat)
    (hD0 : ¬ deriv1.getD 0 0 > 0) (hn : deriv1.length ≤ 65536) (st : Edges) (q : Nat)
    (hq : q < deriv1.length ∧ 1 ≤ q ∧ deriv1.getD (q - 1) 0 > 0 ∧ deriv1.getD q 0 < 0)
    (hst : EdgesOrdered deriv1.length st.lefts st.filtered st.rights) :
    EdgesOrdered deriv1.length (filterStep w deriv1 min_width st q).lefts
      (filterStep w deriv1 min_width st q).filtered
      (filterStep w deriv1 min_width st q).rights := by
  obtain ⟨hq1, hq2, hq3, hq4⟩ := hq
  obtain ⟨_, hlb, hlc⟩ := leftLoop_bounds deriv1 q 0 (by omega)
  have hl1 := hlb hD0 hq2
  have hl2 := hlc hq2 hq3
  have hdrop : deriv1.drop q = deriv1[q] :: deriv1.drop (q + 1) :=
    List.drop_eq_getElem_cons hq1
  have hget : deriv1.getD q 0 = deriv1[q] := by
    rw [List.getD_eq_getElem?_getD, List.getElem?_eq_getElem hq1]
    rfl
  obtain ⟨_, hrb, hrc⟩ := rightLoop_bounds (deriv1.drop q) 0
    (by rw [List.length_drop]; omega)
  rw [List.length_drop] at hrb
  have hr2 := hrc _ _ hdrop (by rw [← hget]; exact hq4)
  unfold filterStep
  rw [if_neg (by omega)]
  simp only
  split
  · have e1 : (q : Int) - (leftLoop deriv1 q 0 : Int) - 1
        = ((q - leftLoop deriv1 q 0 - 1 : Nat) : Int) := by omega
    have e2 : (q : Int) - 1 = ((q - 1 : Nat) : Int) := by omega
    have e3 : (q : Int) + (rightLoop (List.drop q deriv1) 0 : Int) - 1
        = ((q + rightLoop (List.drop q deriv1) 0 - 1 : Nat) : Int) := by omega
    rw [e1, e2, e3, toIndex_of_small w hw _ (by omega), toIndex_of_small w hw _ (by omega),
      toIndex_of_small w hw _ (by omega)]
    exact edgesOrdered_push _ _ _ _ _ _ _ hst (by omega) (by omega) (by omega)
  · exact hst

theorem filter_prelim_ordered (w : Nat) (hw : 16 ≤ w) (f : Fitter) (min_width : Nat)
    (hD0 : ¬ f.deriv1.getD 0 0 > 0) (hn : f.deriv1.length ≤ 65536)
    (hq : ∀ q ∈ f.prelim, q < f.deriv1.length ∧ 1 ≤ q ∧ f.deriv1.getD (q - 1) 0 > 0
      ∧ f.deriv1.getD q 0 < 0) :
    EdgesOrdered f.deriv1.length (filter_prelim w f min_width).lefts
      (filter_prelim w f min_width).filtered (filter_prelim w f min_width).rights
    ∧ (filter_prelim w f min_width).deriv1 = f.deriv1 := by
  unfold filter_prelim
  split
  · exact ⟨edgesOrdered_nil _, rfl⟩
  · refine ⟨?_, rfl⟩
    simp only
    apply foldl_invariant (filterStep w f.deriv1 min_width)
      (fun st => EdgesOrdered f.deriv1.length st.lefts st.filtered st.rights)
    · intro st q hmem hst
      exact filterStep_ordered w hw f.deriv1 min_width hD0 hn st q (hq q hmem) hst
    · exact edgesOrdered_nil _

theorem find_prelim_members (w : Nat) (hw : 16 ≤ w) (f : Fitter)
    (hn : f.deriv1.length ≤ 65536) :
    ∀ q ∈ (find_prelim w f).prelim, q < f.deriv1.length ∧ 1 ≤ q
      ∧ f.deriv1.getD (q - 1) 0 > 0 ∧ f.deriv1.getD q 0 < 0 := by
  intro q hq
  rw [find_prelim_prelim, List.mem_map] at hq
  obtain ⟨i, hi, hiq⟩ := hq
  rw [List.mem_filter, List.mem_range] at hi
  obtain ⟨hi1, hi2⟩ := hi
  have hqi : q = i := by
    rw [← hiq]
    exact toIndex_of_small w hw i (by omega)
  subst hqi
  unfold peakAt at hi2
  simp only [Bool.and_eq_true, decide_eq_true_eq] at hi2
  exact ⟨hi1, hi2.1.1, hi2.1.2, hi2.2⟩

/-- C29 as amended: when `deriv1` was produced by `Fitter::deriv` from at most 65536
samples and `prelim` by `Fitter::find_prelim`, then after `filter_prelim(min_width)` the
lists `lefts`, `filtered` and `rights` have equal length and for every `k`,
`0 <= lefts[k] < filtered[k] < rights[k] <= deriv1.size()-1`, for every such input and
every `min_width`; no left edge underflows below index 0 (an underflow would wrap to an
index above `filtered[k]`). The index type has at least 16 bits. -/
theorem peak_edges_ordered (w : Nat) (hw : 16 ≤ w) (f : Fitter) (hy : f.y_avg_ ≠ [])
    (hsize : f.y_avg_.length ≤ 65536) (min_width : Nat) :
    (deriv f).deriv1.length = f.y_avg_.length
    ∧ (filter_prelim w (find_prelim w (deriv f)) min_width).deriv1 = (deriv f).deriv1
    ∧ (filter_prelim w (find_prelim w (deriv f)) min_width).lefts.length
        = (filter_prelim w (find_prelim w (deriv f)) min_width).filtered.length
    ∧ (filter_prelim w (find_prelim w (deriv f)) min_width).rights.length
        = (filter_prelim w (find_prelim w (deriv f)) min_width).filtered.length
    ∧ (∀ k, k < (filter_prelim w (find_prelim w (deriv f)) min_width).filtered.length →
        (filter_prelim w (find_prelim w (deriv f)) min_width).lefts.getD k 0
          < (filter_prelim w (find_prelim w (deriv f)) min_width).filtered.getD k 0
        ∧ (filter_prelim w (find_prelim w (deriv f)) min_width).filtered.getD k 0
          < (filter_prelim w (find_prelim w (deriv f)) min_width).rights.getD k 0
        ∧ (filter_prelim w (find_prelim w (deriv f)) min_width).rights.getD k 0
          ≤ (deriv f).deriv1.length - 1) := by
  have hlen0 : ¬ f.y_avg_.length = 0 := fun h => hy (List.length_eq_zero.mp h)
  have hd1 : (deriv f).deriv1 = derivOf f.y_avg_ := by
    unfold deriv
    rw [if_neg hlen0]
  have hlen : (deriv f).deriv1.length = f.y_avg_.length := by
    rw [hd1]; exact derivOf_length _ hy
  generalize hg : deriv f = g at hd1 hlen
  have hfd : (find_prelim w g).deriv1 = g.deriv1 := rfl
  have hD0 : ¬ (find_prelim w g).deriv1.getD 0 0 > 0 := by
    rw [hfd, hd1, derivOf_head]
    exact lt_irrefl 0
  have hmem := find_prelim_members w hw g (by omega)
  obtain ⟨⟨h1, h2, h3⟩, h4⟩ := filter_prelim_ordered w hw (find_prelim w g) min_width hD0
    (by rw [hfd]; omega) (by rw [hfd]; exact hmem)
  rw [hfd] at h3 h4
  exact ⟨hlen, h4, h1, h2, h3⟩

/-- The amended C29 on eight samples with two peaks: the edges are `0 < 2 < 4` and
`5 < 6 < 7`. -/
theorem peak_edges_ordered_witness :
    smallFitter.y_avg_ ≠ []
    ∧ smallFitter.y_avg_.length ≤ 65536
    ∧ (filter_prelim 16 (find_prelim 16 (deriv smallFitter)) 0).lefts.length
        = (filter_prelim 16 (find_prelim 16 (deriv smallFitter)) 0).filtered.length
    ∧ (filter_prelim 16 (find_prelim 16 (deriv smallFitter)) 0).lefts = [0, 5]
    ∧ (filter_prelim 16 (find_prelim 16 (deriv smallFitter)) 0).filtered = [2, 6]
    ∧ (filter_prelim 16 (find_prelim 16 (deriv smallFitter)) 0).rights = [4, 7] := by
  refine ⟨by decide, by decide,
    (peak_edges_ordered 16 (by decide) smallFitter (by decide) (by decide) 0).2.2.1,
    ?_, ?_, ?_⟩
  · decide!
  · decide!
  · decide!

/-! ## The peak search on a run of 65536 rising samples -/

theorem leftLoop_run (deriv1 : List ℚ) (h0 : ¬ deriv1.getD 0 0 > 0) :
    ∀ (k left : Nat), left < 65536 → (∀ j, 1 ≤ j → j ≤ k → deriv1.getD j 0 > 0) →
      leftLoop deriv1 (k + 1) left = (left + k) % 65536 := by
  intro k
  induction k with
  | zero =>
    intro left hleft _
    unfold leftLoop
    rw [if_neg h0, Nat.add_zero, Nat.mod_eq_of_lt hleft]
  | succ k ih =>
    intro left _ hpos
    unfold leftLoop
    rw [if_pos (hpos (k + 1) (by omega) (Nat.le_refl _)),
      ih ((left + 1) % 65536) (Nat.mod_lt _ (by decide))
        (fun j hj1 hj2 => hpos j hj1 (by omega))]
    omega

theorem filter_prelim_single (w : Nat) (g : Fitter) (q min_width : Nat)
    (hy : ¬ g.y_.length < 3) (hp : g.prelim = [q]) :
    (filter_prelim w g min_width).lefts
        = (filterStep w g.deriv1 min_width ⟨[], [], []⟩ q).lefts
    ∧ (filter_prelim w g min_width).filtered
        = (filterStep w g.deriv1 min_width ⟨[], [], []⟩ q).filtered
    ∧ (filter_prelim w g min_width).rights
        = (filterStep w g.deriv1 min_width ⟨[], [], []⟩ q).rights := by
  have hc : ¬ (g.y_.length < 3 ∨ g.prelim.length = 0) := by
    rw [hp]
    rintro (h | h)
    · exact hy h
    · exact absurd h (Nat.succ_ne_zero 0)
  unfold filter_prelim
  rw [if_neg hc, hp]
  exact ⟨rfl, rfl, rfl⟩

theorem find_prelim_long_run (w : Nat) (f : Fitter) (hlen : f.deriv1.length = 65538)
    (hpos : ∀ j, 1 ≤ j → j ≤ 65536 → f.deriv1.getD j 0 > 0)
    (hneg : f.deriv1.getD 65537 0 < 0) :
    (find_prelim w f).prelim = [toIndex w 65537] := by
  have hfilter : (List.range 65538).filter (peakAt f.deriv1) = [65537] := by
    apply filter_range_eq_of_sorted
    · exact List.sorted_singleton _
    · intro x
      rw [List.mem_singleton]
      unfold peakAt
      simp only [Bool.and_eq_true, decide_eq_true_eq]
      constructor
      · intro hx
        subst hx
        exact ⟨by omega, ⟨by omega, hpos 65536 (by omega) (by omega)⟩, hneg⟩
      · rintro ⟨hx, ⟨hx1, _⟩, hx3⟩
        by_cases hle : x ≤ 65536
        · exact absurd hx3 (not_lt.mpr (le_of_lt (hpos x hx1 hle)))
        · omega
  rw [find_prelim_prelim, hlen, hfilter]
  rfl

theorem filterStep_long_run_16 (deriv1 : List ℚ) (hlen : deriv1.length = 65538)
    (h0 : deriv1.getD 0 0 = 0)
    (hpos : ∀ j, 1 ≤ j → j ≤ 65536 → deriv1.getD j 0 > 0) :
    filterStep 16 deriv1 0 ⟨[], [], []⟩ 1 = ⟨[0], [0], [0]⟩ := by
  have hleft : leftLoop deriv1 1 0 = 0 := by
    unfold leftLoop
    rw [if_neg (by rw [h0]; exact lt_irrefl 0)]
  have hlt : 1 < deriv1.length := by omega
  have hget : deriv1.getD 1 0 = deriv1[1] := by
    rw [List.getD_eq_getElem?_getD, List.getElem?_eq_getElem hlt]
    rfl
  have hright : rightLoop (deriv1.drop 1) 0 = 0 := by
    rw [List.drop_eq_getElem_cons hlt]
    unfold rightLoop
    rw [if_neg]
    rw [← hget]
    exact not_lt.mpr (le_of_lt (hpos 1 (by omega) (by omega)))
  unfold filterStep
  rw [if_neg (by decide), hleft, hright]
  rfl

theorem filterStep_long_run_64 (deriv1 : List ℚ) (hlen : deriv1.length = 65538)
    (h0 : deriv1.getD 0 0 = 0)
    (hpos : ∀ j, 1 ≤ j → j ≤ 65536 → deriv1.getD j 0 > 0)
    (hneg : deriv1.getD 65537 0 < 0) :
    filterStep 64 deriv1 0 ⟨[], [], []⟩ 65537 = ⟨[65536], [65536], [65537]⟩ := by
  have hleft : leftLoop deriv1 65537 0 = 0 :=
    leftLoop_run deriv1 (by rw [h0]; exact lt_irrefl 0) 65536 0 (by decide) hpos
  have hlt : 65537 < deriv1.length := by omega
  have hget : deriv1.getD 65537 0 = deriv1[65537] := by
    rw [List.getD_eq_getElem?_getD, List.getElem?_eq_getElem hlt]
    rfl
  have hnil : deriv1.drop (65537 + 1) = [] := by
    apply List.drop_eq_nil_of_le
    omega
  have hright : rightLoop (deriv1.drop 65537) 0 = 1 := by
    rw [List.drop_eq_getElem_cons hlt, hnil]
    unfold rightLoop
    rw [if_pos (by rw [← hget]; exact hneg)]
    rfl
  unfold filterStep
  rw [if_neg (by decide), hleft, hright]
  rfl

theorem rampFitter_getD (i : Nat) (hi : i < 65537) : rampFitter.y_avg_.getD i 0 = (i : ℚ) := by
  show rampSamples.getD i 0 = (i : ℚ)
  unfold rampSamples
  rw [List.getD_append _ _ _ _ (by rw [List.length_map, List.length_range]; exact hi),
    List.getD_eq_getElem?_getD, List.getElem?_map, List.getElem?_range hi]
  rfl

theorem rampFitter_last : rampFitter.y_avg_.getD 65537 0 = 65535 := by
  show rampSamples.getD 65537 0 = 65535
  unfold rampSamples
  rw [List.getD_append_right _ _ _ _ (by rw [List.length_map, List.length_range]),
    List.length_map, List.length_range]
  rfl

theorem rampFitter_length : rampFitter.y_avg_.length = 65538 := by
  show rampSamples.length = 65538
  unfold rampSamples
  rw [List.length_append, List.length_map, List.length_range]
  rfl

theorem rampFitter_deriv :
    (deriv rampFitter).deriv1.length = 65538
    ∧ (deriv rampFitter).deriv1.getD 0 0 = 0
    ∧ (∀ j, 1 ≤ j → j ≤ 65536 → (deriv rampFitter).deriv1.getD j 0 > 0)
    ∧ (deriv rampFitter).deriv1.getD 65537 0 < 0
    ∧ ¬ (deriv rampFitter).y_.length < 3 := by
  have hne : rampFitter.y_avg_ ≠ [] := by
    intro h
    have := congrArg List.length h
    rw [rampFitter_length] at this
    exact absurd this (by decide)
  have hd1 : (deriv rampFitter).deriv1 = derivOf rampFitter.y_avg_ := by
    unfold deriv
    rw [if_neg (by rw [rampFitter_length]; decide)]
  have hy : ¬ (deriv rampFitter).y_.length < 3 := by
    have hyl : (deriv rampFitter).y_ = rampFitter.y_avg_ := by
      unfold deriv
      rw [if_neg (by rw [rampFitter_length]; decide)]
      rfl
    rw [hyl, rampFitter_length]
    decide
  rw [hd1]
  refine ⟨?_, derivOf_head _, ?_, ?_, hy⟩
  · rw [derivOf_length _ hne, rampFitter_length]
  · intro j hj1 hj2
    rw [derivOf_getD _ j hj1 (by rw [rampFitter_length]; omega),
      rampFitter_getD j (by omega), rampFitter_getD (j - 1) (by omega)]
    have : ((j - 1 : Nat) : ℚ) = (j : ℚ) - 1 := by
      rw [Nat.cast_sub hj1]; simp
    rw [this]
    norm_num
  · rw [derivOf_getD _ 65537 (by decide) (by rw [rampFitter_length]; decide),
      rampFitter_last, rampFitter_getD 65536 (by decide)]
    norm_num

theorem filter_prelim_long_run (g : Fitter) (hy : ¬ g.y_.length < 3)
    (hlen : g.deriv1.length = 65538) (h0 : g.deriv1.getD 0 0 = 0)
    (hpos : ∀ j, 1 ≤ j → j ≤ 65536 → g.deriv1.getD j 0 > 0)
    (hneg : g.deriv1.getD 65537 0 < 0) :
    (filter_prelim 16 (find_prelim 16 g) 0).lefts = [0]
    ∧ (filter_prelim 16 (find_prelim 16 g) 0).filtered = [0]
    ∧ (filter_prelim 64 (find_prelim 64 g) 0).lefts = [65536]
    ∧ (filter_prelim 64 (find_prelim 64 g) 0).filtered = [65536] := by
  have hy3 : ∀ w, ¬ (find_prelim w g).y_.length < 3 := by
    intro w
    have : (find_prelim w g).y_ = g.y_ := rfl
    rw [this]
    exact hy
  have hfd : ∀ w, (find_prelim w g).deriv1 = g.deriv1 := fun _ => rfl
  have e16 : toIndex 16 65537 = 1 := by decide
  have e64 : toIndex 64 65537 = 65537 := by decide
  have hp16 : (find_prelim 16 g).prelim = [1] := by
    rw [find_prelim_long_run 16 g hlen hpos hneg, e16]
  have hp64 : (find_prelim 64 g).prelim = [65537] := by
    rw [find_prelim_long_run 64 g hlen hpos hneg, e64]
  obtain ⟨a16, b16, _⟩ := filter_prelim_single 16 (find_prelim 16 g) 1 0 (hy3 16) hp16
  obtain ⟨a64, b64, _⟩ := filter_prelim_single 64 (find_prelim 64 g) 65537 0 (hy3 64) hp64
  rw [hfd, filterStep_long_run_16 g.deriv1 hlen h0 hpos] at a16 b16
  rw [hfd, filterStep_long_run_64 g.deriv1 hlen h0 hpos hneg] at a64 b64
  exact ⟨a16, b16, a64, b64⟩

/-- C29 as stated fails on an input with a run of 65536 rising samples: for the 65538
averaged samples `0, 1, ..., 65536, 65535` and `min_width = 0`, `filter_prelim` leaves one
candidate whose left edge equals its centre, `lefts[0] = filtered[0]`, with 16-bit indices
(the candidate index 65537 is stored as 1) and with 64-bit indices (the `uint16_t` counter
`left` wraps from 65535 to 0). -/
theorem peak_edges_fail_on_long_run :
    rampFitter.y_avg_.length = 65538
    ∧ (filter_prelim 16 (find_prelim 16 (deriv rampFitter)) 0).lefts = [0]
    ∧ (filter_prelim 16 (find_prelim 16 (deriv rampFitter)) 0).filtered = [0]
    ∧ ¬ ((filter_prelim 16 (find_prelim 16 (deriv rampFitter)) 0).lefts.getD 0 0
          < (filter_prelim 16 (find_prelim 16 (deriv rampFitter)) 0).filtered.getD 0 0)
    ∧ (filter_prelim 64 (find_prelim 64 (deriv rampFitter)) 0).lefts = [65536]
    ∧ (filter_prelim 64 (find_prelim 64 (deriv rampFitter)) 0).filtered = [65536]
    ∧ ¬ ((filter_prelim 64 (find_prelim 64 (deriv rampFitter)) 0).lefts.getD 0 0
          < (filter_prelim 64 (find_prelim 64 (deriv rampFitter)) 0).filtered.getD 0 0) := by
  obtain ⟨hlen, h0, hpos, hneg, hy⟩ := rampFitter_deriv
  obtain ⟨a16, b16, a64, b64⟩ :=
    filter_prelim_long_run (deriv rampFitter) hy hlen h0 hpos hneg
  refine ⟨rampFitter_length, a16, b16, ?_, a64, b64, ?_⟩
  · rw [a16, b16]
    decide
  · rw [a64, b64]
    decide

/-! ## The moving average -/

theorem deriv_y_avg (g : Fitter) : (deriv g).y_avg_ = g.y_avg_ := by
  unfold deriv
  split <;> rfl

theorem set_mov_avg_length (f : Fitter) (window : Nat) :
    (set_mov_avg f window).1.y_avg_.length = f.y_.length := by
  unfold set_mov_avg
  simp only
  generalize (if window % 2 = 0 then (window + 1) % 65536 else window) = w
  by_cases h : f.y_.length < w
  · rw [if_pos h]
  · rw [if_neg h, deriv_y_avg]
    simp only
    apply foldl_invariant (movAvgStep f.y_ _ _) (fun st => st.y_avg_.length = f.y_.length)
    · intro st i _ hst
      unfold movAvgStep
      simp only [List.length_set]
      exact hst
    · rfl

/-- C30 fails on three samples and the window 3: the resulting `y_avg_` has the length
of `y_`, and in the pass `i = 2` of the main loop the test `(i + half) > y_.size()` is
`3 > 3`, false, so `y_[i + half]` reads `y_[3]`, one past the last sample. -/
theorem mov_avg_reads_past_end :
    threeSamples.y_.length = 3
    ∧ (set_mov_avg threeSamples 3).2 = [3, 0, 2, 0, 1, 0, 0, 0]
    ∧ (∃ i ∈ (set_mov_avg threeSamples 3).2, ¬ i < threeSamples.y_.length)
    ∧ (set_mov_avg threeSamples 3).1.y_avg_.length = threeSamples.y_.length := by
  have hreads : (set_mov_avg threeSamples 3).2 = [3, 0, 2, 0, 1, 0, 0, 0] := by decide
  refine ⟨rfl, hreads, ?_, set_mov_avg_length _ _⟩
  rw [hreads]
  exact ⟨3, by decide, by decide⟩

theorem movAvg_reads (y_ : List ℚ) (window half : Nat) : ∀ (l : List Nat) (st : MovAvg),
    (∀ r ∈ st.reads, r ∈ (l.foldl (movAvgStep y_ window half) st).reads)
    ∧ (∀ i ∈ l, (if i + half > y_.length then y_.length - 1 else i + half)
        ∈ (l.foldl (movAvgStep y_ window half) st).reads) := by
  intro l
  induction l with
  | nil =>
    intro st
    exact ⟨fun r hr => hr, fun i hi => absurd hi (List.not_mem_nil _)⟩
  | cons a rest ih =>
    intro st
    rw [List.foldl_cons]
    obtain ⟨h1, h2⟩ := ih (movAvgStep y_ window half st a)
    refine ⟨?_, ?_⟩
    · intro r hr
      apply h1
      unfold movAvgStep
      simp only [List.mem_cons]
      right; right; exact hr
    · intro i hi
      rcases List.mem_cons.mp hi with h | h
      · apply h1
        rw [h]
        unfold movAvgStep
        simp only [List.mem_cons]
        left; trivial
      · exact h2 i h

theorem set_mov_avg_reads_size (f : Fitter) (window : Nat) (hodd : window % 2 = 1)
    (h3 : 3 ≤ window) (hw : window < 65536) (hsize : window ≤ f.y_.length) :
    f.y_.length ∈ (set_mov_avg f window).2 := by
  have hwin : (if window % 2 = 0 then (window + 1) % 65536 else window) = window :=
    if_neg (by omega)
  unfold set_mov_avg
  simp only [hwin]
  rw [if_neg (by omega)]
  simp only
  have hhalf : (window - 1) / 2 % 65536 = (window - 1) / 2 := Nat.mod_eq_of_lt (by omega)
  rw [hhalf]
  have hmem : f.y_.length - (window - 1) / 2 ∈ List.range f.y_.length := by
    rw [List.mem_range]; omega
  have := (movAvg_reads f.y_ window ((window - 1) / 2) (List.range f.y_.length)
    { avg := (List.foldl (fun a i => a + f.y_.getD i 0)
        (((((window - 1) / 2 : Nat) : ℚ) + 1) * f.y_.getD 0 0)
        (List.range ((window - 1) / 2))) / (window : ℚ),
      y_avg_ := f.y_, reads := (List.range ((window - 1) / 2)).reverse ++ [0] }).2
    (f.y_.length - (window - 1) / 2) hmem
  rw [if_neg (by omega)] at this
  have e : f.y_.length - (window - 1) / 2 + (window - 1) / 2 = f.y_.length := by omega
  rw [e] at this
  exact this

end Qpx
